import Mathlib

/-! Surface Nets chunk (UE5VoxelTutorial): embedding of `SurfaceNets.h` and `SurfaceNets.cpp`.

Conventions of the embedding.  The code is embedded twice.

* The exact embedding (`ASurfaceNets`, `GenerateMesh`, `ModifyVoxelData`, ...) takes `float`
  values as exact rationals (`ℚ`) and `int` / `int32` values as unbounded integers.  Rounding,
  infinities, NaN and the negative zero are not represented; the sign-bit test
  `bit_cast<uint32>(Value) & 0x80000000` is `Value < 0`, and a float division by a zero count has
  no numeric result (the position becomes `none`).  It carries the properties of the control
  flow: which cells are visited, which flat indices are read and written, which vertices and
  triangles are appended, and the behaviour on zero densities.
* The machine embedding (`Machine.ASurfaceNets`, `Machine.GenerateMesh`,
  `Machine.ModifyVoxelData`, ...) computes as the compiled code does: `float` is IEEE 754
  binary32 and the components of `FVector` are binary64, both with round to nearest, ties to
  even, with signed zeros, infinities and NaN (the payload of a NaN is not represented); the
  sign-bit test reads the sign bit; the products of `Setup` and `GetVoxelIndex` wrap at 32
  bits.  It carries the properties that depend on the value or on the sign bit of a stored
  density, and on the range of `int32`.
* `TArray<T>` is a `List T`; `operator[]` is a checked access (`readAt` / `writeAt`) that fails
  with `none` outside `[0, Num())`, `Add` appends at the end.
* Engine functions whose code is not part of the repository (`FMath::Sqrt`,
  `FVector::Normalize`) are parameters of the definitions that call them.
-/

namespace SurfaceNets

/-! ## Vectors -/

/-- Integer vector `FIntVector3` (also `FIntVector`). -/
structure FIntVector3 where
  X : Int
  Y : Int
  Z : Int
deriving DecidableEq, Repr

/-- Component access `V[Axis]` of an integer vector: 0 is X, 1 is Y, 2 is Z. -/
def FIntVector3.get (V : FIntVector3) (Axis : Nat) : Int :=
  match Axis with
  | 0 => V.X
  | 1 => V.Y
  | _ => V.Z

/-- Floating-point vector `FVector`, over exact rationals. -/
structure FVector where
  X : ℚ
  Y : ℚ
  Z : ℚ
deriving DecidableEq, Repr

/-- Component-wise sum `A + B`. -/
def FVector.add (A B : FVector) : FVector := ⟨A.X + B.X, A.Y + B.Y, A.Z + B.Z⟩

/-- Component-wise difference `A - B`. -/
def FVector.sub (A B : FVector) : FVector := ⟨A.X - B.X, A.Y - B.Y, A.Z - B.Z⟩

/-- Scaling `T * A`. -/
def FVector.scale (T : ℚ) (A : FVector) : FVector := ⟨T * A.X, T * A.Y, T * A.Z⟩

/-- Division by a scalar `A / D`. -/
def FVector.divide (A : FVector) (D : ℚ) : FVector := ⟨A.X / D, A.Y / D, A.Z / D⟩

/-! ## Lookup tables (`SurfaceNets.h`) -/

/-- Table constant `AxisMask = 0x1F`. -/
def AxisMask : Nat := 0x1F

/-- Table `AxisFlags[32]`. -/
def AxisFlags : List Nat :=
  [0,7,1,6,2,5,3,4,0,7,1,6,2,5,3,4,4,3,5,2,6,1,7,0,4,3,5,2,6,1,7,0]

/-- Table `VertexOffset[8]`: integer offsets of the cube corners. -/
def VertexOffset : Fin 8 → FIntVector3 :=
  ![⟨0,0,0⟩, ⟨1,0,0⟩,
    ⟨0,1,0⟩, ⟨1,1,0⟩,
    ⟨0,0,1⟩, ⟨1,0,1⟩,
    ⟨0,1,1⟩, ⟨1,1,1⟩]

/-- Table `VertexFloats[8]`: the same corners as floating-point positions. -/
def VertexFloats : Fin 8 → FVector :=
  ![⟨0,0,0⟩, ⟨1,0,0⟩,
    ⟨0,1,0⟩, ⟨1,1,0⟩,
    ⟨0,0,1⟩, ⟨1,0,1⟩,
    ⟨0,1,1⟩, ⟨1,1,1⟩]

/-- Table `Edges[16][2]`: 12 cube edges followed by the 4 lines between opposing corners. -/
def Edges : Fin 16 → Fin 8 × Fin 8 :=
  ![(0,1),(1,3),(3,2),(2,0),
    (4,5),(5,7),(7,6),(6,4),
    (0,4),(1,5),(3,7),(2,6),
    (0,7),(1,6),(2,5),(3,4)]

/-! ## Chunk state -/

/-- Mesh buffers `MeshData` (the members used by `ASurfaceNets`).  A vertex is `none` when its
position is the quotient by a zero intersection count. -/
structure FChunkMeshData where
  Vertices : List (Option FVector)
  Normals : List FVector
  Triangles : List Int
deriving DecidableEq

/-- Block kinds: the code only tests `Block == EVoxelTutorialBlock::Air`. -/
inductive EVoxelTutorialBlock where
  | Air
  | Stone
deriving DecidableEq

/-- Members of `ASurfaceNets`, with the members of its base class that its code uses
(`Size`, `BlockSize`, `VertexCount`, `MeshData`). -/
structure ASurfaceNets where
  Size : Int
  BlockSize : ℚ
  AxisOffsets : FIntVector3
  Voxels : List ℚ
  VertexCount : Int
  MeshData : FChunkMeshData

/-! ## Checked array access -/

/-- Read `A[I]`; `none` when `I` is outside `[0, A.Num())`. -/
def readAt {α : Type} (A : List α) (I : Int) : Option α :=
  if 0 ≤ I then A[I.toNat]? else none

/-- Write `A[I] = V`; `none` when `I` is outside `[0, A.Num())`. -/
def writeAt {α : Type} (A : List α) (I : Int) (V : α) : Option (List α) :=
  if 0 ≤ I ∧ I.toNat < A.length then some (A.set I.toNat V) else none

/-- Resize `A.SetNum(N)`: keep the first `N` elements, pad with zeros. -/
def setNum (A : List ℚ) (N : Int) : List ℚ :=
  A.take N.toNat ++ List.replicate (N.toNat - A.length) 0

/-! ## `Setup`, `GetVoxelIndex` -/

/-- Embedding of `ASurfaceNets::Setup`. -/
def Setup (s : ASurfaceNets) : ASurfaceNets :=
  let PaddedSize := s.Size + 2
  let AxisOffsets : FIntVector3 := ⟨1, PaddedSize, PaddedSize * PaddedSize⟩
  { s with AxisOffsets := AxisOffsets, Voxels := setNum s.Voxels (AxisOffsets.Y * AxisOffsets.Z) }

/-- Embedding of `ASurfaceNets::GetVoxelIndex`. -/
def GetVoxelIndex (s : ASurfaceNets) (Position : FIntVector3) : Int :=
  Position.Z * s.AxisOffsets.Z + Position.Y * s.AxisOffsets.Y + Position.X

/-! ## `ComputeSDFSurface` -/

/-- One iteration of the edge loop, up to the `Edge == 12` test: accumulate the intersection of
edge `Edge` when the two corner values have a negative product. -/
def ComputeSDFSurface.edge (Cube : Fin 8 → ℚ) (Edge : Fin 16) (acc : FVector × Nat) : FVector × Nat :=
  let V0 := (Edges Edge).1
  let V1 := (Edges Edge).2
  let SDF0 := Cube V0
  let SDF1 := Cube V1
  if SDF0 * SDF1 < 0 then
    let T := SDF0 / (SDF0 - SDF1)
    let Intersection :=
      (VertexFloats V0).add (FVector.scale T ((VertexFloats V1).sub (VertexFloats V0)))
    (acc.1.add Intersection, acc.2 + 1)
  else acc

/-- The loop `for (Edge = 15; Edge >= 0; --Edge)` with `n = Edge + 1` iterations left and its
`break` after edge 12 once three intersections were found. -/
def ComputeSDFSurface.loop (Cube : Fin 8 → ℚ) : (n : Nat) → n ≤ 16 → FVector × Nat → FVector × Nat
  | 0, _, acc => acc
  | Edge + 1, h, acc =>
    let acc1 := ComputeSDFSurface.edge Cube ⟨Edge, by omega⟩ acc
    if Edge = 12 ∧ 3 ≤ acc1.2 then acc1
    else ComputeSDFSurface.loop Cube Edge (by omega) acc1

/-- Number of intersections `IntersectionCount` at the end of the edge loop. -/
def IntersectionCount (Cube : Fin 8 → ℚ) : Nat :=
  (ComputeSDFSurface.loop Cube 16 (le_refl 16) (⟨0, 0, 0⟩, 0)).2

/-- Value of `PositionSum` at the end of the edge loop. -/
def PositionSum (Cube : Fin 8 → ℚ) : FVector :=
  (ComputeSDFSurface.loop Cube 16 (le_refl 16) (⟨0, 0, 0⟩, 0)).1

/-- Embedding of `ASurfaceNets::ComputeSDFSurface`: the pair `(OutPosition, OutNormal)`.
`OutPosition` is `none` when `IntersectionCount` is zero. -/
def ComputeSDFSurface (Normalize : FVector → FVector) (Cube : Fin 8 → ℚ) :
    Option FVector × FVector :=
  let OutPosition :=
    if IntersectionCount Cube = 0 then none
    else some ((PositionSum Cube).divide (IntersectionCount Cube : ℚ))
  let OutNormal : FVector :=
    ⟨Cube 1 - Cube 0 + Cube 7 - Cube 6, Cube 2 - Cube 0 + Cube 7 - Cube 5,
     Cube 4 - Cube 0 + Cube 7 - Cube 3⟩
  (OutPosition, Normalize OutNormal)

/-! ## `GenerateMesh` -/

/-- Sign bit of a value as 0 or 1: `(bit_cast<uint32>(Value) & 0x80000000) >> 31`. -/
def signBit (Value : ℚ) : Nat := if Value < 0 then 1 else 0

/-- The corner loop of `GenerateMesh` after `n` iterations:
`Mask |= (sign bit of Cube[Corner]) << Corner` for `Corner = 0 .. n-1`, starting from 0. -/
def cornerMask.loop (Cube : Fin 8 → ℚ) : (n : Nat) → n ≤ 8 → Nat
  | 0, _ => 0
  | Corner + 1, h =>
    cornerMask.loop Cube Corner (by omega) ||| (signBit (Cube ⟨Corner, by omega⟩) <<< Corner)

/-- Value of `Mask` after the corner loop. -/
def cornerMask (Cube : Fin 8 → ℚ) : Nat := cornerMask.loop Cube 8 (le_refl 8)

/-- The precalculated `IndexOffsets[Corner] = GetVoxelIndex(VertexOffset[Corner])`. -/
def IndexOffsets (s : ASurfaceNets) (Corner : Fin 8) : Int := GetVoxelIndex s (VertexOffset Corner)

/-- The eight reads `Cube[Corner] = Voxels[Index + IndexOffsets[Corner]]`; `none` when one of
them is outside the buffer. -/
def readCube (Voxels : List ℚ) (Index : Int) (Offsets : Fin 8 → Int) : Option (Fin 8 → ℚ) :=
  if h : ∀ Corner : Fin 8, 0 ≤ Index + Offsets Corner ∧
      (Index + Offsets Corner).toNat < Voxels.length then
    some fun Corner => Voxels.get ⟨(Index + Offsets Corner).toNat, (h Corner).2⟩
  else none

/-- Embedding of `ASurfaceNets::AddTriangle`. -/
def AddTriangle (MeshData : FChunkMeshData) (IndexA IndexB IndexC : Int) : FChunkMeshData :=
  { MeshData with Triangles := MeshData.Triangles ++ [IndexA, IndexB, IndexC] }

/-- Variables of `GenerateMesh` that change during the march. -/
structure MeshState where
  VertexTable : List Int
  VertexCount : Int
  MeshData : FChunkMeshData

/-- Body of the loop `for (Axis = 0; Axis < 3; ++Axis)`. -/
def GenerateMesh.axis (s : ASurfaceNets) (VertexTable : List Int) (Position : FIntVector3)
    (Index : Int) (Mask Flags : Nat) (Vertex1 : Int) (MeshData : FChunkMeshData) (Axis : Nat) :
    Option FChunkMeshData :=
  if Flags &&& (1 <<< Axis) ≠ 0 then
    if Position.get Axis < 1 then some MeshData
    else
      let AxisOrtho1 := (Axis + 1) % 3
      if Position.get AxisOrtho1 < 1 then some MeshData
      else
        let AxisOrtho2 := (Axis + 2) % 3
        if Position.get AxisOrtho2 < 1 then some MeshData
        else
          (readAt VertexTable (Index - s.AxisOffsets.get AxisOrtho1)).bind fun Vertex2 =>
          (readAt VertexTable
            (Index - s.AxisOffsets.get AxisOrtho1 - s.AxisOffsets.get AxisOrtho2)).bind
              fun Vertex3 =>
          (readAt VertexTable (Index - s.AxisOffsets.get AxisOrtho2)).bind fun Vertex4 =>
          let Swapped : Int × Int := if Mask &&& 1 ≠ 0 then (Vertex4, Vertex2) else (Vertex2, Vertex4)
          some (AddTriangle (AddTriangle MeshData Vertex1 Swapped.1 Vertex3)
            Vertex1 Vertex3 Swapped.2)
  else some MeshData

/-- Body of the innermost loop of `GenerateMesh` for the cell at `Position`, whose flat index
is `Index`. -/
def GenerateMesh.cell (Normalize : FVector → FVector) (s : ASurfaceNets) (st : MeshState)
    (Position : FIntVector3) (Index : Int) : Option MeshState :=
  (writeAt st.VertexTable Index (-1)).bind fun VertexTable0 =>
  (readCube s.Voxels Index (IndexOffsets s)).bind fun Cube =>
  let Mask := cornerMask Cube
  if Mask ≠ 0 ∧ Mask < 0xFF then
    let Vertex1 := st.VertexCount
    (writeAt VertexTable0 Index st.VertexCount).bind fun VertexTable =>
    let Computed := ComputeSDFSurface Normalize Cube
    let Vertex : Option FVector := Computed.1.map fun V =>
      FVector.scale s.BlockSize (V.add ⟨Position.X, Position.Y, Position.Z⟩)
    let MeshData : FChunkMeshData :=
      { st.MeshData with
        Vertices := st.MeshData.Vertices ++ [Vertex]
        Normals := st.MeshData.Normals ++ [Computed.2] }
    let Flags := AxisFlags.getD (Mask &&& AxisMask) 0
    ([0, 1, 2].foldlM (GenerateMesh.axis s VertexTable Position Index Mask Flags Vertex1)
      MeshData).bind fun MeshData1 =>
    some ⟨VertexTable, st.VertexCount + 1, MeshData1⟩
  else some { st with VertexTable := VertexTable0 }

/-- The loop over `Position.X`; `Index` starts at `GetVoxelIndex(Position)` with
`Position.X = 0` and is incremented together with `Position.X`. -/
def GenerateMesh.loopX (Normalize : FVector → FVector) (s : ASurfaceNets) (MaxSize : Int)
    (Z Y : Nat) (st : MeshState) : Option MeshState :=
  (List.range MaxSize.toNat).foldlM
    (fun st (X : Nat) =>
      GenerateMesh.cell Normalize s st ⟨X, Y, Z⟩ (GetVoxelIndex s ⟨0, Y, Z⟩ + (X : Int))) st

/-- The loop over `Position.Y`. -/
def GenerateMesh.loopY (Normalize : FVector → FVector) (s : ASurfaceNets) (MaxSize : Int)
    (Z : Nat) (st : MeshState) : Option MeshState :=
  (List.range MaxSize.toNat).foldlM (fun st (Y : Nat) => GenerateMesh.loopX Normalize s MaxSize Z Y st) st

/-- The loop over `Position.Z`. -/
def GenerateMesh.loopZ (Normalize : FVector → FVector) (s : ASurfaceNets) (MaxSize : Int)
    (st : MeshState) : Option MeshState :=
  (List.range MaxSize.toNat).foldlM (fun st (Z : Nat) => GenerateMesh.loopY Normalize s MaxSize Z st) st

/-- The march of `GenerateMesh` with its local `VertexTable` kept in the result:
`VertexTable.SetNum(Voxels.Num())`, `VertexCount = 0`, `MaxSize = AxisOffsets.Y - 1`, then the
three nested loops.  `MeshData` is whatever the chunk holds on entry. -/
def GenerateMesh.run (Normalize : FVector → FVector) (s : ASurfaceNets) : Option MeshState :=
  GenerateMesh.loopZ Normalize s (s.AxisOffsets.Y - 1)
    ⟨List.replicate s.Voxels.length 0, 0, s.MeshData⟩

/-- Embedding of `ASurfaceNets::GenerateMesh`: the chunk after the call, `none` when an array
access is out of range. -/
def GenerateMesh (Normalize : FVector → FVector) (s : ASurfaceNets) : Option ASurfaceNets :=
  (GenerateMesh.run Normalize s).map fun st =>
    { s with VertexCount := st.VertexCount, MeshData := st.MeshData }

/-! ## `ModifyVoxelData` -/

/-- Body of the innermost loop of `ModifyVoxelData` for the offset `Count`. -/
def ModifyVoxelData.body (Sqrt : ℚ → ℚ) (s : ASurfaceNets) (Radius Strength : ℚ)
    (Start : FIntVector3) (Voxels : List ℚ) (Count : FIntVector3) : Option (List ℚ) :=
  let Coordinate : FIntVector3 := ⟨Count.X + Start.X, Count.Y + Start.Y, Count.Z + Start.Z⟩
  if Coordinate.X ≥ 0 ∧ Coordinate.X ≤ s.Size ∧
     Coordinate.Y ≥ 0 ∧ Coordinate.Y ≤ s.Size ∧
     Coordinate.Z ≥ 0 ∧ Coordinate.Z ≤ s.Size then
    let Distance := Sqrt ((Count.Z * Count.Z + Count.Y * Count.Y + Count.X * Count.X : Int) : ℚ)
    (readAt Voxels (GetVoxelIndex s Coordinate)).bind fun Old =>
    writeAt Voxels (GetVoxelIndex s Coordinate) (Old + Strength * max (Radius - Distance) 0)
  else some Voxels

/-- Values of `Count.Z` in `for (Count.Z = -Radius; Count.Z <= Radius; ++Count.Z)`, Radius 2. -/
def ModifyVoxelData.countsZ : List Int := [-2, -1, 0, 1, 2]

/-- Values of `Count.Y` and of `Count.X` in `for (Count.Y = -Radius; Count.Y < Radius; ++Count.Y)`
and in the same loop over `Count.X`, Radius 2. -/
def ModifyVoxelData.countsYX : List Int := [-2, -1, 0, 1]

/-- The three nested loops of `ModifyVoxelData` over the voxel buffer. -/
def ModifyVoxelData.loops (Sqrt : ℚ → ℚ) (s : ASurfaceNets) (Radius Strength : ℚ)
    (Start : FIntVector3) (Voxels : List ℚ) : Option (List ℚ) :=
  ModifyVoxelData.countsZ.foldlM (fun V Z =>
    ModifyVoxelData.countsYX.foldlM (fun V Y =>
      ModifyVoxelData.countsYX.foldlM (fun V X =>
        ModifyVoxelData.body Sqrt s Radius Strength Start V ⟨X, Y, Z⟩) V) V) Voxels

/-- Embedding of `ASurfaceNets::ModifyVoxelData`: the chunk after the call, `none` when an
array access is out of range. -/
def ModifyVoxelData (Sqrt : ℚ → ℚ) (s : ASurfaceNets) (Position : FIntVector3)
    (Block : EVoxelTutorialBlock) : Option ASurfaceNets :=
  let Radius : ℚ := 2
  let Strength : ℚ := if Block = EVoxelTutorialBlock.Air then 1 else -1
  let Start := Position
  (ModifyVoxelData.loops Sqrt s Radius Strength Start s.Voxels).map fun V =>
    { s with Voxels := V }

/-! ## Notions used to state the properties -/

/-- Component-wise sum of integer vectors. -/
def FIntVector3.add (A B : FIntVector3) : FIntVector3 := ⟨A.X + B.X, A.Y + B.Y, A.Z + B.Z⟩

/-- The chunk is laid out as `Setup` leaves it for the padded size `P = Size + 2`: strides
`(1, P, P²)` and a voxel buffer of `P³` values. -/
def Ready (s : ASurfaceNets) (P : Nat) : Prop :=
  s.Size + 2 = P ∧ s.AxisOffsets = ⟨1, P, P * P⟩ ∧ s.Voxels.length = P * P * P

/-- Coordinates of the padded field, `[0, P)` on every axis. -/
def InField (P : Nat) (p : FIntVector3) : Prop :=
  (0 ≤ p.X ∧ p.X < P) ∧ (0 ≤ p.Y ∧ p.Y < P) ∧ (0 ≤ p.Z ∧ p.Z < P)

/-- Cells visited by the march of `GenerateMesh`, `[0, P - 1)` on every axis. -/
def InScan (P : Nat) (p : FIntVector3) : Prop :=
  (0 ≤ p.X ∧ p.X + 1 < P) ∧ (0 ≤ p.Y ∧ p.Y + 1 < P) ∧ (0 ≤ p.Z ∧ p.Z + 1 < P)

/-- Density stored for the grid coordinate `p` (0 outside the buffer). -/
def density (s : ASurfaceNets) (p : FIntVector3) : ℚ :=
  (readAt s.Voxels (GetVoxelIndex s p)).getD 0

/-- The eight corner densities of the cell whose minimum corner is `p`. -/
def cubeAt (s : ASurfaceNets) (p : FIntVector3) : Fin 8 → ℚ :=
  fun Corner => density s (p.add (VertexOffset Corner))

/-- The test `Mask && Mask < 0xFF` of `GenerateMesh` as a Boolean: the cell gets a vertex. -/
def isSurface (Mask : Nat) : Bool := decide (Mask ≠ 0 ∧ Mask < 0xFF)

/-- The cell at `p` gets a vertex. -/
def surfaceCell (s : ASurfaceNets) (p : FIntVector3) : Bool := isSurface (cornerMask (cubeAt s p))

/-- The vertex `GenerateMesh` appends for a cell at `Position` with corner values `Cube`. -/
def cellVertex (Normalize : FVector → FVector) (BlockSize : ℚ) (Cube : Fin 8 → ℚ)
    (Position : FIntVector3) : Option FVector :=
  (ComputeSDFSurface Normalize Cube).1.map fun V =>
    FVector.scale BlockSize (V.add ⟨Position.X, Position.Y, Position.Z⟩)

/-- The cells of the march in the order they are visited: Z outer, Y middle, X inner, each
over `0 .. n-1`. -/
def scanCells (n : Nat) : List FIntVector3 :=
  (List.range n).flatMap fun (Z : Nat) => (List.range n).flatMap fun (Y : Nat) =>
    (List.range n).map fun (X : Nat) => (⟨(X : Int), (Y : Int), (Z : Int)⟩ : FIntVector3)

/-- The cells of the march that get a vertex, in the order they are visited. -/
def surfaceCells (s : ASurfaceNets) (n : Nat) : List FIntVector3 :=
  (scanCells n).filter (surfaceCell s)

/-- The mesh buffers with nothing in them. -/
def emptyMesh : FChunkMeshData := ⟨[], [], []⟩

/-- Mesh buffers `A` followed by mesh buffers `B`. -/
def FChunkMeshData.append (A B : FChunkMeshData) : FChunkMeshData :=
  ⟨A.Vertices ++ B.Vertices, A.Normals ++ B.Normals, A.Triangles ++ B.Triangles⟩

/-- The mask made of eight sign bits: bit `c` is `bc`. -/
def bitsMask (b0 b1 b2 b3 b4 b5 b6 b7 : Bool) : Nat :=
  0 ||| (b0.toNat <<< 0) ||| (b1.toNat <<< 1) ||| (b2.toNat <<< 2) ||| (b3.toNat <<< 3) |||
    (b4.toNat <<< 4) ||| (b5.toNat <<< 5) ||| (b6.toNat <<< 6) ||| (b7.toNat <<< 7)

/-- The value at corner `Corner` of a cube is negative. -/
def negative (Cube : Fin 8 → ℚ) (Corner : Fin 8) : Bool := decide (Cube Corner < 0)

/-- State of the march once the cells `pre` were visited, for a mesh that held `M0` on entry:
the vertex table has the length of the voxel buffer; one vertex and one normal were appended
per visited surface cell, in order; the appended triangle indices come in triples and refer to
vertices counted so far; a visited cell holds -1 when it got no vertex and otherwise its rank
among the visited surface cells. -/
def MarchInv (N : FVector → FVector) (s : ASurfaceNets) (M0 : FChunkMeshData)
    (pre : List FIntVector3) (st : MeshState) : Prop :=
  st.VertexTable.length = s.Voxels.length ∧
  st.VertexCount = ((pre.filter (surfaceCell s)).length : Int) ∧
  st.MeshData.Vertices = M0.Vertices ++
    (pre.filter (surfaceCell s)).map (fun p => cellVertex N s.BlockSize (cubeAt s p) p) ∧
  st.MeshData.Normals = M0.Normals ++
    (pre.filter (surfaceCell s)).map (fun p => (ComputeSDFSurface N (cubeAt s p)).2) ∧
  (∃ T, st.MeshData.Triangles = M0.Triangles ++ T ∧ T.length % 3 = 0 ∧
    ∀ t ∈ T, 0 ≤ t ∧ t < st.VertexCount) ∧
  (∀ q ∈ pre, readAt st.VertexTable (GetVoxelIndex s q) =
    some (if surfaceCell s q = true
      then ((List.indexOf q (pre.filter (surfaceCell s)) : Nat) : Int) else -1))

/-- A chunk of size 1 (padded size 3) whose only negative density is at the centre `(1,1,1)`. -/
def sampleChunk : ASurfaceNets :=
  { Size := 1
    BlockSize := 100
    AxisOffsets := ⟨1, 3, 9⟩
    Voxels := (List.range 27).map fun i => if i = 13 then -1 else 1
    VertexCount := 0
    MeshData := emptyMesh }

/-- A chunk of size 0 (padded size 2) whose densities are all +1. -/
def positiveChunk : ASurfaceNets :=
  { Size := 0
    BlockSize := 100
    AxisOffsets := ⟨1, 2, 4⟩
    Voxels := List.replicate 8 1
    VertexCount := 0
    MeshData := emptyMesh }

/-- Corner values of a cell with one negative corner and seven corners at zero. -/
def zeroCornerCube : Fin 8 → ℚ := ![-1, 0, 0, 0, 0, 0, 0, 0]

/-- A chunk of size 0 (padded size 2) whose single cell has the corner values
`zeroCornerCube`. -/
def zeroCornerChunk : ASurfaceNets :=
  { Size := 0
    BlockSize := 100
    AxisOffsets := ⟨1, 2, 4⟩
    Voxels := [-1, 0, 0, 0, 0, 0, 0, 0]
    VertexCount := 0
    MeshData := emptyMesh }

/-- A chunk of size 0 (padded size 2) whose single cell has one negative corner. -/
def cornerChunk : ASurfaceNets :=
  { Size := 0
    BlockSize := 100
    AxisOffsets := ⟨1, 2, 4⟩
    Voxels := [-1, 1, 1, 1, 1, 1, 1, 1]
    VertexCount := 0
    MeshData := emptyMesh }

/-- The march state with the mesh buffers `M` put in front of its mesh buffers. -/
def MeshState.prepend (M : FChunkMeshData) (st : MeshState) : MeshState :=
  { st with MeshData := M.append st.MeshData }

/-- Component-wise difference of integer vectors. -/
def FIntVector3.sub (A B : FIntVector3) : FIntVector3 := ⟨A.X - B.X, A.Y - B.Y, A.Z - B.Z⟩

/-- The offsets `Count` visited by the loops of `ModifyVoxelData`, in order. -/
def brushOffsets : List FIntVector3 :=
  ModifyVoxelData.countsZ.flatMap fun (Z : Int) =>
    ModifyVoxelData.countsYX.flatMap fun (Y : Int) =>
      ModifyVoxelData.countsYX.map fun (X : Int) => (⟨X, Y, Z⟩ : FIntVector3)

/-- Squared length of an offset, `Count.Z * Count.Z + Count.Y * Count.Y + Count.X * Count.X`. -/
def sqDist (Count : FIntVector3) : Int :=
  Count.Z * Count.Z + Count.Y * Count.Y + Count.X * Count.X

/-- The value `Strength * max(Radius - Distance, 0)` added at the offset `Count`. -/
def brushAmount (Sqrt : ℚ → ℚ) (Radius Strength : ℚ) (Count : FIntVector3) : ℚ :=
  Strength * max (Radius - Sqrt ((sqDist Count : Int) : ℚ)) 0

/-- The coordinate passes the range test of `ModifyVoxelData`, `[0, Size]` on every axis. -/
def InValid (s : ASurfaceNets) (q : FIntVector3) : Prop :=
  q.X ≥ 0 ∧ q.X ≤ s.Size ∧ q.Y ≥ 0 ∧ q.Y ≤ s.Size ∧ q.Z ≥ 0 ∧ q.Z ≤ s.Size

instance (s : ASurfaceNets) (q : FIntVector3) : Decidable (InValid s q) := by
  unfold InValid
  infer_instance

/-- State of the loops of `ModifyVoxelData` once the offsets `pre` were visited: the buffer
keeps its length and a field cell differs from its value on entry by the brush amount of its
offset from `Start` when that offset was visited and the cell is in the valid range. -/
def BrushInv (Sqrt : ℚ → ℚ) (s : ASurfaceNets) (P : Nat) (Radius Strength : ℚ)
    (Start : FIntVector3) (pre : List FIntVector3) (V : List ℚ) : Prop :=
  V.length = s.Voxels.length ∧
  ∀ q, InField P q → readAt V (GetVoxelIndex s q) =
    some (density s q +
      (if q.sub Start ∈ pre ∧ InValid s q
        then brushAmount Sqrt Radius Strength (q.sub Start) else 0))

/-- A chunk of size 2 (padded size 4) whose densities are all 0. -/
def brushChunk : ASurfaceNets :=
  { Size := 2
    BlockSize := 100
    AxisOffsets := ⟨1, 4, 16⟩
    Voxels := List.replicate 64 0
    VertexCount := 0
    MeshData := emptyMesh }

/-- A monotone stand-in for the square root with the exact value 2 at 4 (the tangent to the
square root at 4), used to instantiate statements about `FMath::Sqrt`. -/
def tangentSqrt (a : ℚ) : ℚ := (a + 4) / 4

/-- The flat-plane field `density(x, y, z) = z - 5` over a logical 10×10×10 grid
(`Size = 10`, padded size 12), with empty mesh sequences. -/
def planeChunk : ASurfaceNets :=
  { Size := 10
    BlockSize := 100
    AxisOffsets := ⟨1, 12, 144⟩
    Voxels := (List.range 1728).map fun i => ((i / 144 : Nat) : ℚ) - 5
    VertexCount := 0
    MeshData := emptyMesh }

/-- Corner values of the cells of the plane field at `z = 4`: -1 below, 0 above. -/
def planeCube : Fin 8 → ℚ := ![-1, -1, -1, -1, 0, 0, 0, 0]

/-- Offset of corner `c` in the enumeration `(c & 1, (c >> 1) & 1, (c >> 2) & 1)`. -/
def cornerOffset (c : Fin 8) : FIntVector3 :=
  ⟨((c.val &&& 1 : Nat) : Int), (((c.val >>> 1) &&& 1 : Nat) : Int),
    (((c.val >>> 2) &&& 1 : Nat) : Int)⟩

/-- Number of coordinates in which the offsets of two corners differ. -/
def coordsDiffering (a b : Fin 8) : Nat :=
  (if (VertexOffset a).X = (VertexOffset b).X then 0 else 1) +
  (if (VertexOffset a).Y = (VertexOffset b).Y then 0 else 1) +
  (if (VertexOffset a).Z = (VertexOffset b).Z then 0 else 1)

/-- Entry `e` of the edge table joins the corners `a` and `b`, in either order. -/
def joins (e : Fin 16) (a b : Fin 8) : Prop := Edges e = (a, b) ∨ Edges e = (b, a)

instance (e : Fin 16) (a b : Fin 8) : Decidable (joins e a b) := by
  unfold joins
  infer_instance

/-- The three loops of the brush iterated with symmetric inclusive bounds: `Count.Z`,
`Count.Y` and `Count.X` all over `[-Radius, Radius]`, Radius 2. -/
def ModifyVoxelDataSymmetric.loops (Sqrt : ℚ → ℚ) (s : ASurfaceNets) (Radius Strength : ℚ)
    (Start : FIntVector3) (Voxels : List ℚ) : Option (List ℚ) :=
  ModifyVoxelData.countsZ.foldlM (fun V Z =>
    ModifyVoxelData.countsZ.foldlM (fun V Y =>
      ModifyVoxelData.countsZ.foldlM (fun V X =>
        ModifyVoxelData.body Sqrt s Radius Strength Start V ⟨X, Y, Z⟩) V) V) Voxels

/-- The brush of `ModifyVoxelData` with the inclusive bound `<= Radius` on all three axes:
the same body, radius and strength, only the bounds of the `Count.Y` and `Count.X` loops
differ. -/
def ModifyVoxelDataSymmetric (Sqrt : ℚ → ℚ) (s : ASurfaceNets) (Position : FIntVector3)
    (Block : EVoxelTutorialBlock) : Option ASurfaceNets :=
  let Radius : ℚ := 2
  let Strength : ℚ := if Block = EVoxelTutorialBlock.Air then 1 else -1
  let Start := Position
  (ModifyVoxelDataSymmetric.loops Sqrt s Radius Strength Start s.Voxels).map fun V =>
    { s with Voxels := V }

/-- The offsets visited by the symmetric loops, in order. -/
def symmetricOffsets : List FIntVector3 :=
  ModifyVoxelData.countsZ.flatMap fun (Z : Int) =>
    ModifyVoxelData.countsZ.flatMap fun (Y : Int) =>
      ModifyVoxelData.countsZ.map fun (X : Int) => (⟨X, Y, Z⟩ : FIntVector3)

/-- The endpoint densities of table edge `e` have strictly opposite sign, `d0 * d1 < 0`. -/
def crosses (Cube : Fin 8 → ℚ) (e : Fin 16) : Bool :=
  decide (Cube (Edges e).1 * Cube (Edges e).2 < 0)

/-- The zero-crossing fraction `t = d0 / (d0 - d1)` of table edge `e`. -/
def crossingFraction (Cube : Fin 8 → ℚ) (e : Fin 16) : ℚ :=
  Cube (Edges e).1 / (Cube (Edges e).1 - Cube (Edges e).2)

/-- The zero-crossing point `p(e) = corner(e0) + t * (corner(e1) - corner(e0))`. -/
def crossingPoint (Cube : Fin 8 → ℚ) (e : Fin 16) : FVector :=
  (VertexFloats (Edges e).1).add
    (FVector.scale (crossingFraction Cube e)
      ((VertexFloats (Edges e).2).sub (VertexFloats (Edges e).1)))

/-- Sum of a list of vectors, starting from the zero vector. -/
def vectorSum (l : List FVector) : FVector := l.foldl FVector.add ⟨0, 0, 0⟩

/-- Arithmetic mean of a list of vectors; no value for the empty list. -/
def vectorMean (l : List FVector) : Option FVector :=
  if l.length = 0 then none else some ((vectorSum l).divide (l.length : ℚ))

/-- The four space diagonals, table indices 15 down to 12. -/
def diagonalEdges : List (Fin 16) := [15, 14, 13, 12]

/-- The twelve cube edges, table indices 11 down to 0. -/
def standardEdges : List (Fin 16) := [11, 10, 9, 8, 7, 6, 5, 4, 3, 2, 1, 0]

/-- The edge set the position is averaged over: the crossing diagonals when at least 3 of the
4 diagonals cross, otherwise all crossing edges among the 16 table edges. -/
def consultedCrossings (Cube : Fin 8 → ℚ) : List (Fin 16) :=
  if 3 ≤ (diagonalEdges.filter (crosses Cube)).length then diagonalEdges.filter (crosses Cube)
  else (diagonalEdges ++ standardEdges).filter (crosses Cube)

/-- The position as the claim words it: the arithmetic mean of the zero-crossing points over
the consulted crossing edges. -/
def meanCrossing (Cube : Fin 8 → ℚ) : Option FVector :=
  vectorMean ((consultedCrossings Cube).map (crossingPoint Cube))

/-- A vector lies in the closed unit cube. -/
def InUnitCube (v : FVector) : Prop :=
  (0 ≤ v.X ∧ v.X ≤ 1) ∧ (0 ≤ v.Y ∧ v.Y ≤ 1) ∧ (0 ≤ v.Z ∧ v.Z ≤ 1)

/-- Corner values with one negative corner and seven positive corners. -/
def mixedCube : Fin 8 → ℚ := ![-1, 1, 1, 1, 1, 1, 1, 1]

/-- The triangle indices appended for axis `Axis` of a surface cell at `p` with mask `Mask`
and own vertex `New`, as the claim words it: nothing when the flag bit of the axis is clear or
when the coordinate of the cell on the axis or on either orthogonal axis is `< 1`; otherwise
the two triangles `(New, n1, n2)` and `(New, n2, n3)`, where `v1`, `v2`, `v3` are the
`VertexTable` entries at the flat index of the cell minus the stride of the first orthogonal
axis, minus both strides, and minus the stride of the second, and `(n1, n2, n3)` is
`(v1, v2, v3)` when bit 0 of the mask is clear and `(v3, v2, v1)` when it is set. -/
def axisTriangles (s : ASurfaceNets) (VT : List Int) (p : FIntVector3) (Mask : Nat)
    (New : Int) (Axis : Nat) : List Int :=
  if AxisFlags.getD (Mask &&& AxisMask) 0 &&& (1 <<< Axis) = 0 then []
  else if p.get Axis < 1 ∨ p.get ((Axis + 1) % 3) < 1 ∨ p.get ((Axis + 2) % 3) < 1 then []
  else
    match readAt VT (GetVoxelIndex s p - s.AxisOffsets.get ((Axis + 1) % 3)),
      readAt VT (GetVoxelIndex s p - s.AxisOffsets.get ((Axis + 1) % 3) -
        s.AxisOffsets.get ((Axis + 2) % 3)),
      readAt VT (GetVoxelIndex s p - s.AxisOffsets.get ((Axis + 2) % 3)) with
    | some v1, some v2, some v3 =>
      if Mask &&& 1 = 0 then [New, v1, v2, New, v2, v3] else [New, v3, v2, New, v2, v1]
    | _, _, _ => []

/-! ## Machine numbers

The definitions above compute with exact rationals and unbounded integers.  The definitions
from here to the end of the definitions compute as the compiled code does: `float` is IEEE 754
binary32 with round to nearest, ties to even, `FVector` components are binary64, and the
products of `Setup` and `GetVoxelIndex` wrap at 32 bits. -/

/-- A binary floating-point format of IEEE 754: the number of significand bits, and the least
and the greatest exponent of a normal number. -/
structure Format where
  Precision : Nat
  Emin : Int
  Emax : Int

/-- The format of `float`, binary32. -/
def single : Format := ⟨24, -126, 127⟩

/-- The format of `double`, binary64: the component type of the engine's `FVector`. -/
def double : Format := ⟨53, -1022, 1023⟩

/-- A floating-point datum: a finite number given by its sign bit and its magnitude (a
non-negative rational, so that `+0.0` and `-0.0` are different data), an infinity, or a NaN
with its sign bit (the payload of a NaN is not represented). -/
inductive Binary where
  | finite (Sign : Bool) (Magnitude : ℚ)
  | infinite (Sign : Bool)
  | nan (Sign : Bool)
deriving DecidableEq

/-- The power of two `2 ^ e` as a rational. -/
def pow2 (e : Int) : ℚ :=
  if 0 ≤ e then ((1 <<< e.toNat : Nat) : ℚ) else 1 / ((1 <<< (-e).toNat : Nat) : ℚ)

/-- Position of the leading one bit of `n` (0 for `n = 0`), found by binary search over the
`2 ^ k` low bits; exact for `n < 2 ^ 2 ^ k`. -/
def bitSearch : Nat → Nat → Nat → Nat
  | 0, _, acc => acc
  | k + 1, n, acc =>
    if 0 < n >>> 2 ^ k then bitSearch k (n >>> 2 ^ k) (acc + 2 ^ k) else bitSearch k n acc

/-- The exponent `e` with `2 ^ e ≤ q < 2 ^ (e + 1)` of a positive rational whose numerator and
denominator are below `2 ^ 8192`. -/
def floorLog2 (q : ℚ) : Int :=
  let e0 : Int := (bitSearch 13 q.num.toNat 0 : Int) - (bitSearch 13 q.den 0 : Int)
  if pow2 e0 ≤ q then e0 else e0 - 1

/-- The integer nearest to the non-negative rational `x`, the even one of the two when `x` is
half-way between two integers. -/
def roundHalfEven (x : ℚ) : Nat :=
  let f := x.num.toNat / x.den
  let r := x.num.toNat % x.den
  if 2 * r < x.den then f
  else if x.den < 2 * r then f + 1
  else if f % 2 = 0 then f else f + 1

/-- The datum of format `F` for the exact result of magnitude `q ≥ 0` and sign bit `Sign`,
rounded to nearest, ties to even: the magnitude becomes a multiple of the unit in the last
place of its binade (of the least binade for subnormal results, which may round to a zero that
keeps the sign), and a rounded magnitude of `2 ^ (Emax + 1)` or more becomes an infinity. -/
def Binary.round (F : Format) (Sign : Bool) (q : ℚ) : Binary :=
  if q ≤ 0 then Binary.finite Sign 0
  else
    let e := max (floorLog2 q) F.Emin
    let u := pow2 (e - ((F.Precision : Int) - 1))
    let r := (roundHalfEven (q / u) : ℚ) * u
    if pow2 (F.Emax + 1) ≤ r then Binary.infinite Sign else Binary.finite Sign r

/-- The datum of format `F` for the exact signed result `v`; an exact zero takes the sign bit
`ZeroSign`. -/
def Binary.ofExact (F : Format) (ZeroSign : Bool) (v : ℚ) : Binary :=
  if 0 < v then Binary.round F false v
  else if v < 0 then Binary.round F true (-v)
  else Binary.finite ZeroSign 0

/-- The number a finite datum stands for. -/
def signed (Sign : Bool) (Magnitude : ℚ) : ℚ := if Sign then -Magnitude else Magnitude

/-- A datum belongs to the format `F`: a finite magnitude is non-negative and is not changed by
rounding to `F`. -/
def Binary.Valid (F : Format) : Binary → Prop
  | Binary.finite s m => 0 ≤ m ∧ Binary.round F s m = Binary.finite s m
  | _ => True

instance (F : Format) (x : Binary) : Decidable (Binary.Valid F x) := by
  cases x <;> unfold Binary.Valid <;> infer_instance

/-- The constant `0.0f`. -/
def Binary.zero : Binary := Binary.finite false 0

/-- The sign bit as 0 or 1: `(bit_cast<uint32>(Value) & 0x80000000) >> 31`. -/
def Binary.signBit : Binary → Nat
  | Binary.finite s _ => s.toNat
  | Binary.infinite s => s.toNat
  | Binary.nan s => s.toNat

/-- The datum is a NaN. -/
def Binary.isNaN : Binary → Bool
  | Binary.nan _ => true
  | _ => false

/-- The sum `a + b` in format `F`.  A NaN operand is returned; `∞ + (-∞)` is the default NaN;
an exact zero sum is `-0.0` only when both operands are negative. -/
def Binary.add (F : Format) : Binary → Binary → Binary
  | Binary.nan s, _ => Binary.nan s
  | _, Binary.nan s => Binary.nan s
  | Binary.infinite s, Binary.infinite t => if s = t then Binary.infinite s else Binary.nan true
  | Binary.infinite s, Binary.finite _ _ => Binary.infinite s
  | Binary.finite _ _, Binary.infinite t => Binary.infinite t
  | Binary.finite s m, Binary.finite t n => Binary.ofExact F (s && t) (signed s m + signed t n)

/-- The difference `a - b` in format `F`. -/
def Binary.sub (F : Format) : Binary → Binary → Binary
  | Binary.nan s, _ => Binary.nan s
  | _, Binary.nan s => Binary.nan s
  | Binary.infinite s, Binary.infinite t => if s = t then Binary.nan true else Binary.infinite s
  | Binary.infinite s, Binary.finite _ _ => Binary.infinite s
  | Binary.finite _ _, Binary.infinite t => Binary.infinite (!t)
  | Binary.finite s m, Binary.finite t n => Binary.ofExact F (s && !t) (signed s m - signed t n)

/-- The product `a * b` in format `F`; the sign bit of the result is the exclusive or of the
sign bits, also for a zero result. -/
def Binary.mul (F : Format) : Binary → Binary → Binary
  | Binary.nan s, _ => Binary.nan s
  | _, Binary.nan s => Binary.nan s
  | Binary.infinite s, Binary.infinite t => Binary.infinite (xor s t)
  | Binary.infinite s, Binary.finite t n =>
    if n ≤ 0 then Binary.nan true else Binary.infinite (xor s t)
  | Binary.finite s m, Binary.infinite t =>
    if m ≤ 0 then Binary.nan true else Binary.infinite (xor s t)
  | Binary.finite s m, Binary.finite t n => Binary.round F (xor s t) (m * n)

/-- The quotient `a / b` in format `F`. -/
def Binary.div (F : Format) : Binary → Binary → Binary
  | Binary.nan s, _ => Binary.nan s
  | _, Binary.nan s => Binary.nan s
  | Binary.infinite _, Binary.infinite _ => Binary.nan true
  | Binary.infinite s, Binary.finite t _ => Binary.infinite (xor s t)
  | Binary.finite s _, Binary.infinite t => Binary.finite (xor s t) 0
  | Binary.finite s m, Binary.finite t n =>
    if n ≤ 0 then (if m ≤ 0 then Binary.nan true else Binary.infinite (xor s t))
    else Binary.round F (xor s t) (m / n)

/-- The comparison `a < b`: false when an operand is a NaN, and the two zeros are equal. -/
def Binary.lt : Binary → Binary → Bool
  | Binary.nan _, _ => false
  | _, Binary.nan _ => false
  | Binary.infinite s, Binary.infinite t => s && !t
  | Binary.infinite s, Binary.finite _ _ => s
  | Binary.finite _ _, Binary.infinite t => !t
  | Binary.finite s m, Binary.finite t n => decide (signed s m < signed t n)

/-- The engine's `FMath::Max(A, B)`, `(B < A) ? A : B`. -/
def Binary.max (A B : Binary) : Binary := if Binary.lt B A then A else B

/-- Conversion of an integer to format `F`, `static_cast<float>(n)`. -/
def Binary.ofInt (F : Format) (n : Int) : Binary := Binary.ofExact F false (n : ℚ)

/-- The value of a 32-bit two's complement integer operation whose exact result is `x`. -/
def wrapInt32 (x : Int) : Int := (x + 2147483648) % 4294967296 - 2147483648

/-! ## The chunk over machine numbers -/

/-- The engine's `FVector` with binary64 components. -/
structure Machine.FVector where
  X : Binary
  Y : Binary
  Z : Binary
deriving DecidableEq

/-- Component-wise sum `A + B`. -/
def Machine.FVector.add (A B : Machine.FVector) : Machine.FVector :=
  ⟨Binary.add double A.X B.X, Binary.add double A.Y B.Y, Binary.add double A.Z B.Z⟩

/-- Component-wise difference `A - B`. -/
def Machine.FVector.sub (A B : Machine.FVector) : Machine.FVector :=
  ⟨Binary.sub double A.X B.X, Binary.sub double A.Y B.Y, Binary.sub double A.Z B.Z⟩

/-- Scaling `T * A`. -/
def Machine.FVector.scale (T : Binary) (A : Machine.FVector) : Machine.FVector :=
  ⟨Binary.mul double T A.X, Binary.mul double T A.Y, Binary.mul double T A.Z⟩

/-- The constant `1.0f`. -/
def Binary.one : Binary := Binary.finite false 1

/-- Division by a scalar `A / D`: the engine computes the reciprocal `RScale = 1 / D` once and
multiplies every component by it. -/
def Machine.FVector.divide (A : Machine.FVector) (D : Binary) : Machine.FVector :=
  let RScale := Binary.div double Binary.one D
  ⟨Binary.mul double A.X RScale, Binary.mul double A.Y RScale, Binary.mul double A.Z RScale⟩

/-- Table `VertexFloats[8]` over machine numbers. -/
def Machine.VertexFloats : Fin 8 → Machine.FVector :=
  ![⟨Binary.zero, Binary.zero, Binary.zero⟩, ⟨Binary.one, Binary.zero, Binary.zero⟩,
    ⟨Binary.zero, Binary.one, Binary.zero⟩, ⟨Binary.one, Binary.one, Binary.zero⟩,
    ⟨Binary.zero, Binary.zero, Binary.one⟩, ⟨Binary.one, Binary.zero, Binary.one⟩,
    ⟨Binary.zero, Binary.one, Binary.one⟩, ⟨Binary.one, Binary.one, Binary.one⟩]

/-- Mesh buffers `MeshData` over machine numbers. -/
structure Machine.FChunkMeshData where
  Vertices : List Machine.FVector
  Normals : List Machine.FVector
  Triangles : List Int
deriving DecidableEq

/-- Members of `ASurfaceNets` over machine numbers. -/
structure Machine.ASurfaceNets where
  Size : Int
  BlockSize : Binary
  AxisOffsets : FIntVector3
  Voxels : List Binary
  VertexCount : Int
  MeshData : Machine.FChunkMeshData

/-- Resize `A.SetNum(N)` of a `TArray<float>`: keep the first `N` elements, pad with `0.0f`. -/
def Machine.setNum (A : List Binary) (N : Int) : List Binary :=
  A.take N.toNat ++ List.replicate (N.toNat - A.length) Binary.zero

/-- `ASurfaceNets::Setup` with 32-bit integers; `none` when `SetNum` is called with a negative
count. -/
def Machine.Setup (s : Machine.ASurfaceNets) : Option Machine.ASurfaceNets :=
  let PaddedSize := wrapInt32 (s.Size + 2)
  let AxisOffsets : FIntVector3 := ⟨1, PaddedSize, wrapInt32 (PaddedSize * PaddedSize)⟩
  let Num := wrapInt32 (AxisOffsets.Y * AxisOffsets.Z)
  if 0 ≤ Num then
    some { s with AxisOffsets := AxisOffsets, Voxels := Machine.setNum s.Voxels Num }
  else none

/-- `ASurfaceNets::GetVoxelIndex` with 32-bit integers. -/
def Machine.GetVoxelIndex (s : Machine.ASurfaceNets) (Position : FIntVector3) : Int :=
  wrapInt32 (wrapInt32 (wrapInt32 (Position.Z * s.AxisOffsets.Z) +
    wrapInt32 (Position.Y * s.AxisOffsets.Y)) + Position.X)

/-- One iteration of the edge loop of `ComputeSDFSurface` over machine numbers: the test
`SDF0 * SDF1 < 0.f` and `T` are computed in `float`, the intersection in `FVector`. -/
def Machine.ComputeSDFSurface.edge (Cube : Fin 8 → Binary) (Edge : Fin 16)
    (acc : Machine.FVector × Nat) : Machine.FVector × Nat :=
  let V0 := (Edges Edge).1
  let V1 := (Edges Edge).2
  let SDF0 := Cube V0
  let SDF1 := Cube V1
  if Binary.lt (Binary.mul single SDF0 SDF1) Binary.zero = true then
    let T := Binary.div single SDF0 (Binary.sub single SDF0 SDF1)
    let Intersection :=
      (Machine.VertexFloats V0).add
        (Machine.FVector.scale T ((Machine.VertexFloats V1).sub (Machine.VertexFloats V0)))
    (acc.1.add Intersection, acc.2 + 1)
  else acc

/-- The edge loop of `ComputeSDFSurface` with `n = Edge + 1` iterations left and its `break`
after edge 12. -/
def Machine.ComputeSDFSurface.loop (Cube : Fin 8 → Binary) :
    (n : Nat) → n ≤ 16 → Machine.FVector × Nat → Machine.FVector × Nat
  | 0, _, acc => acc
  | Edge + 1, h, acc =>
    let acc1 := Machine.ComputeSDFSurface.edge Cube ⟨Edge, by omega⟩ acc
    if Edge = 12 ∧ 3 ≤ acc1.2 then acc1
    else Machine.ComputeSDFSurface.loop Cube Edge (by omega) acc1

/-- Number of intersections `IntersectionCount` at the end of the edge loop. -/
def Machine.IntersectionCount (Cube : Fin 8 → Binary) : Nat :=
  (Machine.ComputeSDFSurface.loop Cube 16 (le_refl 16)
    (⟨Binary.zero, Binary.zero, Binary.zero⟩, 0)).2

/-- Value of `PositionSum` at the end of the edge loop. -/
def Machine.PositionSum (Cube : Fin 8 → Binary) : Machine.FVector :=
  (Machine.ComputeSDFSurface.loop Cube 16 (le_refl 16)
    (⟨Binary.zero, Binary.zero, Binary.zero⟩, 0)).1

/-- `ASurfaceNets::ComputeSDFSurface` over machine numbers: the pair
`(OutPosition, OutNormal)`.  The division by `static_cast<float>(IntersectionCount)` is
carried out also for a zero count. -/
def Machine.ComputeSDFSurface (Normalize : Machine.FVector → Machine.FVector)
    (Cube : Fin 8 → Binary) : Machine.FVector × Machine.FVector :=
  let OutPosition :=
    (Machine.PositionSum Cube).divide (Binary.ofInt single (Machine.IntersectionCount Cube))
  let OutNormal : Machine.FVector :=
    ⟨Binary.sub single (Binary.add single (Binary.sub single (Cube 1) (Cube 0)) (Cube 7)) (Cube 6),
     Binary.sub single (Binary.add single (Binary.sub single (Cube 2) (Cube 0)) (Cube 7)) (Cube 5),
     Binary.sub single (Binary.add single (Binary.sub single (Cube 4) (Cube 0)) (Cube 7)) (Cube 3)⟩
  (OutPosition, Normalize OutNormal)

/-- The corner loop of `GenerateMesh` after `n` iterations over machine numbers:
`Mask |= (bit_cast<uint32>(Value) & 0x80000000) >> (31 - Corner)`. -/
def Machine.cornerMask.loop (Cube : Fin 8 → Binary) : (n : Nat) → n ≤ 8 → Nat
  | 0, _ => 0
  | Corner + 1, h =>
    Machine.cornerMask.loop Cube Corner (by omega) |||
      (Binary.signBit (Cube ⟨Corner, by omega⟩) <<< Corner)

/-- Value of `Mask` after the corner loop. -/
def Machine.cornerMask (Cube : Fin 8 → Binary) : Nat := Machine.cornerMask.loop Cube 8 (le_refl 8)

/-- The precalculated `IndexOffsets[Corner] = GetVoxelIndex(VertexOffset[Corner])`. -/
def Machine.IndexOffsets (s : Machine.ASurfaceNets) (Corner : Fin 8) : Int :=
  Machine.GetVoxelIndex s (VertexOffset Corner)

/-- The eight reads `Cube[Corner] = Voxels[Index + IndexOffsets[Corner]]`; `none` when one of
them is outside the buffer. -/
def Machine.readCube (Voxels : List Binary) (Index : Int) (Offsets : Fin 8 → Int) :
    Option (Fin 8 → Binary) :=
  if h : ∀ Corner : Fin 8, 0 ≤ Index + Offsets Corner ∧
      (Index + Offsets Corner).toNat < Voxels.length then
    some fun Corner => Voxels.get ⟨(Index + Offsets Corner).toNat, (h Corner).2⟩
  else none

/-- Body of the innermost loop of `ModifyVoxelData` for the offset `Count`, over machine
numbers: `Voxels[...] += Strength * FMath::Max(Radius - Distance, 0.0f)` in `float`. -/
def Machine.ModifyVoxelData.body (Sqrt : Binary → Binary) (s : Machine.ASurfaceNets)
    (Radius Strength : Binary) (Start : FIntVector3) (Voxels : List Binary)
    (Count : FIntVector3) : Option (List Binary) :=
  let Coordinate : FIntVector3 := ⟨Count.X + Start.X, Count.Y + Start.Y, Count.Z + Start.Z⟩
  if Coordinate.X ≥ 0 ∧ Coordinate.X ≤ s.Size ∧
     Coordinate.Y ≥ 0 ∧ Coordinate.Y ≤ s.Size ∧
     Coordinate.Z ≥ 0 ∧ Coordinate.Z ≤ s.Size then
    let Distance :=
      Sqrt (Binary.ofInt single (Count.Z * Count.Z + Count.Y * Count.Y + Count.X * Count.X))
    (readAt Voxels (Machine.GetVoxelIndex s Coordinate)).bind fun Old =>
    writeAt Voxels (Machine.GetVoxelIndex s Coordinate)
      (Binary.add single Old
        (Binary.mul single Strength (Binary.max (Binary.sub single Radius Distance) Binary.zero)))
  else some Voxels

/-- The three nested loops of `ModifyVoxelData` over the voxel buffer of machine numbers. -/
def Machine.ModifyVoxelData.loops (Sqrt : Binary → Binary) (s : Machine.ASurfaceNets)
    (Radius Strength : Binary) (Start : FIntVector3) (Voxels : List Binary) :
    Option (List Binary) :=
  ModifyVoxelData.countsZ.foldlM (fun V Z =>
    ModifyVoxelData.countsYX.foldlM (fun V Y =>
      ModifyVoxelData.countsYX.foldlM (fun V X =>
        Machine.ModifyVoxelData.body Sqrt s Radius Strength Start V ⟨X, Y, Z⟩) V) V) Voxels

/-- `ASurfaceNets::ModifyVoxelData` over machine numbers: the chunk after the call, `none`
when an array access is out of range. -/
def Machine.ModifyVoxelData (Sqrt : Binary → Binary) (s : Machine.ASurfaceNets)
    (Position : FIntVector3) (Block : EVoxelTutorialBlock) : Option Machine.ASurfaceNets :=
  let Radius : Binary := Binary.ofInt single 2
  let Strength : Binary :=
    if Block = EVoxelTutorialBlock.Air then Binary.ofInt single 1 else Binary.ofInt single (-1)
  let Start := Position
  (Machine.ModifyVoxelData.loops Sqrt s Radius Strength Start s.Voxels).map fun V =>
    { s with Voxels := V }

/-! ## Notions used to state the properties over machine numbers -/

/-- The chunk over machine numbers is laid out as `Setup` leaves it for the padded size
`P = Size + 2`: strides `(1, P, P²)`, a voxel buffer of `P³` values, and `P³` is a 32-bit
integer (the length of a `TArray`). -/
def Machine.Ready (s : Machine.ASurfaceNets) (P : Nat) : Prop :=
  s.Size + 2 = P ∧ s.AxisOffsets = ⟨1, P, P * P⟩ ∧ s.Voxels.length = P * P * P ∧
    P * P * P < 2147483648

/-- Density stored for the grid coordinate `p` (`0.0f` outside the buffer). -/
def Machine.density (s : Machine.ASurfaceNets) (p : FIntVector3) : Binary :=
  (readAt s.Voxels (Machine.GetVoxelIndex s p)).getD Binary.zero

/-- The eight corner densities of the cell whose minimum corner is `p`. -/
def Machine.cubeAt (s : Machine.ASurfaceNets) (p : FIntVector3) : Fin 8 → Binary :=
  fun Corner => Machine.density s (p.add (VertexOffset Corner))

/-- The coordinate passes the range test of `ModifyVoxelData`, `[0, Size]` on every axis. -/
def Machine.InValid (s : Machine.ASurfaceNets) (q : FIntVector3) : Prop :=
  q.X ≥ 0 ∧ q.X ≤ s.Size ∧ q.Y ≥ 0 ∧ q.Y ≤ s.Size ∧ q.Z ≥ 0 ∧ q.Z ≤ s.Size

instance (s : Machine.ASurfaceNets) (q : FIntVector3) : Decidable (Machine.InValid s q) := by
  unfold Machine.InValid
  infer_instance

/-- The chunk over exact numbers with the layout of a chunk over machine numbers and a density
of -1 where the sign bit of the machine density is set, +1 elsewhere. -/
def shadowChunk (s : Machine.ASurfaceNets) : ASurfaceNets :=
  { Size := s.Size
    BlockSize := 1
    AxisOffsets := s.AxisOffsets
    Voxels := s.Voxels.map fun v => if Binary.signBit v = 1 then -1 else 1
    VertexCount := s.VertexCount
    MeshData := emptyMesh }

/-- The mesh buffers over machine numbers with nothing in them. -/
def Machine.emptyMesh : Machine.FChunkMeshData := ⟨[], [], []⟩

/-- A chunk of size 1289 (padded size 1291) with the strides `(1, 1291, 1291²)` and no voxel
buffer yet. -/
def Machine.largeChunk : Machine.ASurfaceNets :=
  { Size := 1289
    BlockSize := Binary.one
    AxisOffsets := ⟨1, 1291, 1666681⟩
    Voxels := []
    VertexCount := 0
    MeshData := Machine.emptyMesh }

/-- A chunk over machine numbers of size 1 (padded size 3) whose only negative density is at
the centre `(1,1,1)`. -/
def Machine.sampleChunk : Machine.ASurfaceNets :=
  { Size := 1
    BlockSize := Binary.finite false 100
    AxisOffsets := ⟨1, 3, 9⟩
    Voxels := (List.range 27).map fun i =>
      if i = 13 then Binary.finite true 1 else Binary.finite false 1
    VertexCount := 0
    MeshData := Machine.emptyMesh }

/-- The value `Strength * FMath::Max(Radius - Distance, 0.0f)` added at the offset `Count`,
over machine numbers. -/
def Machine.brushAmount (Sqrt : Binary → Binary) (Radius Strength : Binary)
    (Count : FIntVector3) : Binary :=
  Binary.mul single Strength
    (Binary.max (Binary.sub single Radius (Sqrt (Binary.ofInt single (sqDist Count))))
      Binary.zero)

/-- State of the loops of `ModifyVoxelData` over machine numbers once the offsets `pre` were
visited: the buffer keeps its length, and a field cell holds the `float` sum of its value on
entry and the brush amount of its offset from `Start` when that offset was visited and the
cell is in the valid range, and its value on entry otherwise. -/
def Machine.BrushInv (Sqrt : Binary → Binary) (s : Machine.ASurfaceNets) (P : Nat)
    (Radius Strength : Binary) (Start : FIntVector3) (pre : List FIntVector3)
    (V : List Binary) : Prop :=
  V.length = s.Voxels.length ∧
  ∀ q, InField P q → readAt V (Machine.GetVoxelIndex s q) =
    some (if q.sub Start ∈ pre ∧ Machine.InValid s q
      then Binary.add single (Machine.density s q)
        (Machine.brushAmount Sqrt Radius Strength (q.sub Start))
      else Machine.density s q)

/-- The values of `sqrtf` at the integers 0 to 12, the squared lengths of the offsets visited by
the brush. -/
def sqrtValues : List (ℚ × ℚ) :=
  [(0, 0), (1, 1), (2, 11863283 / 8388608), (3, 14529495 / 8388608), (4, 2),
    (5, 9378749 / 4194304), (6, 10273905 / 4194304), (7, 11097085 / 4194304),
    (8, 11863283 / 4194304), (9, 3), (10, 6631777 / 2097152), (11, 13910933 / 4194304),
    (12, 14529495 / 4194304)]

/-- A stand-in for `FMath::Sqrt` that agrees with `sqrtf` at the integers 0 to 12 and returns
every other argument as it is, used to instantiate statements about `FMath::Sqrt`. -/
def sqrtTable : Binary → Binary
  | Binary.finite false m =>
    Binary.finite false (((sqrtValues.find? fun e => decide (e.1 = m)).map Prod.snd).getD m)
  | x => x

/-- A chunk over machine numbers of size 3 (padded size 5) whose densities are `1.0f` except
`0.1f` at `(1, 1, 1)` and `-0.0f` at `(1, 1, 3)` and at `(3, 1, 1)`. -/
def Machine.brushChunk : Machine.ASurfaceNets :=
  { Size := 3
    BlockSize := Binary.finite false 100
    AxisOffsets := ⟨1, 5, 25⟩
    Voxels := (List.range 125).map fun i =>
      if i = 31 then Binary.finite false (13421773 / 134217728)
      else if i = 81 ∨ i = 33 then Binary.finite true 0
      else Binary.one
    VertexCount := 0
    MeshData := Machine.emptyMesh }

/-- The three loops of the brush over machine numbers iterated with symmetric inclusive
bounds: `Count.Z`, `Count.Y` and `Count.X` all over `[-Radius, Radius]`, Radius 2. -/
def Machine.ModifyVoxelDataSymmetric.loops (Sqrt : Binary → Binary) (s : Machine.ASurfaceNets)
    (Radius Strength : Binary) (Start : FIntVector3) (Voxels : List Binary) :
    Option (List Binary) :=
  ModifyVoxelData.countsZ.foldlM (fun V Z =>
    ModifyVoxelData.countsZ.foldlM (fun V Y =>
      ModifyVoxelData.countsZ.foldlM (fun V X =>
        Machine.ModifyVoxelData.body Sqrt s Radius Strength Start V ⟨X, Y, Z⟩) V) V) Voxels

/-- The brush of `ModifyVoxelData` over machine numbers with the inclusive bound `<= Radius`
on all three axes: the same body, radius and strength, only the bounds of the `Count.Y` and
`Count.X` loops differ. -/
def Machine.ModifyVoxelDataSymmetric (Sqrt : Binary → Binary) (s : Machine.ASurfaceNets)
    (Position : FIntVector3) (Block : EVoxelTutorialBlock) : Option Machine.ASurfaceNets :=
  let Radius : Binary := Binary.ofInt single 2
  let Strength : Binary :=
    if Block = EVoxelTutorialBlock.Air then Binary.ofInt single 1 else Binary.ofInt single (-1)
  let Start := Position
  (Machine.ModifyVoxelDataSymmetric.loops Sqrt s Radius Strength Start s.Voxels).map fun V =>
    { s with Voxels := V }

/-- The sign bit of a datum as a Boolean. -/
def Binary.sign : Binary → Bool
  | Binary.finite s _ => s
  | Binary.infinite s => s
  | Binary.nan s => s

/-- A chunk over machine numbers of size 0 (padded size 2) whose single cell has the corner
value `-0.0f` at corner 0 and `1.0f` at the other corners. -/
def Machine.negZeroChunk : Machine.ASurfaceNets :=
  { Size := 0
    BlockSize := Binary.finite false 100
    AxisOffsets := ⟨1, 2, 4⟩
    Voxels := [Binary.finite true 0, Binary.one, Binary.one, Binary.one, Binary.one,
      Binary.one, Binary.one, Binary.one]
    VertexCount := 0
    MeshData := Machine.emptyMesh }

/-- `ASurfaceNets::AddTriangle` on mesh buffers over machine numbers. -/
def Machine.AddTriangle (MeshData : Machine.FChunkMeshData) (IndexA IndexB IndexC : Int) :
    Machine.FChunkMeshData :=
  { MeshData with Triangles := MeshData.Triangles ++ [IndexA, IndexB, IndexC] }

/-- Variables of `GenerateMesh` that change during the march, over machine numbers. -/
structure Machine.MeshState where
  VertexTable : List Int
  VertexCount : Int
  MeshData : Machine.FChunkMeshData

/-- Body of the loop `for (Axis = 0; Axis < 3; ++Axis)` on mesh buffers over machine
numbers. -/
def Machine.GenerateMesh.axis (s : Machine.ASurfaceNets) (VertexTable : List Int)
    (Position : FIntVector3) (Index : Int) (Mask Flags : Nat) (Vertex1 : Int)
    (MeshData : Machine.FChunkMeshData) (Axis : Nat) : Option Machine.FChunkMeshData :=
  if Flags &&& (1 <<< Axis) ≠ 0 then
    if Position.get Axis < 1 then some MeshData
    else
      let AxisOrtho1 := (Axis + 1) % 3
      if Position.get AxisOrtho1 < 1 then some MeshData
      else
        let AxisOrtho2 := (Axis + 2) % 3
        if Position.get AxisOrtho2 < 1 then some MeshData
        else
          (readAt VertexTable (Index - s.AxisOffsets.get AxisOrtho1)).bind fun Vertex2 =>
          (readAt VertexTable
            (Index - s.AxisOffsets.get AxisOrtho1 - s.AxisOffsets.get AxisOrtho2)).bind
              fun Vertex3 =>
          (readAt VertexTable (Index - s.AxisOffsets.get AxisOrtho2)).bind fun Vertex4 =>
          let Swapped : Int × Int := if Mask &&& 1 ≠ 0 then (Vertex4, Vertex2) else (Vertex2, Vertex4)
          some (Machine.AddTriangle (Machine.AddTriangle MeshData Vertex1 Swapped.1 Vertex3)
            Vertex1 Vertex3 Swapped.2)
  else some MeshData

/-- The vertex `GenerateMesh` appends for a cell at `Position` with corner values `Cube`, over
machine numbers: `Vertex += FVector(Position.X, Position.Y, Position.Z)` and
`Vertex *= BlockSize` applied to the position `ComputeSDFSurface` returns. -/
def Machine.cellVertex (Normalize : Machine.FVector → Machine.FVector) (BlockSize : Binary)
    (Cube : Fin 8 → Binary) (Position : FIntVector3) : Machine.FVector :=
  Machine.FVector.scale BlockSize
    ((Machine.ComputeSDFSurface Normalize Cube).1.add
      ⟨Binary.ofInt double Position.X, Binary.ofInt double Position.Y,
        Binary.ofInt double Position.Z⟩)

/-- Body of the innermost loop of `GenerateMesh` over machine numbers for the cell at
`Position`, whose flat index is `Index`. -/
def Machine.GenerateMesh.cell (Normalize : Machine.FVector → Machine.FVector)
    (s : Machine.ASurfaceNets) (st : Machine.MeshState) (Position : FIntVector3) (Index : Int) :
    Option Machine.MeshState :=
  (writeAt st.VertexTable Index (-1)).bind fun VertexTable0 =>
  (Machine.readCube s.Voxels Index (Machine.IndexOffsets s)).bind fun Cube =>
  let Mask := Machine.cornerMask Cube
  if Mask ≠ 0 ∧ Mask < 0xFF then
    let Vertex1 := st.VertexCount
    (writeAt VertexTable0 Index st.VertexCount).bind fun VertexTable =>
    let Computed := Machine.ComputeSDFSurface Normalize Cube
    let Vertex : Machine.FVector := Machine.cellVertex Normalize s.BlockSize Cube Position
    let MeshData : Machine.FChunkMeshData :=
      { st.MeshData with
        Vertices := st.MeshData.Vertices ++ [Vertex]
        Normals := st.MeshData.Normals ++ [Computed.2] }
    let Flags := AxisFlags.getD (Mask &&& AxisMask) 0
    ([0, 1, 2].foldlM (Machine.GenerateMesh.axis s VertexTable Position Index Mask Flags Vertex1)
      MeshData).bind fun MeshData1 =>
    some ⟨VertexTable, st.VertexCount + 1, MeshData1⟩
  else some { st with VertexTable := VertexTable0 }

/-- The loop over `Position.X` over machine numbers; `Index` starts at
`GetVoxelIndex(Position)` with `Position.X = 0` and is incremented together with
`Position.X`. -/
def Machine.GenerateMesh.loopX (Normalize : Machine.FVector → Machine.FVector)
    (s : Machine.ASurfaceNets) (MaxSize : Int) (Z Y : Nat) (st : Machine.MeshState) :
    Option Machine.MeshState :=
  (List.range MaxSize.toNat).foldlM
    (fun st (X : Nat) =>
      Machine.GenerateMesh.cell Normalize s st ⟨X, Y, Z⟩
        (Machine.GetVoxelIndex s ⟨0, Y, Z⟩ + (X : Int))) st

/-- The loop over `Position.Y` over machine numbers. -/
def Machine.GenerateMesh.loopY (Normalize : Machine.FVector → Machine.FVector)
    (s : Machine.ASurfaceNets) (MaxSize : Int) (Z : Nat) (st : Machine.MeshState) :
    Option Machine.MeshState :=
  (List.range MaxSize.toNat).foldlM
    (fun st (Y : Nat) => Machine.GenerateMesh.loopX Normalize s MaxSize Z Y st) st

/-- The loop over `Position.Z` over machine numbers. -/
def Machine.GenerateMesh.loopZ (Normalize : Machine.FVector → Machine.FVector)
    (s : Machine.ASurfaceNets) (MaxSize : Int) (st : Machine.MeshState) :
    Option Machine.MeshState :=
  (List.range MaxSize.toNat).foldlM
    (fun st (Z : Nat) => Machine.GenerateMesh.loopY Normalize s MaxSize Z st) st

/-- The march of `GenerateMesh` over machine numbers with its local `VertexTable` kept in the
result. -/
def Machine.GenerateMesh.run (Normalize : Machine.FVector → Machine.FVector)
    (s : Machine.ASurfaceNets) : Option Machine.MeshState :=
  Machine.GenerateMesh.loopZ Normalize s (s.AxisOffsets.Y - 1)
    ⟨List.replicate s.Voxels.length 0, 0, s.MeshData⟩

/-- `ASurfaceNets::GenerateMesh` over machine numbers: the chunk after the call, `none` when
an array access is out of range. -/
def Machine.GenerateMesh (Normalize : Machine.FVector → Machine.FVector)
    (s : Machine.ASurfaceNets) : Option Machine.ASurfaceNets :=
  (Machine.GenerateMesh.run Normalize s).map fun st =>
    { s with VertexCount := st.VertexCount, MeshData := st.MeshData }

/-- The comparison `a <= b`: false when an operand is a NaN. -/
def Binary.le : Binary → Binary → Bool
  | Binary.nan _, _ => false
  | _, Binary.nan _ => false
  | Binary.infinite s, Binary.infinite t => s || !t
  | Binary.infinite s, Binary.finite _ _ => s
  | Binary.finite _ _, Binary.infinite t => !t
  | Binary.finite s m, Binary.finite t n => decide (signed s m ≤ signed t n)

/-- The number a datum stands for (0 for an infinity and a NaN). -/
def Binary.toRat : Binary → ℚ
  | Binary.finite s m => signed s m
  | _ => 0

/-- A vector over machine numbers lies in the closed unit cube. -/
def Machine.InUnitCube (v : Machine.FVector) : Prop :=
  (Binary.le Binary.zero v.X = true ∧ Binary.le v.X Binary.one = true) ∧
  (Binary.le Binary.zero v.Y = true ∧ Binary.le v.Y Binary.one = true) ∧
  (Binary.le Binary.zero v.Z = true ∧ Binary.le v.Z Binary.one = true)

instance (v : Machine.FVector) : Decidable (Machine.InUnitCube v) := by
  unfold Machine.InUnitCube
  infer_instance

/-- Corner values of a cell with `-2⁻⁸⁰` at corner 0 and `2⁻⁸⁰` at the seven other corners. -/
def Machine.tinyCube : Fin 8 → Binary :=
  ![Binary.finite true (1 / 1208925819614629174706176),
    Binary.finite false (1 / 1208925819614629174706176),
    Binary.finite false (1 / 1208925819614629174706176),
    Binary.finite false (1 / 1208925819614629174706176),
    Binary.finite false (1 / 1208925819614629174706176),
    Binary.finite false (1 / 1208925819614629174706176),
    Binary.finite false (1 / 1208925819614629174706176),
    Binary.finite false (1 / 1208925819614629174706176)]

/-- A chunk over machine numbers of size 0 (padded size 2) whose single cell has the corner
values `-2⁻⁸⁰` at corner 0 and `2⁻⁸⁰` at the seven other corners. -/
def Machine.tinyChunk : Machine.ASurfaceNets :=
  { Size := 0
    BlockSize := Binary.finite false 100
    AxisOffsets := ⟨1, 2, 4⟩
    Voxels := List.ofFn Machine.tinyCube
    VertexCount := 0
    MeshData := Machine.emptyMesh }

/-! ## Checked access: basic facts -/

theorem readAt_of_lt {α : Type} (A : List α) (I : Int) (h0 : 0 ≤ I) (h1 : I.toNat < A.length) :
    readAt A I = some (A.get ⟨I.toNat, h1⟩) := by
  simp [readAt, h0, List.getElem?_eq_getElem h1]

theorem readAt_eq_some {α : Type} {A : List α} {I : Int} {V : α} (h : readAt A I = some V) :
    0 ≤ I ∧ I.toNat < A.length := by
  unfold readAt at h
  split at h
  · rename_i h0
    refine ⟨h0, ?_⟩
    by_contra hlt
    rw [List.getElem?_eq_none (by omega)] at h
    exact absurd h (by simp)
  · exact absurd h (by simp)

theorem writeAt_of_lt {α : Type} (A : List α) (I : Int) (V : α) (h0 : 0 ≤ I)
    (h1 : I.toNat < A.length) : writeAt A I V = some (A.set I.toNat V) := by
  simp [writeAt, h0, h1]

theorem writeAt_eq_some {α : Type} {A B : List α} {I : Int} {V : α}
    (h : writeAt A I V = some B) : 0 ≤ I ∧ I.toNat < A.length ∧ B = A.set I.toNat V := by
  unfold writeAt at h
  split at h
  · rename_i hc
    simp only [Option.some.injEq] at h
    exact ⟨hc.1, hc.2, h.symm⟩
  · exact absurd h (by simp)

theorem writeAt_length {α : Type} {A B : List α} {I : Int} {V : α}
    (h : writeAt A I V = some B) : B.length = A.length := by
  obtain ⟨_, _, rfl⟩ := writeAt_eq_some h
  simp

theorem readAt_writeAt_same {α : Type} {A B : List α} {I : Int} {V : α}
    (h : writeAt A I V = some B) : readAt B I = some V := by
  obtain ⟨h0, h1, rfl⟩ := writeAt_eq_some h
  simp [readAt, h0, h1]

theorem readAt_writeAt_ne {α : Type} {A B : List α} {I J : Int} {V : α}
    (h : writeAt A I V = some B) (hne : J ≠ I) : readAt B J = readAt A J := by
  obtain ⟨h0, h1, rfl⟩ := writeAt_eq_some h
  unfold readAt
  split
  · rename_i hJ
    have : I.toNat ≠ J.toNat := by omega
    simp [List.getElem?_set_ne this]
  · rfl

theorem readAt_replicate {α : Type} (n : Nat) (a : α) (I : Int) (h0 : 0 ≤ I) (h1 : I.toNat < n) :
    readAt (List.replicate n a) I = some a := by
  simp [readAt, h0, h1]

/-! ## `Setup` establishes the layout -/

theorem setNum_length (A : List ℚ) (N : Int) : (setNum A N).length = N.toNat := by
  unfold setNum
  rw [List.length_append, List.length_take, List.length_replicate]
  omega

theorem Setup_ready (s : ASurfaceNets) (h : 0 ≤ s.Size + 2) :
    Ready (Setup s) (s.Size + 2).toNat := by
  have hc : (((s.Size + 2).toNat : Nat) : Int) = s.Size + 2 := Int.toNat_of_nonneg h
  refine ⟨?_, ?_, ?_⟩
  · rw [hc]
    rfl
  · rw [hc]
    rfl
  · show (setNum s.Voxels ((s.Size + 2) * ((s.Size + 2) * (s.Size + 2)))).length = _
    rw [setNum_length]
    have h3 : (s.Size + 2) * ((s.Size + 2) * (s.Size + 2)) =
        (((s.Size + 2).toNat * (s.Size + 2).toNat * (s.Size + 2).toNat : Nat) : Int) := by
      push_cast
      rw [hc]
      ring
    rw [h3, Int.toNat_natCast]

/-! ## Flat indices -/

theorem GetVoxelIndex_ready {s : ASurfaceNets} {P : Nat} (h : Ready s P) (p : FIntVector3) :
    GetVoxelIndex s p = p.Z * ((P : Int) * P) + p.Y * P + p.X := by
  simp [GetVoxelIndex, h.2.1]

theorem flat_lt_of_lex {P : Int} {x y z x' y' z' : Int}
    (hx : 0 ≤ x ∧ x < P) (hy : 0 ≤ y ∧ y < P) (hx' : 0 ≤ x' ∧ x' < P) (hy' : 0 ≤ y' ∧ y' < P)
    (hlex : z < z' ∨ (z = z' ∧ (y < y' ∨ (y = y' ∧ x < x')))) :
    z * (P * P) + y * P + x < z' * (P * P) + y' * P + x' := by
  have hP : 0 < P := by omega
  rcases hlex with h | ⟨rfl, h | ⟨rfl, h⟩⟩
  · have h1 : (z + 1) * (P * P) ≤ z' * (P * P) :=
      Int.mul_le_mul_of_nonneg_right (by omega) (by positivity)
    have h2 : y * P ≤ (P - 1) * P := Int.mul_le_mul_of_nonneg_right (by omega) (by omega)
    have h3 : 0 ≤ y' * P := Int.mul_nonneg hy'.1 (by omega)
    nlinarith
  · have h2 : (y + 1) * P ≤ y' * P := Int.mul_le_mul_of_nonneg_right (by omega) (by omega)
    nlinarith
  · omega

theorem flat_bounds {P : Nat} {p : FIntVector3} (hp : InField P p) :
    0 ≤ p.Z * ((P : Int) * P) + p.Y * P + p.X ∧
      p.Z * ((P : Int) * P) + p.Y * P + p.X < (P : Int) * P * P := by
  obtain ⟨hx, hy, hz⟩ := hp
  have hP : (0 : Int) < P := by omega
  have h1 : 0 ≤ p.Z * ((P : Int) * P) := Int.mul_nonneg hz.1 (by positivity)
  have h2 : 0 ≤ p.Y * (P : Int) := Int.mul_nonneg hy.1 (by omega)
  have h3 : p.Z * ((P : Int) * P) ≤ ((P : Int) - 1) * (P * P) :=
    Int.mul_le_mul_of_nonneg_right (by omega) (by positivity)
  have h4 : p.Y * (P : Int) ≤ ((P : Int) - 1) * P :=
    Int.mul_le_mul_of_nonneg_right (by omega) (by omega)
  constructor
  · omega
  · nlinarith

theorem GetVoxelIndex_bounds {s : ASurfaceNets} {P : Nat} (h : Ready s P) {p : FIntVector3}
    (hp : InField P p) :
    0 ≤ GetVoxelIndex s p ∧ (GetVoxelIndex s p).toNat < s.Voxels.length := by
  have hb := flat_bounds hp
  rw [GetVoxelIndex_ready h, h.2.2]
  refine ⟨hb.1, ?_⟩
  have : ((P * P * P : Nat) : Int) = (P : Int) * P * P := by push_cast; ring
  omega

theorem GetVoxelIndex_lt_of_lex {s : ASurfaceNets} {P : Nat} (h : Ready s P) {p q : FIntVector3}
    (hp : InField P p) (hq : InField P q)
    (hlex : p.Z < q.Z ∨ (p.Z = q.Z ∧ (p.Y < q.Y ∨ (p.Y = q.Y ∧ p.X < q.X)))) :
    GetVoxelIndex s p < GetVoxelIndex s q := by
  rw [GetVoxelIndex_ready h, GetVoxelIndex_ready h]
  exact flat_lt_of_lex hp.1 hp.2.1 hq.1 hq.2.1 hlex

theorem GetVoxelIndex_inj {s : ASurfaceNets} {P : Nat} (h : Ready s P) {p q : FIntVector3}
    (hp : InField P p) (hq : InField P q) (he : GetVoxelIndex s p = GetVoxelIndex s q) :
    p = q := by
  by_contra hne
  have hlex : (p.Z < q.Z ∨ (p.Z = q.Z ∧ (p.Y < q.Y ∨ (p.Y = q.Y ∧ p.X < q.X)))) ∨
      (q.Z < p.Z ∨ (q.Z = p.Z ∧ (q.Y < p.Y ∨ (q.Y = p.Y ∧ q.X < p.X)))) := by
    have : p.X ≠ q.X ∨ p.Y ≠ q.Y ∨ p.Z ≠ q.Z := by
      by_contra hall
      push_neg at hall
      apply hne
      cases p; cases q
      simp_all
    omega
  rcases hlex with hl | hl
  · have := GetVoxelIndex_lt_of_lex h hp hq hl
    omega
  · have := GetVoxelIndex_lt_of_lex h hq hp hl
    omega

theorem inField_of_inScan {P : Nat} {p : FIntVector3} (hp : InScan P p) : InField P p := by
  obtain ⟨hx, hy, hz⟩ := hp
  exact ⟨⟨hx.1, by omega⟩, ⟨hy.1, by omega⟩, ⟨hz.1, by omega⟩⟩

theorem VertexOffset_bounds (Corner : Fin 8) :
    (0 ≤ (VertexOffset Corner).X ∧ (VertexOffset Corner).X ≤ 1) ∧
    (0 ≤ (VertexOffset Corner).Y ∧ (VertexOffset Corner).Y ≤ 1) ∧
    (0 ≤ (VertexOffset Corner).Z ∧ (VertexOffset Corner).Z ≤ 1) := by
  fin_cases Corner <;> decide

theorem inField_add_offset {P : Nat} {p : FIntVector3} (hp : InScan P p) (Corner : Fin 8) :
    InField P (p.add (VertexOffset Corner)) := by
  obtain ⟨hx, hy, hz⟩ := hp
  obtain ⟨ox, oy, oz⟩ := VertexOffset_bounds Corner
  simp only [InField, FIntVector3.add]
  omega

theorem GetVoxelIndex_add (s : ASurfaceNets) (p q : FIntVector3) :
    GetVoxelIndex s p + GetVoxelIndex s q = GetVoxelIndex s (p.add q) := by
  simp only [GetVoxelIndex, FIntVector3.add]
  ring

theorem index_add_offset (s : ASurfaceNets) (p : FIntVector3) (Corner : Fin 8) :
    GetVoxelIndex s p + IndexOffsets s Corner = GetVoxelIndex s (p.add (VertexOffset Corner)) :=
  GetVoxelIndex_add s p _

/-! ## The corner mask -/

theorem signBit_eq (Value : ℚ) : signBit Value = (decide (Value < 0)).toNat := by
  unfold signBit
  split <;> simp [*]

theorem cornerMask_eq (Cube : Fin 8 → ℚ) :
    cornerMask Cube = bitsMask (negative Cube 0) (negative Cube 1) (negative Cube 2)
      (negative Cube 3) (negative Cube 4) (negative Cube 5) (negative Cube 6) (negative Cube 7) := by
  simp only [cornerMask, cornerMask.loop, signBit_eq, bitsMask, negative]
  rfl

theorem isSurface_bitsMask : ∀ b0 b1 b2 b3 b4 b5 b6 b7 : Bool,
    isSurface (bitsMask b0 b1 b2 b3 b4 b5 b6 b7) =
      ((b0 || b1 || b2 || b3 || b4 || b5 || b6 || b7) &&
        !(b0 && b1 && b2 && b3 && b4 && b5 && b6 && b7)) := by
  decide

theorem bitsMask_le : ∀ b0 b1 b2 b3 b4 b5 b6 b7 : Bool,
    bitsMask b0 b1 b2 b3 b4 b5 b6 b7 ≤ 255 := by
  decide

theorem flags_bitsMask : ∀ b0 b1 b2 b3 b4 b5 b6 b7 : Bool,
    (decide (AxisFlags.getD (bitsMask b0 b1 b2 b3 b4 b5 b6 b7 &&& AxisMask) 0 &&& (1 <<< 0) ≠ 0)
        = (b0 != b1)) ∧
    (decide (AxisFlags.getD (bitsMask b0 b1 b2 b3 b4 b5 b6 b7 &&& AxisMask) 0 &&& (1 <<< 1) ≠ 0)
        = (b0 != b2)) ∧
    (decide (AxisFlags.getD (bitsMask b0 b1 b2 b3 b4 b5 b6 b7 &&& AxisMask) 0 &&& (1 <<< 2) ≠ 0)
        = (b0 != b4)) ∧
    (decide (bitsMask b0 b1 b2 b3 b4 b5 b6 b7 &&& 1 ≠ 0) = b0) := by
  decide

theorem isSurface_of_negative_ne {Cube : Fin 8 → ℚ} (c c' : Fin 8)
    (h : negative Cube c ≠ negative Cube c') : isSurface (cornerMask Cube) = true := by
  rw [cornerMask_eq, isSurface_bitsMask]
  by_contra hcon
  apply h
  have hall : ∀ d : Fin 8, negative Cube d = negative Cube 0 := by
    intro d
    revert hcon
    cases h0 : negative Cube 0 <;> cases h1 : negative Cube 1 <;> cases h2 : negative Cube 2 <;>
    cases h3 : negative Cube 3 <;> cases h4 : negative Cube 4 <;> cases h5 : negative Cube 5 <;>
    cases h6 : negative Cube 6 <;> cases h7 : negative Cube 7 <;> intro hcon <;>
    first
      | exact absurd rfl hcon
      | (fin_cases d <;> assumption)
  rw [hall c, hall c']

theorem not_isSurface_of_all {Cube : Fin 8 → ℚ} (b : Bool)
    (h : ∀ c : Fin 8, negative Cube c = b) : isSurface (cornerMask Cube) = false := by
  rw [cornerMask_eq, isSurface_bitsMask]
  simp only [h]
  cases b <;> rfl

/-! ## The march as one loop over the visited cells -/

theorem foldlM_flatMap {α β σ : Type} (f : σ → β → Option σ) (g : α → List β) (l : List α)
    (init : σ) :
    (l.flatMap g).foldlM f init = l.foldlM (fun st a => (g a).foldlM f st) init := by
  induction l generalizing init with
  | nil => rfl
  | cons a l ih =>
    rw [List.flatMap_cons, List.foldlM_append, List.foldlM_cons]
    cases h : (g a).foldlM f init with
    | none => rfl
    | some st => exact ih st

theorem mem_scanCells {n : Nat} {p : FIntVector3} :
    p ∈ scanCells n ↔ ∃ X Y Z : Nat, (X < n ∧ Y < n ∧ Z < n) ∧ p = ⟨X, Y, Z⟩ := by
  simp only [scanCells, List.mem_flatMap, List.mem_map, List.mem_range]
  constructor
  · rintro ⟨Z, hZ, Y, hY, X, hX, rfl⟩
    exact ⟨X, Y, Z, ⟨hX, hY, hZ⟩, rfl⟩
  · rintro ⟨X, Y, Z, ⟨hX, hY, hZ⟩, rfl⟩
    exact ⟨Z, hZ, Y, hY, X, hX, rfl⟩

theorem mem_scanCells_iff {P : Nat} {p : FIntVector3} : p ∈ scanCells (P - 1) ↔ InScan P p := by
  rw [mem_scanCells]
  constructor
  · rintro ⟨X, Y, Z, ⟨hX, hY, hZ⟩, rfl⟩
    simp only [InScan]
    omega
  · rintro ⟨hx, hy, hz⟩
    refine ⟨p.X.toNat, p.Y.toNat, p.Z.toNat, ⟨by omega, by omega, by omega⟩, ?_⟩
    cases p
    simp only [FIntVector3.mk.injEq]
    simp only at hx hy hz
    omega

theorem loopZ_eq (N : FVector → FVector) (s : ASurfaceNets) (MaxSize : Int) (st : MeshState) :
    GenerateMesh.loopZ N s MaxSize st =
      (scanCells MaxSize.toNat).foldlM
        (fun st p => GenerateMesh.cell N s st p (GetVoxelIndex s p)) st := by
  unfold scanCells GenerateMesh.loopZ
  rw [foldlM_flatMap]
  congr 1
  funext st Z
  unfold GenerateMesh.loopY
  rw [foldlM_flatMap]
  congr 1
  funext st Y
  unfold GenerateMesh.loopX
  rw [List.foldlM_map]
  congr 1
  funext st X
  congr 1
  simp [GetVoxelIndex]

theorem scanCells_pairwise {s : ASurfaceNets} {P : Nat} (h : Ready s P) :
    (scanCells (P - 1)).Pairwise (fun a b => GetVoxelIndex s a < GetVoxelIndex s b) := by
  have hlt := List.pairwise_lt_range (P - 1)
  unfold scanCells
  rw [List.pairwise_flatMap]
  constructor
  · intro Z hZ
    rw [List.pairwise_flatMap]
    constructor
    · intro Y hY
      rw [List.pairwise_map]
      refine hlt.imp_of_mem ?_
      intro X X' hX hX' hXX
      simp only [List.mem_range] at hX hX' hY hZ
      apply GetVoxelIndex_lt_of_lex h
      · simp only [InField]; omega
      · simp only [InField]; omega
      · right; refine ⟨rfl, Or.inr ⟨rfl, ?_⟩⟩
        simp only
        omega
    · refine hlt.imp_of_mem ?_
      intro Y Y' hY hY' hYY p hp q hq
      simp only [List.mem_map, List.mem_range] at hp hq hY hY' hZ
      obtain ⟨X, hX, rfl⟩ := hp
      obtain ⟨X', hX', rfl⟩ := hq
      apply GetVoxelIndex_lt_of_lex h
      · simp only [InField]; omega
      · simp only [InField]; omega
      · right; refine ⟨rfl, Or.inl ?_⟩
        simp only
        omega
  · refine hlt.imp_of_mem ?_
    intro Z Z' hZ hZ' hZZ p hp q hq
    simp only [List.mem_flatMap, List.mem_map, List.mem_range] at hp hq hZ hZ'
    obtain ⟨Y, hY, X, hX, rfl⟩ := hp
    obtain ⟨Y', hY', X', hX', rfl⟩ := hq
    apply GetVoxelIndex_lt_of_lex h
    · simp only [InField]; omega
    · simp only [InField]; omega
    · left
      simp only
      omega

theorem scanCells_nodup {s : ASurfaceNets} {P : Nat} (h : Ready s P) : (scanCells (P - 1)).Nodup :=
  (scanCells_pairwise h).imp (fun hab heq => by rw [heq] at hab; exact lt_irrefl _ hab)

theorem foldlM_invariant {α σ : Type} (f : σ → α → Option σ) (Inv : List α → σ → Prop)
    (l : List α)
    (hstep : ∀ pre x post st, l = pre ++ x :: post → Inv pre st →
      ∃ st', f st x = some st' ∧ Inv (pre ++ [x]) st')
    (init : σ) (h0 : Inv [] init) : ∃ st, l.foldlM f init = some st ∧ Inv l st := by
  have key : ∀ rest pre st, l = pre ++ rest → Inv pre st →
      ∃ st', rest.foldlM f st = some st' ∧ Inv l st' := by
    intro rest
    induction rest with
    | nil =>
      intro pre st hl hinv
      refine ⟨st, rfl, ?_⟩
      rw [hl, List.append_nil]
      exact hinv
    | cons x rest ih =>
      intro pre st hl hinv
      obtain ⟨st1, h1, hinv1⟩ := hstep pre x rest st hl hinv
      obtain ⟨st2, h2, hinv2⟩ := ih (pre ++ [x]) st1 (by rw [hl]; simp) hinv1
      refine ⟨st2, ?_, hinv2⟩
      rw [List.foldlM_cons, h1]
      exact h2
  exact key l [] init rfl h0

/-! ## One cell of the march -/

theorem VertexOffset_table :
    VertexOffset 0 = ⟨0, 0, 0⟩ ∧ VertexOffset 1 = ⟨1, 0, 0⟩ ∧ VertexOffset 2 = ⟨0, 1, 0⟩ ∧
    VertexOffset 3 = ⟨1, 1, 0⟩ ∧ VertexOffset 4 = ⟨0, 0, 1⟩ ∧ VertexOffset 5 = ⟨1, 0, 1⟩ ∧
    VertexOffset 6 = ⟨0, 1, 1⟩ ∧ VertexOffset 7 = ⟨1, 1, 1⟩ :=
  ⟨rfl, rfl, rfl, rfl, rfl, rfl, rfl, rfl⟩

theorem readCube_eq {s : ASurfaceNets} {P : Nat} (h : Ready s P) {p : FIntVector3}
    (hp : InScan P p) :
    readCube s.Voxels (GetVoxelIndex s p) (IndexOffsets s) = some (cubeAt s p) := by
  have hall : ∀ c : Fin 8, 0 ≤ GetVoxelIndex s p + IndexOffsets s c ∧
      (GetVoxelIndex s p + IndexOffsets s c).toNat < s.Voxels.length := by
    intro c
    rw [index_add_offset]
    exact GetVoxelIndex_bounds h (inField_add_offset hp c)
  unfold readCube
  rw [dif_pos hall]
  congr 1
  funext c
  unfold cubeAt density
  rw [← index_add_offset, readAt_of_lt _ _ (hall c).1 (hall c).2]
  rfl

theorem surfaceCell_of_edge {s : ASurfaceNets} {q x : FIntVector3} {c c' d : Fin 8}
    (h1 : q.add (VertexOffset c) = x) (h2 : q.add (VertexOffset c') = x.add (VertexOffset d))
    (hne : negative (cubeAt s x) 0 ≠ negative (cubeAt s x) d) : surfaceCell s q = true := by
  apply isSurface_of_negative_ne c c'
  have h0 : x.add (VertexOffset 0) = x := by
    cases x
    simp [FIntVector3.add, VertexOffset_table.1]
  unfold negative cubeAt at hne ⊢
  rw [h1, h2]
  rw [h0] at hne
  exact hne

theorem flag_negative (Cube : Fin 8 → ℚ) :
    (AxisFlags.getD (cornerMask Cube &&& AxisMask) 0 &&& (1 <<< 0) ≠ 0 →
      negative Cube 0 ≠ negative Cube 1) ∧
    (AxisFlags.getD (cornerMask Cube &&& AxisMask) 0 &&& (1 <<< 1) ≠ 0 →
      negative Cube 0 ≠ negative Cube 2) ∧
    (AxisFlags.getD (cornerMask Cube &&& AxisMask) 0 &&& (1 <<< 2) ≠ 0 →
      negative Cube 0 ≠ negative Cube 4) := by
  rw [cornerMask_eq]
  obtain ⟨f0, f1, f2, _⟩ := flags_bitsMask (negative Cube 0) (negative Cube 1) (negative Cube 2)
      (negative Cube 3) (negative Cube 4) (negative Cube 5) (negative Cube 6) (negative Cube 7)
  refine ⟨fun hf => ?_, fun hf => ?_, fun hf => ?_⟩
  · have hd := decide_eq_true hf
    rw [f0] at hd
    simpa using hd
  · have hd := decide_eq_true hf
    rw [f1] at hd
    simpa using hd
  · have hd := decide_eq_true hf
    rw [f2] at hd
    simpa using hd

theorem neighbours_surface {s : ASurfaceNets} {P : Nat} (h : Ready s P) {p : FIntVector3}
    (hp : InScan P p) (Axis : Nat) (hA : Axis < 3)
    (hf : AxisFlags.getD (cornerMask (cubeAt s p) &&& AxisMask) 0 &&& (1 <<< Axis) ≠ 0)
    (g1 : ¬ p.get ((Axis + 1) % 3) < 1) (g2 : ¬ p.get ((Axis + 2) % 3) < 1) (I : Int)
    (hI : I = GetVoxelIndex s p - s.AxisOffsets.get ((Axis + 1) % 3) ∨
      I = GetVoxelIndex s p - s.AxisOffsets.get ((Axis + 1) % 3) -
        s.AxisOffsets.get ((Axis + 2) % 3) ∨
      I = GetVoxelIndex s p - s.AxisOffsets.get ((Axis + 2) % 3)) :
    ∃ q, InScan P q ∧ I = GetVoxelIndex s q ∧ GetVoxelIndex s q < GetVoxelIndex s p ∧
      surfaceCell s q = true := by
  obtain ⟨fl0, fl1, fl2⟩ := flag_negative (cubeAt s p)
  obtain ⟨t0, t1, t2, t3, t4, t5, t6, t7⟩ := VertexOffset_table
  have hpf := inField_of_inScan hp
  obtain ⟨hX, hY, hZ⟩ := hp
  have key : ∀ (q : FIntVector3) (c c' d : Fin 8), q.add (VertexOffset c) = p →
      q.add (VertexOffset c') = p.add (VertexOffset d) →
      negative (cubeAt s p) 0 ≠ negative (cubeAt s p) d →
      (0 ≤ q.X ∧ 0 ≤ q.Y ∧ 0 ≤ q.Z) →
      (q.X ≤ p.X ∧ q.Y ≤ p.Y ∧ q.Z ≤ p.Z) →
      (q.Z < p.Z ∨ (q.Z = p.Z ∧ (q.Y < p.Y ∨ (q.Y = p.Y ∧ q.X < p.X)))) →
      I = GetVoxelIndex s q →
      ∃ q, InScan P q ∧ I = GetVoxelIndex s q ∧ GetVoxelIndex s q < GetVoxelIndex s p ∧
        surfaceCell s q = true := by
    intro q c c' d e1 e2 hne h0 hle hlex hIq
    have hqs : InScan P q := by
      simp only [InScan]
      omega
    exact ⟨q, hqs, hIq, GetVoxelIndex_lt_of_lex h (inField_of_inScan hqs) hpf hlex,
      surfaceCell_of_edge e1 e2 hne⟩
  have hA' : Axis = 0 ∨ Axis = 1 ∨ Axis = 2 := by omega
  rcases hA' with rfl | rfl | rfl
  · simp only [FIntVector3.get] at g1 g2
    have hne := fl0 hf
    rcases hI with rfl | rfl | rfl
    · refine key ⟨p.X, p.Y - 1, p.Z⟩ 2 3 1 ?_ ?_ hne ?_ ?_ ?_ ?_
      · cases p; simp [FIntVector3.add, t2]
      · cases p; simp [FIntVector3.add, t3, t1]
      · simp only; omega
      · simp only; omega
      · simp only [true_and, lt_self_iff_false, false_or]; omega
      · simp only [GetVoxelIndex, FIntVector3.get, h.2.1]
        ring
    · refine key ⟨p.X, p.Y - 1, p.Z - 1⟩ 6 7 1 ?_ ?_ hne ?_ ?_ ?_ ?_
      · cases p; simp [FIntVector3.add, t6]
      · cases p; simp [FIntVector3.add, t7, t1]
      · simp only; omega
      · simp only; omega
      · simp only [true_and, lt_self_iff_false, false_or]; omega
      · simp only [GetVoxelIndex, FIntVector3.get, h.2.1]
        ring
    · refine key ⟨p.X, p.Y, p.Z - 1⟩ 4 5 1 ?_ ?_ hne ?_ ?_ ?_ ?_
      · cases p; simp [FIntVector3.add, t4]
      · cases p; simp [FIntVector3.add, t5, t1]
      · simp only; omega
      · simp only; omega
      · simp only [true_and, lt_self_iff_false, false_or]; omega
      · simp only [GetVoxelIndex, FIntVector3.get, h.2.1]
        ring
  · simp only [FIntVector3.get] at g1 g2
    have hne := fl1 hf
    rcases hI with rfl | rfl | rfl
    · refine key ⟨p.X, p.Y, p.Z - 1⟩ 4 6 2 ?_ ?_ hne ?_ ?_ ?_ ?_
      · cases p; simp [FIntVector3.add, t4]
      · cases p; simp [FIntVector3.add, t6, t2]
      · simp only; omega
      · simp only; omega
      · simp only [true_and, lt_self_iff_false, false_or]; omega
      · simp only [GetVoxelIndex, FIntVector3.get, h.2.1]
        ring
    · refine key ⟨p.X - 1, p.Y, p.Z - 1⟩ 5 7 2 ?_ ?_ hne ?_ ?_ ?_ ?_
      · cases p; simp [FIntVector3.add, t5]
      · cases p; simp [FIntVector3.add, t7, t2]
      · simp only; omega
      · simp only; omega
      · simp only [true_and, lt_self_iff_false, false_or]; omega
      · simp only [GetVoxelIndex, FIntVector3.get, h.2.1]
        ring
    · refine key ⟨p.X - 1, p.Y, p.Z⟩ 1 3 2 ?_ ?_ hne ?_ ?_ ?_ ?_
      · cases p; simp [FIntVector3.add, t1]
      · cases p; simp [FIntVector3.add, t3, t2]
      · simp only; omega
      · simp only; omega
      · simp only [true_and, lt_self_iff_false, false_or]; omega
      · simp only [GetVoxelIndex, FIntVector3.get, h.2.1]
        ring
  · simp only [FIntVector3.get] at g1 g2
    have hne := fl2 hf
    rcases hI with rfl | rfl | rfl
    · refine key ⟨p.X - 1, p.Y, p.Z⟩ 1 5 4 ?_ ?_ hne ?_ ?_ ?_ ?_
      · cases p; simp [FIntVector3.add, t1]
      · cases p; simp [FIntVector3.add, t5, t4]
      · simp only; omega
      · simp only; omega
      · simp only [true_and, lt_self_iff_false, false_or]; omega
      · simp only [GetVoxelIndex, FIntVector3.get, h.2.1]
        ring
    · refine key ⟨p.X - 1, p.Y - 1, p.Z⟩ 3 7 4 ?_ ?_ hne ?_ ?_ ?_ ?_
      · cases p; simp [FIntVector3.add, t3]
      · cases p; simp [FIntVector3.add, t7, t4]
      · simp only; omega
      · simp only; omega
      · simp only [true_and, lt_self_iff_false, false_or]; omega
      · simp only [GetVoxelIndex, FIntVector3.get, h.2.1]
        ring
    · refine key ⟨p.X, p.Y - 1, p.Z⟩ 2 6 4 ?_ ?_ hne ?_ ?_ ?_ ?_
      · cases p; simp [FIntVector3.add, t2]
      · cases p; simp [FIntVector3.add, t6, t4]
      · simp only; omega
      · simp only; omega
      · simp only [true_and, lt_self_iff_false, false_or]; omega
      · simp only [GetVoxelIndex, FIntVector3.get, h.2.1]
        ring

theorem quad_ok (VT : List Int) (I1 I2 I3 : Int) (Mask : Nat) (VC : Int) (MD : FChunkMeshData)
    (hVC : 0 ≤ VC)
    (h1 : ∃ k, readAt VT I1 = some k ∧ 0 ≤ k ∧ k < VC)
    (h2 : ∃ k, readAt VT I2 = some k ∧ 0 ≤ k ∧ k < VC)
    (h3 : ∃ k, readAt VT I3 = some k ∧ 0 ≤ k ∧ k < VC) :
    ∃ T, ((readAt VT I1).bind fun Vertex2 =>
          (readAt VT I2).bind fun Vertex3 =>
          (readAt VT I3).bind fun Vertex4 =>
          let Swapped : Int × Int :=
            if Mask &&& 1 ≠ 0 then (Vertex4, Vertex2) else (Vertex2, Vertex4)
          some (AddTriangle (AddTriangle MD VC Swapped.1 Vertex3) VC Vertex3 Swapped.2))
        = some { MD with Triangles := MD.Triangles ++ T } ∧
      T.length % 3 = 0 ∧ ∀ t ∈ T, 0 ≤ t ∧ t ≤ VC := by
  obtain ⟨k1, r1, a1, b1⟩ := h1
  obtain ⟨k2, r2, a2, b2⟩ := h2
  obtain ⟨k3, r3, a3, b3⟩ := h3
  rw [r1, r2, r3]
  by_cases hm : Mask &&& 1 ≠ 0
  · refine ⟨[VC, k3, k2, VC, k2, k1], ?_, by simp, ?_⟩
    · simp only [Option.some_bind, if_pos hm, AddTriangle]
      simp
    · intro t ht
      simp only [List.mem_cons, List.mem_singleton, List.not_mem_nil, or_false] at ht
      omega
  · refine ⟨[VC, k1, k2, VC, k2, k3], ?_, by simp, ?_⟩
    · simp only [Option.some_bind, if_neg hm, AddTriangle]
      simp
    · intro t ht
      simp only [List.mem_cons, List.mem_singleton, List.not_mem_nil, or_false] at ht
      omega

theorem axis_ok {s : ASurfaceNets} {P : Nat} (h : Ready s P) {x : FIntVector3} (hx : InScan P x)
    (VT : List Int) (VC : Int) (hVC : 0 ≤ VC)
    (hread : ∀ q, InScan P q → GetVoxelIndex s q < GetVoxelIndex s x → surfaceCell s q = true →
      ∃ k, readAt VT (GetVoxelIndex s q) = some k ∧ 0 ≤ k ∧ k < VC)
    (MD : FChunkMeshData) (Axis : Nat) (hA : Axis < 3) :
    ∃ T, GenerateMesh.axis s VT x (GetVoxelIndex s x) (cornerMask (cubeAt s x))
          (AxisFlags.getD (cornerMask (cubeAt s x) &&& AxisMask) 0) VC MD Axis
        = some { MD with Triangles := MD.Triangles ++ T } ∧
      T.length % 3 = 0 ∧ ∀ t ∈ T, 0 ≤ t ∧ t ≤ VC := by
  have hnil : ∃ T, some MD = some { MD with Triangles := MD.Triangles ++ T } ∧
      T.length % 3 = 0 ∧ ∀ t ∈ T, 0 ≤ t ∧ t ≤ VC := ⟨[], by simp, rfl, by simp⟩
  obtain ⟨fl0, fl1, fl2⟩ := flag_negative (cubeAt s x)
  obtain ⟨t0, t1, t2, t3, t4, t5, t6, t7⟩ := VertexOffset_table
  have hxf := (inField_of_inScan hx)
  obtain ⟨hX, hY, hZ⟩ := hx
  have nb : ∀ (q : FIntVector3) (c c' d : Fin 8), q.add (VertexOffset c) = x →
      q.add (VertexOffset c') = x.add (VertexOffset d) →
      negative (cubeAt s x) 0 ≠ negative (cubeAt s x) d →
      (0 ≤ q.X ∧ 0 ≤ q.Y ∧ 0 ≤ q.Z) →
      (q.X ≤ x.X ∧ q.Y ≤ x.Y ∧ q.Z ≤ x.Z) →
      (q.Z < x.Z ∨ (q.Z = x.Z ∧ (q.Y < x.Y ∨ (q.Y = x.Y ∧ q.X < x.X)))) →
      ∃ k, readAt VT (GetVoxelIndex s q) = some k ∧ 0 ≤ k ∧ k < VC := by
    intro q c c' d e1 e2 hne h0 hle hlex
    have hqs : InScan P q := by
      simp only [InScan]
      omega
    exact hread q hqs (GetVoxelIndex_lt_of_lex h (inField_of_inScan hqs) hxf hlex)
      (surfaceCell_of_edge e1 e2 hne)
  unfold GenerateMesh.axis
  by_cases hf : AxisFlags.getD (cornerMask (cubeAt s x) &&& AxisMask) 0 &&& (1 <<< Axis) ≠ 0
  · rw [if_pos hf]
    by_cases g0 : x.get Axis < 1
    · rw [if_pos g0]
      exact hnil
    · rw [if_neg g0]
      dsimp only
      by_cases g1 : x.get ((Axis + 1) % 3) < 1
      · rw [if_pos g1]
        exact hnil
      · rw [if_neg g1]
        by_cases g2 : x.get ((Axis + 2) % 3) < 1
        · rw [if_pos g2]
          exact hnil
        · rw [if_neg g2]
          have hA' : Axis = 0 ∨ Axis = 1 ∨ Axis = 2 := by omega
          rcases hA' with rfl | rfl | rfl
          · simp only [FIntVector3.get] at g0 g1 g2
            have e1 : GetVoxelIndex s x - s.AxisOffsets.get ((0 + 1) % 3) =
                GetVoxelIndex s ⟨x.X, x.Y - 1, x.Z⟩ := by
              simp only [GetVoxelIndex, FIntVector3.get, h.2.1]
              ring
            have e2 : GetVoxelIndex s x - s.AxisOffsets.get ((0 + 1) % 3) -
                s.AxisOffsets.get ((0 + 2) % 3) = GetVoxelIndex s ⟨x.X, x.Y - 1, x.Z - 1⟩ := by
              simp only [GetVoxelIndex, FIntVector3.get, h.2.1]
              ring
            have e3 : GetVoxelIndex s x - s.AxisOffsets.get ((0 + 2) % 3) =
                GetVoxelIndex s ⟨x.X, x.Y, x.Z - 1⟩ := by
              simp only [GetVoxelIndex, FIntVector3.get, h.2.1]
              ring
            rw [e2, e1, e3]
            have hne := fl0 hf
            apply quad_ok _ _ _ _ _ _ _ hVC
            · refine nb _ 2 3 1 ?_ ?_ hne ?_ ?_ ?_
              · cases x; simp [FIntVector3.add, t2]
              · cases x; simp [FIntVector3.add, t3, t1]
              · simp only; omega
              · simp only; omega
              · simp only [true_and, lt_self_iff_false, false_or]; omega
            · refine nb _ 6 7 1 ?_ ?_ hne ?_ ?_ ?_
              · cases x; simp [FIntVector3.add, t6]
              · cases x; simp [FIntVector3.add, t7, t1]
              · simp only; omega
              · simp only; omega
              · simp only [true_and, lt_self_iff_false, false_or]; omega
            · refine nb _ 4 5 1 ?_ ?_ hne ?_ ?_ ?_
              · cases x; simp [FIntVector3.add, t4]
              · cases x; simp [FIntVector3.add, t5, t1]
              · simp only; omega
              · simp only; omega
              · simp only [true_and, lt_self_iff_false, false_or]; omega
          · simp only [FIntVector3.get] at g0 g1 g2
            have e1 : GetVoxelIndex s x - s.AxisOffsets.get ((1 + 1) % 3) =
                GetVoxelIndex s ⟨x.X, x.Y, x.Z - 1⟩ := by
              simp only [GetVoxelIndex, FIntVector3.get, h.2.1]
              ring
            have e2 : GetVoxelIndex s x - s.AxisOffsets.get ((1 + 1) % 3) -
                s.AxisOffsets.get ((1 + 2) % 3) = GetVoxelIndex s ⟨x.X - 1, x.Y, x.Z - 1⟩ := by
              simp only [GetVoxelIndex, FIntVector3.get, h.2.1]
              ring
            have e3 : GetVoxelIndex s x - s.AxisOffsets.get ((1 + 2) % 3) =
                GetVoxelIndex s ⟨x.X - 1, x.Y, x.Z⟩ := by
              simp only [GetVoxelIndex, FIntVector3.get, h.2.1]
              ring
            rw [e2, e1, e3]
            have hne := fl1 hf
            apply quad_ok _ _ _ _ _ _ _ hVC
            · refine nb _ 4 6 2 ?_ ?_ hne ?_ ?_ ?_
              · cases x; simp [FIntVector3.add, t4]
              · cases x; simp [FIntVector3.add, t6, t2]
              · simp only; omega
              · simp only; omega
              · simp only [true_and, lt_self_iff_false, false_or]; omega
            · refine nb _ 5 7 2 ?_ ?_ hne ?_ ?_ ?_
              · cases x; simp [FIntVector3.add, t5]
              · cases x; simp [FIntVector3.add, t7, t2]
              · simp only; omega
              · simp only; omega
              · simp only [true_and, lt_self_iff_false, false_or]; omega
            · refine nb _ 1 3 2 ?_ ?_ hne ?_ ?_ ?_
              · cases x; simp [FIntVector3.add, t1]
              · cases x; simp [FIntVector3.add, t3, t2]
              · simp only; omega
              · simp only; omega
              · simp only [true_and, lt_self_iff_false, false_or]; omega
          · simp only [FIntVector3.get] at g0 g1 g2
            have e1 : GetVoxelIndex s x - s.AxisOffsets.get ((2 + 1) % 3) =
                GetVoxelIndex s ⟨x.X - 1, x.Y, x.Z⟩ := by
              simp only [GetVoxelIndex, FIntVector3.get, h.2.1]
              ring
            have e2 : GetVoxelIndex s x - s.AxisOffsets.get ((2 + 1) % 3) -
                s.AxisOffsets.get ((2 + 2) % 3) = GetVoxelIndex s ⟨x.X - 1, x.Y - 1, x.Z⟩ := by
              simp only [GetVoxelIndex, FIntVector3.get, h.2.1]
              ring
            have e3 : GetVoxelIndex s x - s.AxisOffsets.get ((2 + 2) % 3) =
                GetVoxelIndex s ⟨x.X, x.Y - 1, x.Z⟩ := by
              simp only [GetVoxelIndex, FIntVector3.get, h.2.1]
              ring
            rw [e2, e1, e3]
            have hne := fl2 hf
            apply quad_ok _ _ _ _ _ _ _ hVC
            · refine nb _ 1 5 4 ?_ ?_ hne ?_ ?_ ?_
              · cases x; simp [FIntVector3.add, t1]
              · cases x; simp [FIntVector3.add, t5, t4]
              · simp only; omega
              · simp only; omega
              · simp only [true_and, lt_self_iff_false, false_or]; omega
            · refine nb _ 3 7 4 ?_ ?_ hne ?_ ?_ ?_
              · cases x; simp [FIntVector3.add, t3]
              · cases x; simp [FIntVector3.add, t7, t4]
              · simp only; omega
              · simp only; omega
              · simp only [true_and, lt_self_iff_false, false_or]; omega
            · refine nb _ 2 6 4 ?_ ?_ hne ?_ ?_ ?_
              · cases x; simp [FIntVector3.add, t2]
              · cases x; simp [FIntVector3.add, t6, t4]
              · simp only; omega
              · simp only; omega
              · simp only [true_and, lt_self_iff_false, false_or]; omega
  · rw [if_neg hf]
    exact hnil

theorem axes_ok {s : ASurfaceNets} {P : Nat} (h : Ready s P) {x : FIntVector3} (hx : InScan P x)
    (VT : List Int) (VC : Int) (hVC : 0 ≤ VC)
    (hread : ∀ q, InScan P q → GetVoxelIndex s q < GetVoxelIndex s x → surfaceCell s q = true →
      ∃ k, readAt VT (GetVoxelIndex s q) = some k ∧ 0 ≤ k ∧ k < VC)
    (MD : FChunkMeshData) :
    ∃ T, [0, 1, 2].foldlM (GenerateMesh.axis s VT x (GetVoxelIndex s x) (cornerMask (cubeAt s x))
          (AxisFlags.getD (cornerMask (cubeAt s x) &&& AxisMask) 0) VC) MD
        = some { MD with Triangles := MD.Triangles ++ T } ∧
      T.length % 3 = 0 ∧ ∀ t ∈ T, 0 ≤ t ∧ t ≤ VC := by
  obtain ⟨T0, r0, m0, b0⟩ := axis_ok h hx VT VC hVC hread MD 0 (by omega)
  obtain ⟨T1, r1, m1, b1⟩ := axis_ok h hx VT VC hVC hread
    { MD with Triangles := MD.Triangles ++ T0 } 1 (by omega)
  obtain ⟨T2, r2, m2, b2⟩ := axis_ok h hx VT VC hVC hread
    { MD with Triangles := MD.Triangles ++ T0 ++ T1 } 2 (by omega)
  refine ⟨T0 ++ T1 ++ T2, ?_, ?_, ?_⟩
  · dsimp only at r1 r2
    simp only [List.foldlM_cons, List.foldlM_nil, Option.bind_eq_bind]
    rw [r0, Option.some_bind, r1, Option.some_bind, r2, Option.some_bind]
    simp only [List.append_assoc]
    rfl
  · simp only [List.length_append]
    omega
  · intro t ht
    simp only [List.mem_append] at ht
    rcases ht with (ht | ht) | ht
    · exact b0 t ht
    · exact b1 t ht
    · exact b2 t ht

theorem isSurface_iff (Mask : Nat) : isSurface Mask = true ↔ (Mask ≠ 0 ∧ Mask < 0xFF) := by
  simp [isSurface]

theorem cell_step (N : FVector → FVector) {s : ASurfaceNets} {P : Nat} (h : Ready s P)
    (M0 : FChunkMeshData) (pre : List FIntVector3) (x : FIntVector3) (post : List FIntVector3)
    (st : MeshState) (hl : scanCells (P - 1) = pre ++ x :: post)
    (hinv : MarchInv N s M0 pre st) :
    ∃ st', GenerateMesh.cell N s st x (GetVoxelIndex s x) = some st' ∧
      MarchInv N s M0 (pre ++ [x]) st' := by
  have hx : InScan P x := by
    rw [← mem_scanCells_iff, hl]
    simp
  have hpw := scanCells_pairwise h
  rw [hl, List.pairwise_append] at hpw
  obtain ⟨_, hpw2, hpw3⟩ := hpw
  rw [List.pairwise_cons] at hpw2
  have hpre_lt : ∀ q ∈ pre, GetVoxelIndex s q < GetVoxelIndex s x :=
    fun q hq => hpw3 q hq x (by simp)
  have hbefore : ∀ q, InScan P q → GetVoxelIndex s q < GetVoxelIndex s x → q ∈ pre := by
    intro q hq hlt
    rw [← mem_scanCells_iff, hl] at hq
    simp only [List.mem_append, List.mem_cons] at hq
    rcases hq with hq | rfl | hq
    · exact hq
    · exact absurd hlt (lt_irrefl _)
    · exact absurd (hpw2.1 q hq) (not_lt.mpr (le_of_lt hlt))
  have hxpre : x ∉ pre := fun hmem => lt_irrefl _ (hpre_lt x hmem)
  obtain ⟨hlen, hvc, hV, hNm, ⟨T, hT, hT3, hTb⟩, hvt⟩ := hinv
  obtain ⟨hi0, hi1⟩ := GetVoxelIndex_bounds h (inField_of_inScan hx)
  have w0 := writeAt_of_lt st.VertexTable (GetVoxelIndex s x) (-1) hi0 (by rw [hlen]; exact hi1)
  have hne : ∀ q ∈ pre, GetVoxelIndex s q ≠ GetVoxelIndex s x :=
    fun q hq => ne_of_lt (hpre_lt q hq)
  unfold GenerateMesh.cell
  rw [w0, Option.some_bind, readCube_eq h hx, Option.some_bind]
  dsimp only
  by_cases hs : surfaceCell s x = true
  · have hcond : cornerMask (cubeAt s x) ≠ 0 ∧ cornerMask (cubeAt s x) < 0xFF :=
      (isSurface_iff _).mp hs
    rw [if_pos hcond]
    have w1 := writeAt_of_lt (st.VertexTable.set (GetVoxelIndex s x).toNat (-1))
      (GetVoxelIndex s x) st.VertexCount hi0 (by rw [List.length_set, hlen]; exact hi1)
    rw [w1, Option.some_bind]
    have hVC0 : 0 ≤ st.VertexCount := by rw [hvc]; exact Int.natCast_nonneg _
    have hold : ∀ q ∈ pre, readAt (((st.VertexTable.set (GetVoxelIndex s x).toNat (-1)).set
        (GetVoxelIndex s x).toNat st.VertexCount)) (GetVoxelIndex s q) =
        readAt st.VertexTable (GetVoxelIndex s q) := by
      intro q hq
      rw [readAt_writeAt_ne w1 (hne q hq), readAt_writeAt_ne w0 (hne q hq)]
    have hread : ∀ q, InScan P q → GetVoxelIndex s q < GetVoxelIndex s x →
        surfaceCell s q = true →
        ∃ k, readAt (((st.VertexTable.set (GetVoxelIndex s x).toNat (-1)).set
          (GetVoxelIndex s x).toNat st.VertexCount)) (GetVoxelIndex s q) = some k ∧
          0 ≤ k ∧ k < st.VertexCount := by
      intro q hq hlt hsq
      have hqpre := hbefore q hq hlt
      refine ⟨((List.indexOf q (pre.filter (surfaceCell s)) : Nat) : Int), ?_, ?_, ?_⟩
      · rw [hold q hqpre, hvt q hqpre, if_pos hsq]
      · exact Int.natCast_nonneg _
      · rw [hvc]
        have : q ∈ pre.filter (surfaceCell s) := List.mem_filter.mpr ⟨hqpre, hsq⟩
        exact_mod_cast List.indexOf_lt_length.mpr this
    obtain ⟨T', hT', hT'3, hT'b⟩ := axes_ok h hx _ st.VertexCount hVC0 hread
      { st.MeshData with
        Vertices := st.MeshData.Vertices ++ [(ComputeSDFSurface N (cubeAt s x)).1.map fun V =>
          FVector.scale s.BlockSize (V.add ⟨x.X, x.Y, x.Z⟩)]
        Normals := st.MeshData.Normals ++ [(ComputeSDFSurface N (cubeAt s x)).2] }
    rw [hT', Option.some_bind]
    refine ⟨_, rfl, ?_⟩
    have hfil : (pre ++ [x]).filter (surfaceCell s) = pre.filter (surfaceCell s) ++ [x] := by
      rw [List.filter_append]
      simp [hs]
    refine ⟨?_, ?_, ?_, ?_, ?_, ?_⟩
    · simp only [List.length_set]
      exact hlen
    · rw [hfil, hvc]
      simp
    · rw [hfil]
      simp only [hV, List.map_append, List.map_cons, List.map_nil, List.append_assoc, cellVertex]
    · rw [hfil]
      simp only [hNm, List.map_append, List.map_cons, List.map_nil, List.append_assoc]
    · refine ⟨T ++ T', ?_, ?_, ?_⟩
      · simp only [hT, List.append_assoc]
      · simp only [List.length_append]
        omega
      · intro t ht
        simp only [List.mem_append] at ht
        rcases ht with ht | ht
        · have := hTb t ht
          simp only
          omega
        · have := hT'b t ht
          simp only
          omega
    · intro q hq
      rw [hfil]
      simp only [List.mem_append, List.mem_singleton] at hq
      rcases hq with hq | rfl
      · simp only
        rw [hold q hq, hvt q hq]
        by_cases hsq : surfaceCell s q = true
        · rw [if_pos hsq, if_pos hsq,
            List.indexOf_append_of_mem (List.mem_filter.mpr ⟨hq, hsq⟩)]
        · rw [if_neg hsq, if_neg hsq]
      · simp only
        rw [readAt_writeAt_same w1, if_pos hs, hvc]
        have hxf : q ∉ pre.filter (surfaceCell s) := fun hm => hxpre (List.mem_filter.mp hm).1
        rw [List.indexOf_append_of_not_mem hxf, List.indexOf_cons_self]
        simp
  · have hcond : ¬ (cornerMask (cubeAt s x) ≠ 0 ∧ cornerMask (cubeAt s x) < 0xFF) :=
      fun hc => hs ((isSurface_iff _).mpr hc)
    rw [if_neg hcond]
    refine ⟨_, rfl, ?_⟩
    have hfil : (pre ++ [x]).filter (surfaceCell s) = pre.filter (surfaceCell s) := by
      rw [List.filter_append]
      simp [hs]
    refine ⟨?_, ?_, ?_, ?_, ?_, ?_⟩
    · simp only [List.length_set]
      exact hlen
    · rw [hfil]
      exact hvc
    · rw [hfil]
      exact hV
    · rw [hfil]
      exact hNm
    · exact ⟨T, hT, hT3, hTb⟩
    · intro q hq
      rw [hfil]
      simp only [List.mem_append, List.mem_singleton] at hq
      rcases hq with hq | rfl
      · simp only
        rw [readAt_writeAt_ne w0 (hne q hq)]
        exact hvt q hq
      · simp only
        rw [readAt_writeAt_same w0, if_neg hs]

/-! ## The whole march -/

theorem run_spec (N : FVector → FVector) {s : ASurfaceNets} {P : Nat} (h : Ready s P) :
    ∃ st, GenerateMesh.run N s = some st ∧ MarchInv N s s.MeshData (scanCells (P - 1)) st := by
  unfold GenerateMesh.run
  rw [loopZ_eq]
  have hn : (s.AxisOffsets.Y - 1).toNat = P - 1 := by
    rw [h.2.1]
    simp only
    omega
  rw [hn]
  apply foldlM_invariant _ (MarchInv N s s.MeshData)
  · intro pre x post st hl hinv
    exact cell_step N h s.MeshData pre x post st hl hinv
  · refine ⟨by simp, by simp, by simp, by simp, ⟨[], by simp, rfl, by simp⟩, by simp⟩

theorem GenerateMesh_eq (N : FVector → FVector) (s : ASurfaceNets) (st : MeshState)
    (h : GenerateMesh.run N s = some st) :
    GenerateMesh N s = some { s with VertexCount := st.VertexCount, MeshData := st.MeshData } := by
  simp [GenerateMesh, h]

theorem sampleChunk_ready : Ready sampleChunk 3 := ⟨by decide, by decide, by decide⟩

theorem positiveChunk_ready : Ready positiveChunk 2 := ⟨by decide, by decide, by decide⟩

/-! ## Claims -/

/-- C1: for a chunk laid out by `Setup` (strides `(1, P, P²)`, `P³` voxels) whose mesh sequences
are empty on entry, `GenerateMesh` returns, the triangle index list has a length that is a
multiple of 3, and every index in it is a valid vertex index, `0 ≤ index < number of vertices`;
in particular the sentinel -1 is never emitted.  Each of the three `VertexTable` entries
fetched for a flagged axis of a visited cell (after the `< 1` guards) belongs to a cell of the
march with a smaller flat index, hence visited earlier, and holds the index of a vertex. -/
theorem triangle_indices_valid (N : FVector → FVector) (s : ASurfaceNets) (P : Nat)
    (h : Ready s P) (hempty : s.MeshData = emptyMesh) :
    ∃ st, GenerateMesh.run N s = some st ∧
      GenerateMesh N s =
        some { s with VertexCount := st.VertexCount, MeshData := st.MeshData } ∧
      st.MeshData.Triangles.length % 3 = 0 ∧
      (∀ t ∈ st.MeshData.Triangles,
        0 ≤ t ∧ t < (st.MeshData.Vertices.length : Int) ∧ t ≠ -1) ∧
      ∀ p, InScan P p → ∀ Axis, Axis < 3 →
        AxisFlags.getD (cornerMask (cubeAt s p) &&& AxisMask) 0 &&& (1 <<< Axis) ≠ 0 →
        ¬ p.get ((Axis + 1) % 3) < 1 → ¬ p.get ((Axis + 2) % 3) < 1 →
        ∀ I, (I = GetVoxelIndex s p - s.AxisOffsets.get ((Axis + 1) % 3) ∨
            I = GetVoxelIndex s p - s.AxisOffsets.get ((Axis + 1) % 3) -
              s.AxisOffsets.get ((Axis + 2) % 3) ∨
            I = GetVoxelIndex s p - s.AxisOffsets.get ((Axis + 2) % 3)) →
          ∃ (q : FIntVector3) (k : Nat), InScan P q ∧ I = GetVoxelIndex s q ∧
            GetVoxelIndex s q < GetVoxelIndex s p ∧
            readAt st.VertexTable I = some (k : Int) ∧ k < st.MeshData.Vertices.length := by
  obtain ⟨st, hrun, -, hvc, hV, -, ⟨T, hT, hT3, hTb⟩, hvt⟩ := run_spec N h
  have hlenV : st.MeshData.Vertices.length =
      ((scanCells (P - 1)).filter (surfaceCell s)).length := by
    simp only [hV, hempty, emptyMesh, List.nil_append, List.length_map]
  refine ⟨st, hrun, GenerateMesh_eq N s st hrun, ?_, ?_, ?_⟩
  · simp only [hT, hempty, emptyMesh, List.nil_append]
    exact hT3
  · intro t ht
    simp only [hT, hempty, emptyMesh, List.nil_append] at ht
    have hb := hTb t ht
    rw [hvc] at hb
    rw [hlenV]
    omega
  · intro p hp Axis hA hf g1 g2 I hI
    obtain ⟨q, hq, hIq, hlt, hsq⟩ := neighbours_surface h hp Axis hA hf g1 g2 I hI
    have hmem : q ∈ scanCells (P - 1) := mem_scanCells_iff.mpr hq
    have hr := hvt q hmem
    rw [if_pos hsq] at hr
    refine ⟨q, List.indexOf q ((scanCells (P - 1)).filter (surfaceCell s)), hq, hIq, hlt,
      ?_, ?_⟩
    · rw [hIq]
      exact hr
    · rw [hlenV]
      exact List.indexOf_lt_length.mpr (List.mem_filter.mpr ⟨hmem, hsq⟩)

/-- Witness of C1 on the sample chunk. -/
theorem triangle_indices_valid_witness :
    Ready sampleChunk 3 ∧ sampleChunk.MeshData = emptyMesh ∧
    ∃ st, GenerateMesh.run id sampleChunk = some st ∧
      st.MeshData.Triangles.length % 3 = 0 ∧
      ∀ t ∈ st.MeshData.Triangles,
        0 ≤ t ∧ t < (st.MeshData.Vertices.length : Int) ∧ t ≠ -1 :=
  ⟨sampleChunk_ready, rfl,
    let ⟨st, hrun, _, h3, hb, _⟩ :=
      triangle_indices_valid id sampleChunk 3 sampleChunk_ready rfl
    ⟨st, hrun, h3, hb⟩⟩

/-- C2, evaluated where it fails: for the corner values `(-1, 0, 0, 0, 0, 0, 0, 0)` the mask is
1, strictly between 0x00 and 0xFF, so `GenerateMesh` passes the cell to `ComputeSDFSurface`;
no edge has a negative product of its corner values, so `IntersectionCount` is 0 when
`PositionSum / IntersectionCount` is computed, and the vertex appended for the one-cell chunk
holding these values has no position. -/
theorem zero_density_no_intersection :
    cornerMask zeroCornerCube = 1 ∧
    isSurface (cornerMask zeroCornerCube) = true ∧
    IntersectionCount zeroCornerCube = 0 ∧
    (ComputeSDFSurface id zeroCornerCube).1 = none ∧
    Ready zeroCornerChunk 2 ∧
    (GenerateMesh id zeroCornerChunk).map (fun s' => s'.MeshData.Vertices) = some [none] := by
  refine ⟨?_, ?_, ?_, ?_, ⟨by decide, by decide, by decide⟩, ?_⟩ <;> with_unfolding_all decide

theorem cornerMask_le (Cube : Fin 8 → ℚ) : cornerMask Cube ≤ 255 := by
  rw [cornerMask_eq]
  exact bitsMask_le _ _ _ _ _ _ _ _

theorem surfaceCell_iff (s : ASurfaceNets) (p : FIntVector3) :
    surfaceCell s p = true ↔
      ¬ (cornerMask (cubeAt s p) = 0x00 ∨ cornerMask (cubeAt s p) = 0xFF) := by
  have hle := cornerMask_le (cubeAt s p)
  unfold surfaceCell
  rw [isSurface_iff]
  omega

theorem march_table (N : FVector → FVector) (s : ASurfaceNets) (P : Nat)
    (h : Ready s P) (hempty : s.MeshData = emptyMesh) :
    (∀ p, p ∈ scanCells (P - 1) ↔ InScan P p) ∧ (scanCells (P - 1)).Nodup ∧
    (∀ p, p ∈ surfaceCells s (P - 1) ↔ InScan P p ∧
      ¬ (cornerMask (cubeAt s p) = 0x00 ∨ cornerMask (cubeAt s p) = 0xFF)) ∧
    ∃ st, GenerateMesh.run N s = some st ∧
      st.MeshData.Vertices.length = (surfaceCells s (P - 1)).length ∧
      st.MeshData.Normals.length = (surfaceCells s (P - 1)).length ∧
      st.VertexCount = ((surfaceCells s (P - 1)).length : Int) ∧
      ∀ p, InScan P p →
        (readAt st.VertexTable (GetVoxelIndex s p) = some (-1) ↔
          (cornerMask (cubeAt s p) = 0x00 ∨ cornerMask (cubeAt s p) = 0xFF)) ∧
        (¬ (cornerMask (cubeAt s p) = 0x00 ∨ cornerMask (cubeAt s p) = 0xFF) →
          ∃ k : Nat, readAt st.VertexTable (GetVoxelIndex s p) = some (k : Int) ∧
            (surfaceCells s (P - 1))[k]? = some p ∧
            st.MeshData.Vertices[k]? = some (cellVertex N s.BlockSize (cubeAt s p) p) ∧
            st.MeshData.Normals[k]? = some (ComputeSDFSurface N (cubeAt s p)).2) := by
  refine ⟨fun p => mem_scanCells_iff, scanCells_nodup h, ?_, ?_⟩
  · intro p
    unfold surfaceCells
    rw [List.mem_filter, mem_scanCells_iff, surfaceCell_iff]
  obtain ⟨st, hrun, -, hvc, hV, hNm, -, hvt⟩ := run_spec N h
  refine ⟨st, hrun, ?_, ?_, hvc, ?_⟩
  · simp [hV, hempty, emptyMesh, surfaceCells]
  · simp [hNm, hempty, emptyMesh, surfaceCells]
  · intro p hp
    have hmem : p ∈ scanCells (P - 1) := mem_scanCells_iff.mpr hp
    have hr := hvt p hmem
    by_cases hs : surfaceCell s p = true
    · have hnt := (surfaceCell_iff s p).mp hs
      rw [if_pos hs] at hr
      have hin : p ∈ surfaceCells s (P - 1) := List.mem_filter.mpr ⟨hmem, hs⟩
      have hk : (surfaceCells s (P - 1))[List.indexOf p (surfaceCells s (P - 1))]? = some p :=
        List.getElem?_indexOf hin
      constructor
      · constructor
        · intro h1
          rw [hr] at h1
          simp only [Option.some.injEq] at h1
          omega
        · intro h1
          exact absurd h1 hnt
      · intro _
        refine ⟨List.indexOf p (surfaceCells s (P - 1)), hr, hk, ?_, ?_⟩
        · rw [hV, hempty]
          simp only [emptyMesh, List.nil_append, List.getElem?_map]
          rw [← surfaceCells, hk]
          rfl
        · rw [hNm, hempty]
          simp only [emptyMesh, List.nil_append, List.getElem?_map]
          rw [← surfaceCells, hk]
          rfl
    · have ht : cornerMask (cubeAt s p) = 0x00 ∨ cornerMask (cubeAt s p) = 0xFF := by
        by_contra hc
        exact hs ((surfaceCell_iff s p).mpr hc)
      rw [if_neg hs] at hr
      exact ⟨⟨fun _ => ht, fun _ => hr⟩, fun hc => absurd ht hc⟩

/-- C3: for a chunk laid out by `Setup` whose mesh sequences are empty on entry, the march
returns; the visited cells are exactly those of `[0, P-1)³`, each once; the numbers of vertices
and of normals and `VertexCount` equal the number of visited cells whose mask is neither 0x00
nor 0xFF; and for every visited cell `VertexTable` holds -1 exactly when its mask is 0x00 or
0xFF, and otherwise holds `k` where the cell is the `k`-th (from 0) surface cell in scan order
(Z outer, Y middle, X inner) and the `k`-th vertex and normal are the ones computed from that
cell. -/
theorem vertex_count_and_table (N : FVector → FVector) (s : ASurfaceNets) (P : Nat)
    (h : Ready s P) (hempty : s.MeshData = emptyMesh) :
    (∀ p, p ∈ scanCells (P - 1) ↔ InScan P p) ∧ (scanCells (P - 1)).Nodup ∧
    (∀ p, p ∈ surfaceCells s (P - 1) ↔ InScan P p ∧
      ¬ (cornerMask (cubeAt s p) = 0x00 ∨ cornerMask (cubeAt s p) = 0xFF)) ∧
    ∃ st, GenerateMesh.run N s = some st ∧
      st.MeshData.Vertices.length = (surfaceCells s (P - 1)).length ∧
      st.MeshData.Normals.length = (surfaceCells s (P - 1)).length ∧
      st.VertexCount = ((surfaceCells s (P - 1)).length : Int) ∧
      ∀ p, InScan P p →
        (readAt st.VertexTable (GetVoxelIndex s p) = some (-1) ↔
          (cornerMask (cubeAt s p) = 0x00 ∨ cornerMask (cubeAt s p) = 0xFF)) ∧
        (¬ (cornerMask (cubeAt s p) = 0x00 ∨ cornerMask (cubeAt s p) = 0xFF) →
          ∃ k : Nat, readAt st.VertexTable (GetVoxelIndex s p) = some (k : Int) ∧
            (surfaceCells s (P - 1))[k]? = some p ∧
            st.MeshData.Vertices[k]? = some (cellVertex N s.BlockSize (cubeAt s p) p) ∧
            st.MeshData.Normals[k]? = some (ComputeSDFSurface N (cubeAt s p)).2) :=
  march_table N s P h hempty

/-- Witness of C3 on the sample chunk. -/
theorem vertex_count_and_table_witness :
    Ready sampleChunk 3 ∧ sampleChunk.MeshData = emptyMesh ∧
    ∃ st, GenerateMesh.run id sampleChunk = some st ∧
      st.VertexCount = ((surfaceCells sampleChunk (3 - 1)).length : Int) :=
  ⟨sampleChunk_ready, rfl,
    let ⟨st, hrun, _, _, hvc, _⟩ :=
      (vertex_count_and_table id sampleChunk 3 sampleChunk_ready rfl).2.2.2
    ⟨st, hrun, hvc⟩⟩

theorem density_mem {s : ASurfaceNets} {P : Nat} (h : Ready s P) {p : FIntVector3}
    (hp : InField P p) : density s p ∈ s.Voxels := by
  obtain ⟨h0, h1⟩ := GetVoxelIndex_bounds h hp
  unfold density
  rw [readAt_of_lt _ _ h0 h1]
  exact List.get_mem _ _ _

/-- C6: for every padded size `P`, a chunk laid out by `Setup` whose densities are all positive
and whose mesh sequences are empty on entry is extracted to an empty mesh: no vertex, no
normal, no triangle index, `VertexCount` 0, and -1 in `VertexTable` for every visited cell. -/
theorem positive_field_empty_mesh (N : FVector → FVector) (s : ASurfaceNets) (P : Nat)
    (h : Ready s P) (hempty : s.MeshData = emptyMesh) (hpos : ∀ v ∈ s.Voxels, 0 < v) :
    ∃ st, GenerateMesh.run N s = some st ∧
      GenerateMesh N s = some { s with VertexCount := 0, MeshData := emptyMesh } ∧
      st.MeshData.Vertices = [] ∧ st.MeshData.Normals = [] ∧ st.MeshData.Triangles = [] ∧
      st.VertexCount = 0 ∧
      ∀ p, InScan P p → readAt st.VertexTable (GetVoxelIndex s p) = some (-1) := by
  have hns : ∀ p, InScan P p → surfaceCell s p = false := by
    intro p hp
    apply not_isSurface_of_all false
    intro c
    have hm := hpos _ (density_mem h (inField_add_offset hp c))
    simp only [negative, cubeAt, decide_eq_false_iff_not, not_lt]
    exact le_of_lt hm
  have hfil : (scanCells (P - 1)).filter (surfaceCell s) = [] := by
    rw [List.filter_eq_nil_iff]
    intro p hp
    rw [hns p (mem_scanCells_iff.mp hp)]
    simp
  obtain ⟨st, hrun, -, hvc, hV, hNm, ⟨T, hT, -, hTb⟩, hvt⟩ := run_spec N h
  rw [hfil] at hvc hV hNm
  simp only [List.length_nil, Nat.cast_zero] at hvc
  simp only [List.map_nil, List.append_nil, hempty, emptyMesh] at hV hNm
  have hTnil : T = [] := by
    rw [List.eq_nil_iff_forall_not_mem]
    intro t ht
    have := hTb t ht
    omega
  rw [hTnil, hempty] at hT
  simp only [emptyMesh, List.append_nil] at hT
  refine ⟨st, hrun, ?_, hV, hNm, hT, hvc, ?_⟩
  · rw [GenerateMesh_eq N s st hrun, hvc]
    have : st.MeshData = emptyMesh := by
      cases hm : st.MeshData
      rw [hm] at hV hNm hT
      simp only at hV hNm hT
      simp [emptyMesh, hV, hNm, hT]
    rw [this]
  · intro p hp
    rw [hvt p (mem_scanCells_iff.mpr hp), hns p hp]
    simp

/-- Witness of C6 on the all-positive chunk. -/
theorem positive_field_empty_mesh_witness :
    Ready positiveChunk 2 ∧ positiveChunk.MeshData = emptyMesh ∧
    (∀ v ∈ positiveChunk.Voxels, 0 < v) ∧
    ∃ st, GenerateMesh.run id positiveChunk = some st ∧
      GenerateMesh id positiveChunk =
        some { positiveChunk with VertexCount := 0, MeshData := emptyMesh } ∧
      st.MeshData.Vertices = [] ∧ st.MeshData.Normals = [] ∧ st.MeshData.Triangles = [] ∧
      st.VertexCount = 0 ∧
      ∀ p, InScan 2 p → readAt st.VertexTable (GetVoxelIndex positiveChunk p) = some (-1) :=
  have hpos : ∀ v ∈ positiveChunk.Voxels, (0 : ℚ) < v := by
    intro v hv
    rw [List.eq_of_mem_replicate hv]
    exact zero_lt_one
  ⟨positiveChunk_ready, rfl, hpos,
    positive_field_empty_mesh id positiveChunk 2 positiveChunk_ready rfl hpos⟩

/-- C8: for a chunk laid out by `Setup` with padded size `P` (strides `(1, P, P²)`, `P³` voxels),
every array access of `GenerateMesh` is in range.  Each corner read
`Voxels[Index + IndexOffsets[Corner]]` of a visited cell addresses the coordinate
`Position + VertexOffset[Corner]`, which lies in `[0, P)` on every axis, at a flat index in
`[0, P³)`; each of the three `VertexTable` neighbour reads made after the `< 1` guards
addresses a visited cell at a flat index in `[0, P³)`; and the checked march, which fails on
any access outside its buffer, returns. -/
theorem accesses_in_range (N : FVector → FVector) (s : ASurfaceNets) (P : Nat) (h : Ready s P) :
    (∀ p, InScan P p → ∀ Corner : Fin 8,
      InField P (p.add (VertexOffset Corner)) ∧
      GetVoxelIndex s p + IndexOffsets s Corner = GetVoxelIndex s (p.add (VertexOffset Corner)) ∧
      0 ≤ GetVoxelIndex s p + IndexOffsets s Corner ∧
      GetVoxelIndex s p + IndexOffsets s Corner < (P : Int) * P * P ∧
      (GetVoxelIndex s p + IndexOffsets s Corner).toNat < s.Voxels.length) ∧
    (∀ p, InScan P p → ∀ Axis, Axis < 3 →
      ¬ p.get Axis < 1 → ¬ p.get ((Axis + 1) % 3) < 1 → ¬ p.get ((Axis + 2) % 3) < 1 →
      ∀ I, (I = GetVoxelIndex s p - s.AxisOffsets.get ((Axis + 1) % 3) ∨
          I = GetVoxelIndex s p - s.AxisOffsets.get ((Axis + 1) % 3) -
            s.AxisOffsets.get ((Axis + 2) % 3) ∨
          I = GetVoxelIndex s p - s.AxisOffsets.get ((Axis + 2) % 3)) →
        (∃ q, InScan P q ∧ I = GetVoxelIndex s q) ∧ 0 ≤ I ∧ I < (P : Int) * P * P ∧
          I.toNat < s.Voxels.length) ∧
    (∃ st, GenerateMesh.run N s = some st ∧ st.VertexTable.length = s.Voxels.length) := by
  have hlenP : ((s.Voxels.length : Nat) : Int) = (P : Int) * P * P := by
    rw [h.2.2]
    push_cast
    ring
  refine ⟨?_, ?_, ?_⟩
  · intro p hp c
    have hf := inField_add_offset hp c
    have hb := GetVoxelIndex_bounds h hf
    rw [index_add_offset]
    refine ⟨hf, rfl, hb.1, ?_, hb.2⟩
    omega
  · intro p hp Axis hA g0 g1 g2 I hI
    have key : ∀ q, InScan P q → I = GetVoxelIndex s q →
        (∃ q, InScan P q ∧ I = GetVoxelIndex s q) ∧ 0 ≤ I ∧ I < (P : Int) * P * P ∧
          I.toNat < s.Voxels.length := by
      intro q hq he
      have hb := GetVoxelIndex_bounds h (inField_of_inScan hq)
      rw [← he] at hb
      refine ⟨⟨q, hq, he⟩, hb.1, ?_, hb.2⟩
      omega
    obtain ⟨hX, hY, hZ⟩ := hp
    have hA' : Axis = 0 ∨ Axis = 1 ∨ Axis = 2 := by omega
    rcases hA' with rfl | rfl | rfl
    · simp only [FIntVector3.get] at g0 g1 g2
      rcases hI with rfl | rfl | rfl
      · refine key ⟨p.X, p.Y - 1, p.Z⟩ (by simp only [InScan]; omega) ?_
        simp only [GetVoxelIndex, FIntVector3.get, h.2.1]
        ring
      · refine key ⟨p.X, p.Y - 1, p.Z - 1⟩ (by simp only [InScan]; omega) ?_
        simp only [GetVoxelIndex, FIntVector3.get, h.2.1]
        ring
      · refine key ⟨p.X, p.Y, p.Z - 1⟩ (by simp only [InScan]; omega) ?_
        simp only [GetVoxelIndex, FIntVector3.get, h.2.1]
        ring
    · simp only [FIntVector3.get] at g0 g1 g2
      rcases hI with rfl | rfl | rfl
      · refine key ⟨p.X, p.Y, p.Z - 1⟩ (by simp only [InScan]; omega) ?_
        simp only [GetVoxelIndex, FIntVector3.get, h.2.1]
        ring
      · refine key ⟨p.X - 1, p.Y, p.Z - 1⟩ (by simp only [InScan]; omega) ?_
        simp only [GetVoxelIndex, FIntVector3.get, h.2.1]
        ring
      · refine key ⟨p.X - 1, p.Y, p.Z⟩ (by simp only [InScan]; omega) ?_
        simp only [GetVoxelIndex, FIntVector3.get, h.2.1]
        ring
    · simp only [FIntVector3.get] at g0 g1 g2
      rcases hI with rfl | rfl | rfl
      · refine key ⟨p.X - 1, p.Y, p.Z⟩ (by simp only [InScan]; omega) ?_
        simp only [GetVoxelIndex, FIntVector3.get, h.2.1]
        ring
      · refine key ⟨p.X - 1, p.Y - 1, p.Z⟩ (by simp only [InScan]; omega) ?_
        simp only [GetVoxelIndex, FIntVector3.get, h.2.1]
        ring
      · refine key ⟨p.X, p.Y - 1, p.Z⟩ (by simp only [InScan]; omega) ?_
        simp only [GetVoxelIndex, FIntVector3.get, h.2.1]
        ring
  · obtain ⟨st, hrun, hlen, -⟩ := run_spec N h
    exact ⟨st, hrun, hlen⟩

/-- Witness of C8 on the sample chunk. -/
theorem accesses_in_range_witness :
    Ready sampleChunk 3 ∧
    ∃ st, GenerateMesh.run id sampleChunk = some st ∧
      st.VertexTable.length = sampleChunk.Voxels.length :=
  ⟨sampleChunk_ready, (accesses_in_range id sampleChunk 3 sampleChunk_ready).2.2⟩

/-! ## The mesh on entry is kept -/

theorem foldlM_map_state {α σ : Type} (f : σ → α → Option σ) (g : σ → σ)
    (hfg : ∀ st a, f (g st) a = (f st a).map g) (l : List α) (st : σ) :
    l.foldlM f (g st) = (l.foldlM f st).map g := by
  induction l generalizing st with
  | nil => rfl
  | cons a l ih =>
    rw [List.foldlM_cons, List.foldlM_cons, hfg]
    cases h : f st a with
    | none => rfl
    | some st1 => exact ih st1

theorem axis_prepend (s : ASurfaceNets) (VT : List Int) (p : FIntVector3) (I : Int)
    (Mask Flags : Nat) (V1 : Int) (M MD : FChunkMeshData) (Axis : Nat) :
    GenerateMesh.axis s VT p I Mask Flags V1 (M.append MD) Axis =
      (GenerateMesh.axis s VT p I Mask Flags V1 MD Axis).map (M.append ·) := by
  unfold GenerateMesh.axis
  split
  · split
    · rfl
    · dsimp only
      split
      · rfl
      · split
        · rfl
        · cases readAt VT (I - s.AxisOffsets.get ((Axis + 1) % 3)) with
          | none => rfl
          | some v2 =>
            cases readAt VT (I - s.AxisOffsets.get ((Axis + 1) % 3) -
                s.AxisOffsets.get ((Axis + 2) % 3)) with
            | none => rfl
            | some v3 =>
              cases readAt VT (I - s.AxisOffsets.get ((Axis + 2) % 3)) with
              | none => rfl
              | some v4 =>
                simp [AddTriangle, FChunkMeshData.append]
  · rfl

theorem cell_prepend (N : FVector → FVector) (s : ASurfaceNets) (M : FChunkMeshData)
    (st : MeshState) (p : FIntVector3) (I : Int) :
    GenerateMesh.cell N s (st.prepend M) p I = (GenerateMesh.cell N s st p I).map
      (MeshState.prepend M) := by
  unfold GenerateMesh.cell
  simp only [MeshState.prepend]
  cases writeAt st.VertexTable I (-1) with
  | none => rfl
  | some VT0 =>
    simp only [Option.some_bind]
    cases readCube s.Voxels I (IndexOffsets s) with
    | none => rfl
    | some Cube =>
      simp only [Option.some_bind]
      split
      · cases writeAt VT0 I st.VertexCount with
        | none => rfl
        | some VT =>
          simp only [Option.some_bind]
          have hp := foldlM_map_state
            (GenerateMesh.axis s VT p I (cornerMask Cube)
              (AxisFlags.getD (cornerMask Cube &&& AxisMask) 0) st.VertexCount)
            (M.append ·) (fun MD a => axis_prepend s VT p I _ _ _ M MD a) [0, 1, 2]
            { st.MeshData with
              Vertices := st.MeshData.Vertices ++
                [(ComputeSDFSurface N Cube).1.map fun V =>
                  FVector.scale s.BlockSize (V.add ⟨p.X, p.Y, p.Z⟩)]
              Normals := st.MeshData.Normals ++ [(ComputeSDFSurface N Cube).2] }
          simp only [FChunkMeshData.append, List.append_assoc] at hp ⊢
          rw [hp]
          cases [0, 1, 2].foldlM (GenerateMesh.axis s VT p I (cornerMask Cube)
              (AxisFlags.getD (cornerMask Cube &&& AxisMask) 0) st.VertexCount)
            { st.MeshData with
              Vertices := st.MeshData.Vertices ++
                [(ComputeSDFSurface N Cube).1.map fun V =>
                  FVector.scale s.BlockSize (V.add ⟨p.X, p.Y, p.Z⟩)]
              Normals := st.MeshData.Normals ++ [(ComputeSDFSurface N Cube).2] } with
          | none => rfl
          | some MD1 => rfl
      · rfl

theorem append_emptyMesh (M : FChunkMeshData) : M.append emptyMesh = M := by
  cases M
  simp [FChunkMeshData.append, emptyMesh]

theorem run_congr (N : FVector → FVector) (s : ASurfaceNets) (VC : Int) (M : FChunkMeshData)
    (st : MeshState) :
    GenerateMesh.loopZ N { s with VertexCount := VC, MeshData := M } (s.AxisOffsets.Y - 1) st =
      GenerateMesh.loopZ N s (s.AxisOffsets.Y - 1) st := rfl

theorem run_prepend (N : FVector → FVector) (s : ASurfaceNets) :
    GenerateMesh.run N s =
      (GenerateMesh.run N { s with MeshData := emptyMesh }).map
        (MeshState.prepend s.MeshData) := by
  unfold GenerateMesh.run
  have h0 : (⟨List.replicate s.Voxels.length 0, 0, s.MeshData⟩ : MeshState) =
      MeshState.prepend s.MeshData ⟨List.replicate s.Voxels.length 0, 0, emptyMesh⟩ := by
    simp [MeshState.prepend, append_emptyMesh]
  rw [h0]
  rw [loopZ_eq, loopZ_eq]
  exact foldlM_map_state _ _ (fun st a => cell_prepend N s s.MeshData st a _) _ _

/-- C7 as amended: `GenerateMesh` does not reset `MeshData`, it appends to the mesh sequences
held on entry.  For every chunk and every prior content `M` of `MeshData`, one call leaves what
the call started from empty sequences leaves, except that `MeshData` is `M` followed by the
mesh `E` extracted from empty sequences; two calls in succession leave the same, except that
`MeshData` is `M` followed by `E` twice. -/
theorem generateMesh_appends (N : FVector → FVector) (s : ASurfaceNets) :
    GenerateMesh N s =
      (GenerateMesh N { s with MeshData := emptyMesh }).map
        (fun s1 => { s1 with MeshData := s.MeshData.append s1.MeshData }) ∧
    (GenerateMesh N s).bind (GenerateMesh N) =
      (GenerateMesh N { s with MeshData := emptyMesh }).map
        (fun s1 => { s1 with
          MeshData := (s.MeshData.append s1.MeshData).append s1.MeshData }) := by
  have key : ∀ t : ASurfaceNets, GenerateMesh N t =
      (GenerateMesh N { t with MeshData := emptyMesh }).map
        (fun s1 => { s1 with MeshData := t.MeshData.append s1.MeshData }) := by
    intro t
    unfold GenerateMesh
    rw [run_prepend]
    cases GenerateMesh.run N { t with MeshData := emptyMesh } with
    | none => rfl
    | some st => rfl
  refine ⟨key s, ?_⟩
  rw [key s]
  unfold GenerateMesh
  cases hrun : GenerateMesh.run N { s with MeshData := emptyMesh } with
  | none => rfl
  | some st =>
    simp only [Option.map_some', Option.some_bind]
    have h2 := run_prepend N
      { s with VertexCount := st.VertexCount, MeshData := s.MeshData.append st.MeshData }
    have h3 : GenerateMesh.run N
        { s with VertexCount := st.VertexCount, MeshData := emptyMesh } =
        GenerateMesh.run N { s with MeshData := emptyMesh } := rfl
    simp only at h2
    rw [h3, hrun] at h2
    simp only [Option.map_some'] at h2
    rw [h2]
    rfl

/-- C7 fails as stated: on the one-cell chunk with a single negative corner, started with empty
mesh sequences, one call leaves 1 vertex and two calls in succession leave 2, so the second
pass accumulates on top of the first. -/
theorem generateMesh_twice_accumulates :
    (GenerateMesh id cornerChunk).map (fun s1 => s1.MeshData.Vertices.length) = some 1 ∧
    ((GenerateMesh id cornerChunk).bind (GenerateMesh id)).map
      (fun s2 => s2.MeshData.Vertices.length) = some 2 ∧
    ((GenerateMesh id cornerChunk).bind (GenerateMesh id)).map (fun s2 => s2.MeshData) ≠
      (GenerateMesh id cornerChunk).map (fun s1 => s1.MeshData) := by
  refine ⟨?_, ?_, ?_⟩ <;> with_unfolding_all decide

/-- C10: `AxisFlags` has exactly 32 entries, they are the published values, every entry is at
most 7, `AxisMask` is 0x1F, and a mask and-ed with `AxisMask` is always an index inside the
table. -/
theorem axisFlags_table :
    AxisFlags.length = 32 ∧
    AxisFlags = [0,7,1,6,2,5,3,4,0,7,1,6,2,5,3,4,4,3,5,2,6,1,7,0,4,3,5,2,6,1,7,0] ∧
    AxisFlags.all (fun e => decide (e ≤ 7)) = true ∧
    AxisMask = 0x1F ∧
    ∀ Mask : Nat, Mask &&& AxisMask < AxisFlags.length ∧
      AxisFlags.getD (Mask &&& AxisMask) 0 ≤ 7 := by
  refine ⟨rfl, rfl, by decide, rfl, ?_⟩
  intro Mask
  have hlt : Mask &&& AxisMask < 32 := Nat.lt_succ_of_le Nat.and_le_right
  refine ⟨hlt, ?_⟩
  generalize Mask &&& AxisMask = m at hlt
  interval_cases m <;> decide

/-! ## The brush -/

theorem loops_eq (Sqrt : ℚ → ℚ) (s : ASurfaceNets) (Radius Strength : ℚ) (Start : FIntVector3)
    (V : List ℚ) :
    ModifyVoxelData.loops Sqrt s Radius Strength Start V =
      brushOffsets.foldlM (ModifyVoxelData.body Sqrt s Radius Strength Start) V := by
  unfold brushOffsets ModifyVoxelData.loops
  rw [foldlM_flatMap]
  congr 1
  funext V Z
  rw [foldlM_flatMap]
  congr 1

theorem brushOffsets_nodup : brushOffsets.Nodup := by decide

theorem mem_brushOffsets (o : FIntVector3) :
    o ∈ brushOffsets ↔ (-2 ≤ o.X ∧ o.X ≤ 1) ∧ (-2 ≤ o.Y ∧ o.Y ≤ 1) ∧ (-2 ≤ o.Z ∧ o.Z ≤ 2) := by
  obtain ⟨x, y, z⟩ := o
  simp only [brushOffsets, ModifyVoxelData.countsZ, ModifyVoxelData.countsYX, List.mem_flatMap,
    List.mem_map, List.mem_cons, List.mem_singleton, List.not_mem_nil, or_false,
    FIntVector3.mk.injEq]
  constructor
  · rintro ⟨Z, hZ, Y, hY, X, hX, rfl, rfl, rfl⟩
    omega
  · rintro ⟨hx, hy, hz⟩
    exact ⟨z, by omega, y, by omega, x, by omega, rfl, rfl, rfl⟩

theorem sub_eq_iff (q Start x : FIntVector3) :
    q.sub Start = x ↔ q = ⟨x.X + Start.X, x.Y + Start.Y, x.Z + Start.Z⟩ := by
  obtain ⟨a, b, c⟩ := q
  obtain ⟨d, e, f⟩ := x
  simp only [FIntVector3.sub, FIntVector3.mk.injEq]
  omega

theorem inField_of_inValid {s : ASurfaceNets} {P : Nat} (h : Ready s P) {q : FIntVector3}
    (hq : InValid s q) : InField P q := by
  have hs := h.1
  obtain ⟨h1, h2, h3, h4, h5, h6⟩ := hq
  simp only [InField]
  omega

theorem density_eq {s : ASurfaceNets} {P : Nat} (h : Ready s P) {q : FIntVector3}
    (hq : InField P q) : readAt s.Voxels (GetVoxelIndex s q) = some (density s q) := by
  obtain ⟨h0, h1⟩ := GetVoxelIndex_bounds h hq
  unfold density
  rw [readAt_of_lt _ _ h0 h1]
  rfl

theorem body_step (Sqrt : ℚ → ℚ) {s : ASurfaceNets} {P : Nat} (h : Ready s P)
    (Radius Strength : ℚ) (Start : FIntVector3) (pre : List FIntVector3) (x : FIntVector3)
    (post : List FIntVector3) (V : List ℚ) (hl : brushOffsets = pre ++ x :: post)
    (hinv : BrushInv Sqrt s P Radius Strength Start pre V) :
    ∃ V', ModifyVoxelData.body Sqrt s Radius Strength Start V x = some V' ∧
      BrushInv Sqrt s P Radius Strength Start (pre ++ [x]) V' := by
  have hnd := brushOffsets_nodup
  rw [hl] at hnd
  have hxpre : x ∉ pre := by
    intro hm
    have := List.nodup_append.mp hnd
    exact this.2.2 hm (by simp)
  obtain ⟨hlen, hval⟩ := hinv
  unfold ModifyVoxelData.body
  dsimp only
  by_cases hv : InValid s ⟨x.X + Start.X, x.Y + Start.Y, x.Z + Start.Z⟩
  · have hv' := hv
    unfold InValid at hv'
    dsimp only at hv'
    rw [if_pos hv']
    have hf := inField_of_inValid h hv
    have hr := hval _ hf
    have hsub : (⟨x.X + Start.X, x.Y + Start.Y, x.Z + Start.Z⟩ : FIntVector3).sub Start = x :=
      (sub_eq_iff _ _ _).mpr rfl
    rw [hsub, if_neg (fun hc => hxpre hc.1), add_zero] at hr
    rw [hr, Option.some_bind]
    obtain ⟨h0, h1⟩ := GetVoxelIndex_bounds h hf
    have w := writeAt_of_lt V (GetVoxelIndex s ⟨x.X + Start.X, x.Y + Start.Y, x.Z + Start.Z⟩)
      (density s ⟨x.X + Start.X, x.Y + Start.Y, x.Z + Start.Z⟩ + Strength * max (Radius -
        Sqrt ((x.Z * x.Z + x.Y * x.Y + x.X * x.X : Int) : ℚ)) 0) h0 (by rw [hlen]; exact h1)
    refine ⟨_, w, ?_, ?_⟩
    · rw [List.length_set]
      exact hlen
    · intro q hq
      by_cases hqx : q.sub Start = x
      · have hqe := (sub_eq_iff _ _ _).mp hqx
        subst hqe
        rw [readAt_writeAt_same w, hsub, if_pos ⟨by simp, hv⟩]
        rfl
      · have hne : GetVoxelIndex s q ≠
            GetVoxelIndex s ⟨x.X + Start.X, x.Y + Start.Y, x.Z + Start.Z⟩ := by
          intro he
          exact hqx ((sub_eq_iff _ _ _).mpr (GetVoxelIndex_inj h hq hf he))
        rw [readAt_writeAt_ne w hne, hval q hq]
        have hmem : (q.sub Start ∈ pre ++ [x]) ↔ q.sub Start ∈ pre := by
          simp [hqx]
        simp only [hmem]
  · have hv' := hv
    unfold InValid at hv'
    dsimp only at hv'
    rw [if_neg hv']
    refine ⟨V, rfl, hlen, ?_⟩
    intro q hq
    rw [hval q hq]
    by_cases hqx : q.sub Start = x
    · have hqe := (sub_eq_iff _ _ _).mp hqx
      have hnv : ¬ InValid s q := by rw [hqe]; exact hv
      rw [if_neg (fun hc => hnv hc.2), if_neg (fun hc => hnv hc.2)]
    · have hmem : (q.sub Start ∈ pre ++ [x]) ↔ q.sub Start ∈ pre := by
        simp [hqx]
      simp only [hmem]

theorem loops_spec (Sqrt : ℚ → ℚ) {s : ASurfaceNets} {P : Nat} (h : Ready s P)
    (Radius Strength : ℚ) (Start : FIntVector3) :
    ∃ V', ModifyVoxelData.loops Sqrt s Radius Strength Start s.Voxels = some V' ∧
      BrushInv Sqrt s P Radius Strength Start brushOffsets V' := by
  rw [loops_eq]
  apply foldlM_invariant _ (BrushInv Sqrt s P Radius Strength Start)
  · intro pre x post V hl hinv
    exact body_step Sqrt h Radius Strength Start pre x post V hl hinv
  · refine ⟨rfl, ?_⟩
    intro q hq
    rw [density_eq h hq]
    simp

theorem modify_spec (Sqrt : ℚ → ℚ) {s : ASurfaceNets} {P : Nat} (h : Ready s P)
    (c : FIntVector3) (Block : EVoxelTutorialBlock) :
    ∃ V', ModifyVoxelData Sqrt s c Block = some { s with Voxels := V' } ∧
      Ready { s with Voxels := V' } P ∧
      ∀ q, InField P q → density { s with Voxels := V' } q = density s q +
        (if q.sub c ∈ brushOffsets ∧ InValid s q
          then brushAmount Sqrt 2 (if Block = EVoxelTutorialBlock.Air then 1 else -1) (q.sub c)
          else 0) := by
  obtain ⟨V', hV', hlen, hval⟩ :=
    loops_spec Sqrt h 2 (if Block = EVoxelTutorialBlock.Air then 1 else -1) c
  refine ⟨V', ?_, ⟨h.1, h.2.1, ?_⟩, ?_⟩
  · unfold ModifyVoxelData
    dsimp only
    rw [hV']
    rfl
  · simp only
    rw [hlen]
    exact h.2.2
  · intro q hq
    have := hval q hq
    unfold density
    have hidx : GetVoxelIndex { s with Voxels := V' } q = GetVoxelIndex s q := rfl
    rw [hidx]
    simp only
    rw [this]
    rfl

theorem sqDist_nonneg (o : FIntVector3) : 0 ≤ sqDist o := by
  unfold sqDist
  nlinarith [mul_self_nonneg o.X, mul_self_nonneg o.Y, mul_self_nonneg o.Z]

theorem brushAmount_far {Sqrt : ℚ → ℚ} (hmono : ∀ a b : ℚ, 0 ≤ a → a ≤ b → Sqrt a ≤ Sqrt b)
    (h4 : Sqrt 4 = 2) (Strength : ℚ) {o : FIntVector3} (ho : 4 ≤ sqDist o) :
    brushAmount Sqrt 2 Strength o = 0 := by
  have h1 : Sqrt 4 ≤ Sqrt ((sqDist o : Int) : ℚ) :=
    hmono 4 _ (by norm_num) (by exact_mod_cast ho)
  rw [h4] at h1
  unfold brushAmount
  rw [max_eq_right (by linarith), mul_zero]

theorem brushAmount_near {Sqrt : ℚ → ℚ} (hmono : ∀ a b : ℚ, 0 ≤ a → a ≤ b → Sqrt a ≤ Sqrt b)
    (h4 : Sqrt 4 = 2) (Strength : ℚ) {o : FIntVector3} (ho : sqDist o < 4) :
    brushAmount Sqrt 2 Strength o = Strength * (2 - Sqrt ((sqDist o : Int) : ℚ)) := by
  have h0 := sqDist_nonneg o
  have h1 : Sqrt ((sqDist o : Int) : ℚ) ≤ Sqrt 4 :=
    hmono _ 4 (by exact_mod_cast h0) (by exact_mod_cast le_of_lt ho)
  rw [h4] at h1
  unfold brushAmount
  rw [max_eq_left (by linarith)]

theorem near_offsets {o : FIntVector3} (ho : sqDist o < 4) :
    (-1 ≤ o.X ∧ o.X ≤ 1) ∧ (-1 ≤ o.Y ∧ o.Y ≤ 1) ∧ (-1 ≤ o.Z ∧ o.Z ≤ 1) := by
  unfold sqDist at ho
  have hx := mul_self_nonneg o.X
  have hy := mul_self_nonneg o.Y
  have hz := mul_self_nonneg o.Z
  refine ⟨⟨?_, ?_⟩, ⟨?_, ?_⟩, ⟨?_, ?_⟩⟩ <;> nlinarith

theorem far_offsets {o : FIntVector3}
    (ho : ¬ ((-1 ≤ o.X ∧ o.X ≤ 1) ∧ (-1 ≤ o.Y ∧ o.Y ≤ 1) ∧ (-1 ≤ o.Z ∧ o.Z ≤ 1))) :
    4 ≤ sqDist o := by
  unfold sqDist
  have hx := mul_self_nonneg o.X
  have hy := mul_self_nonneg o.Y
  have hz := mul_self_nonneg o.Z
  by_cases h1 : -1 ≤ o.X ∧ o.X ≤ 1
  · by_cases h2 : -1 ≤ o.Y ∧ o.Y ≤ 1
    · have h3 : ¬ (-1 ≤ o.Z ∧ o.Z ≤ 1) := fun h3 => ho ⟨h1, h2, h3⟩
      rcases not_and_or.mp h3 with h | h <;> nlinarith
    · rcases not_and_or.mp h2 with h | h <;> nlinarith
  · rcases not_and_or.mp h1 with h | h <;> nlinarith

/-- Over exact arithmetic: for a chunk laid out by `Setup` and a brush centre whose neighbours `centre + [-1,1]³`
all lie in the valid range `[0, Size]³`, `ModifyVoxelData` with `Block == Air` (radius 2,
strength +1) returns, keeps the buffer length, and changes the field exactly as follows: a cell
at squared distance `d² < 4` from the centre (distance `d < 2`) has its density increased by
`2 - d`, where `d = Sqrt(d²)` is the distance the code computes, and every other cell of the
field keeps its density.  `Sqrt` stands for `FMath::Sqrt`, assumed monotone with
`Sqrt 4 = 2`. -/
theorem brush_clear_effect (Sqrt : ℚ → ℚ) (s : ASurfaceNets) (P : Nat) (c : FIntVector3)
    (h : Ready s P) (hmono : ∀ a b : ℚ, 0 ≤ a → a ≤ b → Sqrt a ≤ Sqrt b) (h4 : Sqrt 4 = 2)
    (hc : (1 ≤ c.X ∧ c.X + 1 ≤ s.Size) ∧ (1 ≤ c.Y ∧ c.Y + 1 ≤ s.Size) ∧
      (1 ≤ c.Z ∧ c.Z + 1 ≤ s.Size)) :
    ∃ s', ModifyVoxelData Sqrt s c EVoxelTutorialBlock.Air = some s' ∧
      s'.Voxels.length = s.Voxels.length ∧
      ∀ q, InField P q →
        (sqDist (q.sub c) < 4 →
          density s' q = density s q + (2 - Sqrt ((sqDist (q.sub c) : Int) : ℚ))) ∧
        (4 ≤ sqDist (q.sub c) → density s' q = density s q) := by
  obtain ⟨V', hrun, hready, hval⟩ := modify_spec Sqrt h c EVoxelTutorialBlock.Air
  refine ⟨_, hrun, ?_, ?_⟩
  · rw [hready.2.2, h.2.2]
  · intro q hq
    rw [hval q hq]
    simp only [if_true]
    constructor
    · intro hd
      have hn := near_offsets hd
      have hmem : q.sub c ∈ brushOffsets := by
        rw [mem_brushOffsets]
        omega
      have hv : InValid s q := by
        simp only [FIntVector3.sub] at hn
        simp only [InValid]
        omega
      rw [if_pos ⟨hmem, hv⟩, brushAmount_near hmono h4 1 hd, one_mul]
    · intro hd
      split
      · rw [brushAmount_far hmono h4 1 hd, add_zero]
      · rw [add_zero]

theorem tangentSqrt_ok :
    (∀ a b : ℚ, 0 ≤ a → a ≤ b → tangentSqrt a ≤ tangentSqrt b) ∧ tangentSqrt 4 = 2 := by
  constructor
  · intro a b _ hab
    unfold tangentSqrt
    linarith
  · unfold tangentSqrt
    norm_num

theorem brushChunk_ready : Ready brushChunk 4 := ⟨by decide, by decide, by decide⟩

/-- An instance over exact arithmetic: the all-zero chunk of size 2 with the brush centred at
`(1,1,1)`. -/
theorem brush_clear_effect_witness :
    Ready brushChunk 4 ∧
    ∃ s', ModifyVoxelData tangentSqrt brushChunk ⟨1, 1, 1⟩ EVoxelTutorialBlock.Air = some s' ∧
      s'.Voxels.length = brushChunk.Voxels.length ∧
      ∀ q, InField 4 q →
        (sqDist (q.sub ⟨1, 1, 1⟩) < 4 →
          density s' q = density brushChunk q +
            (2 - tangentSqrt ((sqDist (q.sub ⟨1, 1, 1⟩) : Int) : ℚ))) ∧
        (4 ≤ sqDist (q.sub ⟨1, 1, 1⟩) → density s' q = density brushChunk q) :=
  ⟨brushChunk_ready,
    brush_clear_effect tangentSqrt brushChunk 4 ⟨1, 1, 1⟩ brushChunk_ready tangentSqrt_ok.1
      tangentSqrt_ok.2 (by decide)⟩

theorem cubeAt_unchanged {Sqrt : ℚ → ℚ} {s : ASurfaceNets} {P : Nat}
    (hmono : ∀ a b : ℚ, 0 ≤ a → a ≤ b → Sqrt a ≤ Sqrt b) (h4 : Sqrt 4 = 2)
    (c : FIntVector3) (Block : EVoxelTutorialBlock) (V' : List ℚ)
    (hval : ∀ q, InField P q → density { s with Voxels := V' } q = density s q +
        (if q.sub c ∈ brushOffsets ∧ InValid s q
          then brushAmount Sqrt 2 (if Block = EVoxelTutorialBlock.Air then 1 else -1) (q.sub c)
          else 0))
    {p : FIntVector3} (hp : InScan P p)
    (hout : ¬ ((-2 ≤ p.X - c.X ∧ p.X - c.X ≤ 1) ∧ (-2 ≤ p.Y - c.Y ∧ p.Y - c.Y ≤ 1) ∧
      (-2 ≤ p.Z - c.Z ∧ p.Z - c.Z ≤ 1))) :
    cubeAt { s with Voxels := V' } p = cubeAt s p := by
  funext Corner
  unfold cubeAt
  rw [hval _ (inField_add_offset hp Corner)]
  have hfar : 4 ≤ sqDist ((p.add (VertexOffset Corner)).sub c) := by
    apply far_offsets
    obtain ⟨ox, oy, oz⟩ := VertexOffset_bounds Corner
    simp only [FIntVector3.sub, FIntVector3.add]
    omega
  split
  · rw [brushAmount_far hmono h4 _ hfar, add_zero]
  · rw [add_zero]

/-- Over exact arithmetic, extraction is local with respect to a brush edit.  For a chunk laid out by `Setup`
with empty mesh sequences, every brush centre `c` and either brush mode, `ModifyVoxelData`
returns, and the extractions (each started from empty mesh sequences) of the field before and
after the edit agree on every visited cell whose minimum corner lies outside the box
`c + [-2, 1]³`: the same corner values and corner mask, -1 in `VertexTable` in both or in
neither, and, when the cell has a vertex, the same vertex position and the same normal.
`Sqrt` stands for `FMath::Sqrt`, assumed monotone with `Sqrt 4 = 2`. -/
theorem extraction_local_to_brush (N : FVector → FVector) (Sqrt : ℚ → ℚ) (s : ASurfaceNets)
    (P : Nat) (c : FIntVector3) (Block : EVoxelTutorialBlock) (h : Ready s P)
    (hempty : s.MeshData = emptyMesh)
    (hmono : ∀ a b : ℚ, 0 ≤ a → a ≤ b → Sqrt a ≤ Sqrt b) (h4 : Sqrt 4 = 2) :
    ∃ s' st st', ModifyVoxelData Sqrt s c Block = some s' ∧
      GenerateMesh.run N s = some st ∧ GenerateMesh.run N s' = some st' ∧
      ∀ p, InScan P p →
        ¬ ((-2 ≤ p.X - c.X ∧ p.X - c.X ≤ 1) ∧ (-2 ≤ p.Y - c.Y ∧ p.Y - c.Y ≤ 1) ∧
          (-2 ≤ p.Z - c.Z ∧ p.Z - c.Z ≤ 1)) →
        cubeAt s' p = cubeAt s p ∧
        cornerMask (cubeAt s' p) = cornerMask (cubeAt s p) ∧
        (readAt st'.VertexTable (GetVoxelIndex s' p) = some (-1) ↔
          readAt st.VertexTable (GetVoxelIndex s p) = some (-1)) ∧
        (¬ (cornerMask (cubeAt s p) = 0x00 ∨ cornerMask (cubeAt s p) = 0xFF) →
          ∃ k k' : Nat, readAt st.VertexTable (GetVoxelIndex s p) = some (k : Int) ∧
            readAt st'.VertexTable (GetVoxelIndex s' p) = some (k' : Int) ∧
            st'.MeshData.Vertices[k']? = st.MeshData.Vertices[k]? ∧
            st.MeshData.Vertices[k]? = some (cellVertex N s.BlockSize (cubeAt s p) p) ∧
            st'.MeshData.Normals[k']? = st.MeshData.Normals[k]? ∧
            st.MeshData.Normals[k]? = some (ComputeSDFSurface N (cubeAt s p)).2) := by
  obtain ⟨V', hrun, hready, hval⟩ := modify_spec Sqrt h c Block
  obtain ⟨-, -, -, st, hst, -, -, -, htab⟩ := march_table N s P h hempty
  obtain ⟨-, -, -, st', hst', -, -, -, htab'⟩ :=
    march_table N { s with Voxels := V' } P hready hempty
  refine ⟨_, st, st', hrun, hst, hst', ?_⟩
  intro p hp hout
  have hcube := cubeAt_unchanged hmono h4 c Block V' hval hp hout
  obtain ⟨t1, t2⟩ := htab p hp
  obtain ⟨t1', t2'⟩ := htab' p hp
  rw [hcube] at t1' t2'
  refine ⟨hcube, by rw [hcube], t1'.trans t1.symm, ?_⟩
  intro hnt
  obtain ⟨k, r, -, v, n⟩ := t2 hnt
  obtain ⟨k', r', -, v', n'⟩ := t2' hnt
  exact ⟨k, k', r, r', v'.trans v.symm, v, n'.trans n.symm, n⟩

/-! ## The flat plane -/

theorem planeChunk_ready : Ready planeChunk 12 :=
  ⟨by decide, by decide, by simp [planeChunk]⟩

theorem planeChunk_density {p : FIntVector3} (hp : InField 12 p) :
    density planeChunk p = (p.Z : ℚ) - 5 := by
  obtain ⟨hx, hy, hz⟩ := hp
  have hidx : GetVoxelIndex planeChunk p = p.Z * 144 + p.Y * 12 + p.X := rfl
  have h0 : 0 ≤ p.Z * 144 + p.Y * 12 + p.X := by omega
  have hlt : (p.Z * 144 + p.Y * 12 + p.X).toNat < 1728 := by omega
  have hdiv : (p.Z * 144 + p.Y * 12 + p.X).toNat / 144 = p.Z.toNat := by omega
  have hcast : ((p.Z.toNat : ℕ) : ℚ) = (p.Z : ℚ) := by
    have := Int.toNat_of_nonneg hz.1
    exact_mod_cast congrArg (Int.cast : ℤ → ℚ) this
  unfold density readAt
  rw [hidx, if_pos h0]
  simp only [planeChunk, List.getElem?_map, List.getElem?_range hlt, Option.map_some',
    Option.getD_some, hdiv, hcast]

theorem planeChunk_cube {p : FIntVector3} (hp : InScan 12 p) (Corner : Fin 8) :
    cubeAt planeChunk p Corner = ((p.Z + (VertexOffset Corner).Z : Int) : ℚ) - 5 := by
  unfold cubeAt
  rw [planeChunk_density (inField_add_offset hp Corner)]
  rfl

theorem planeChunk_cube_four {p : FIntVector3} (hp : InScan 12 p) (h4 : p.Z = 4) :
    cubeAt planeChunk p = planeCube := by
  funext Corner
  rw [planeChunk_cube hp, h4]
  fin_cases Corner <;> with_unfolding_all decide

theorem planeCube_eval (N : FVector → FVector) :
    cornerMask planeCube = 0x0F ∧ isSurface (cornerMask planeCube) = true ∧
    IntersectionCount planeCube = 0 ∧ (ComputeSDFSurface N planeCube).1 = none ∧
    (ComputeSDFSurface N planeCube).2 = N ⟨0, 0, 2⟩ := by
  refine ⟨?_, ?_, ?_, ?_, ?_⟩
  · with_unfolding_all decide
  · with_unfolding_all decide
  · with_unfolding_all decide
  · have : IntersectionCount planeCube = 0 := by with_unfolding_all decide
    simp [ComputeSDFSurface, this]
  · have : (⟨planeCube 1 - planeCube 0 + planeCube 7 - planeCube 6,
        planeCube 2 - planeCube 0 + planeCube 7 - planeCube 5,
        planeCube 4 - planeCube 0 + planeCube 7 - planeCube 3⟩ : FVector) = ⟨0, 0, 2⟩ := by
      with_unfolding_all decide
    simp only [ComputeSDFSurface, this]

theorem planeChunk_surface {p : FIntVector3} (hp : InScan 12 p) :
    surfaceCell planeChunk p = true ↔ p.Z = 4 := by
  constructor
  · intro hs
    by_contra hne
    have hcases : p.Z ≤ 3 ∨ 5 ≤ p.Z := by omega
    have hfalse : surfaceCell planeChunk p = false := by
      rcases hcases with hlo | hhi
      · apply not_isSurface_of_all true
        intro c
        obtain ⟨-, -, oz⟩ := VertexOffset_bounds c
        simp only [negative, planeChunk_cube hp, decide_eq_true_eq]
        have : ((p.Z + (VertexOffset c).Z : Int) : ℚ) ≤ 4 := by exact_mod_cast (by omega)
        linarith
      · apply not_isSurface_of_all false
        intro c
        obtain ⟨-, -, oz⟩ := VertexOffset_bounds c
        simp only [negative, planeChunk_cube hp, decide_eq_false_iff_not, not_lt]
        have : (5 : ℚ) ≤ ((p.Z + (VertexOffset c).Z : Int) : ℚ) := by exact_mod_cast (by omega)
        linarith
    rw [hfalse] at hs
    exact absurd hs (by simp)
  · intro h4
    unfold surfaceCell
    rw [planeChunk_cube_four hp h4]
    exact (planeCube_eval id).2.1

set_option maxRecDepth 1000000 in
theorem planeChunk_count :
    ((scanCells 11).filter (fun p => decide (p.Z = 4))).length = 121 := by
  decide


/-- C5, evaluated on the flat-plane field `density(x, y, z) = z - 5` with `Size = 10`: the
extraction returns; a visited cell gets a vertex exactly when `z = 4`, one per `(x, y)` column,
121 in all; at each of them the mask is 0x0F, the normal before normalisation is `(0, 0, 2)`,
but no edge has a negative product of its corner values (the upper corners are exactly 0), so
`IntersectionCount` is 0 and every vertex position is the quotient by a zero count. -/
theorem plane_field_vertices_undefined (N : FVector → FVector) :
    Ready planeChunk 12 ∧ planeChunk.MeshData = emptyMesh ∧
    (∀ p, InField 12 p → density planeChunk p = (p.Z : ℚ) - 5) ∧
    (∀ p, InScan 12 p → (surfaceCell planeChunk p = true ↔ p.Z = 4)) ∧
    (∀ p, InScan 12 p → p.Z = 4 →
      cornerMask (cubeAt planeChunk p) = 0x0F ∧
      IntersectionCount (cubeAt planeChunk p) = 0 ∧
      cellVertex N planeChunk.BlockSize (cubeAt planeChunk p) p = none ∧
      (ComputeSDFSurface N (cubeAt planeChunk p)).2 = N ⟨0, 0, 2⟩) ∧
    ∃ st, GenerateMesh.run N planeChunk = some st ∧
      st.MeshData.Vertices = List.replicate 121 none ∧
      st.MeshData.Normals = List.replicate 121 (N ⟨0, 0, 2⟩) := by
  have hcell : ∀ p, InScan 12 p → p.Z = 4 →
      cornerMask (cubeAt planeChunk p) = 0x0F ∧
      IntersectionCount (cubeAt planeChunk p) = 0 ∧
      cellVertex N planeChunk.BlockSize (cubeAt planeChunk p) p = none ∧
      (ComputeSDFSurface N (cubeAt planeChunk p)).2 = N ⟨0, 0, 2⟩ := by
    intro p hp h4
    rw [planeChunk_cube_four hp h4]
    obtain ⟨e1, -, e3, e4, e5⟩ := planeCube_eval N
    refine ⟨e1, e3, ?_, e5⟩
    unfold cellVertex
    rw [e4]
    rfl
  refine ⟨planeChunk_ready, rfl, fun p hp => planeChunk_density hp,
    fun p hp => planeChunk_surface hp, hcell, ?_⟩
  obtain ⟨st, hrun, -, -, hV, hNm, -, -⟩ := run_spec N planeChunk_ready
  have hfil : (scanCells (12 - 1)).filter (surfaceCell planeChunk) =
      (scanCells 11).filter (fun p => decide (p.Z = 4)) := by
    apply List.filter_congr
    intro p hp
    have hs := planeChunk_surface (mem_scanCells_iff.mp hp)
    by_cases h4 : p.Z = 4
    · rw [hs.mpr h4]
      simp [h4]
    · have : surfaceCell planeChunk p = false := by
        cases hsc : surfaceCell planeChunk p
        · rfl
        · exact absurd (hs.mp hsc) h4
      rw [this]
      simp [h4]
  have hmem : ∀ p ∈ (scanCells 11).filter (fun p => decide (p.Z = 4)),
      InScan 12 p ∧ p.Z = 4 := by
    intro p hp
    obtain ⟨h1, h2⟩ := List.mem_filter.mp hp
    exact ⟨mem_scanCells_iff.mp h1, by simpa using h2⟩
  have hM : planeChunk.MeshData = emptyMesh := rfl
  rw [hfil, hM] at hV hNm
  simp only [emptyMesh, List.nil_append] at hV hNm
  refine ⟨st, hrun, ?_, ?_⟩
  · rw [hV, List.eq_replicate_iff]
    constructor
    · rw [List.length_map]
      exact planeChunk_count
    · intro v hv
      simp only [List.mem_map] at hv
      obtain ⟨p, hp, rfl⟩ := hv
      obtain ⟨hps, h4⟩ := hmem p hp
      exact (hcell p hps h4).2.2.1
  · rw [hNm, List.eq_replicate_iff]
    constructor
    · rw [List.length_map]
      exact planeChunk_count
    · intro v hv
      simp only [List.mem_map] at hv
      obtain ⟨p, hp, rfl⟩ := hv
      obtain ⟨hps, h4⟩ := hmem p hp
      exact (hcell p hps h4).2.2.2

/-! ## The lookup tables -/

theorem VertexFloats_eq (c : Fin 8) :
    VertexFloats c = ⟨((VertexOffset c).X : ℚ), ((VertexOffset c).Y : ℚ), ((VertexOffset c).Z : ℚ)⟩ := by
  fin_cases c <;> with_unfolding_all decide

set_option maxRecDepth 1000000 in
theorem edges_standard :
    (∀ e : Fin 16, e.val < 12 → coordsDiffering (Edges e).1 (Edges e).2 = 1) ∧
    (∀ a b : Fin 8, coordsDiffering a b = 1 →
      (∃ e : Fin 16, e.val < 12 ∧ joins e a b) ∧
      ∀ e e' : Fin 16, e.val < 12 → e'.val < 12 → joins e a b → joins e' a b → e = e') := by
  decide

set_option maxRecDepth 1000000 in
theorem edges_diagonal :
    (∀ e : Fin 16, 12 ≤ e.val → coordsDiffering (Edges e).1 (Edges e).2 = 3 ∧
      (Edges e).1.val + (Edges e).2.val = 7) ∧
    (∀ a b : Fin 8, coordsDiffering a b = 3 →
      (∃ e : Fin 16, 12 ≤ e.val ∧ joins e a b) ∧
      ∀ e e' : Fin 16, 12 ≤ e.val → 12 ≤ e'.val → joins e a b → joins e' a b → e = e') := by
  decide

set_option maxRecDepth 1000000 in
theorem edges_kind : ∀ e : Fin 16, ∀ a b : Fin 8, joins e a b →
    (e.val < 12 ∧ coordsDiffering a b = 1) ∨ (12 ≤ e.val ∧ coordsDiffering a b = 3) := by
  decide

theorem corner_enumeration (c : Fin 8) : VertexOffset c = cornerOffset c ∧
    VertexFloats c =
      ⟨((cornerOffset c).X : ℚ), ((cornerOffset c).Y : ℚ), ((cornerOffset c).Z : ℚ)⟩ := by
  have h1 : VertexOffset c = cornerOffset c := by
    revert c
    decide
  refine ⟨h1, ?_⟩
  rw [VertexFloats_eq, h1]

/-- C11: the edge table is well formed with respect to the corner enumeration
`(c & 1, (c >> 1) & 1, (c >> 2) & 1)`, which is the one of `VertexOffset` and `VertexFloats`.
Entries 0..11 each join two corners whose offsets differ in exactly one coordinate, and every
such unordered pair of corners is joined by exactly one of them; entries 12..15 each join two
corners whose offsets differ in all three coordinates and whose indices sum to 7, and every
such unordered pair is joined by exactly one of them; no entry is of another kind. -/
theorem edge_table_well_formed :
    (∀ c : Fin 8, VertexOffset c = cornerOffset c ∧
      VertexFloats c =
        ⟨((cornerOffset c).X : ℚ), ((cornerOffset c).Y : ℚ), ((cornerOffset c).Z : ℚ)⟩) ∧
    (∀ e : Fin 16, e.val < 12 → coordsDiffering (Edges e).1 (Edges e).2 = 1) ∧
    (∀ a b : Fin 8, coordsDiffering a b = 1 →
      (∃ e : Fin 16, e.val < 12 ∧ joins e a b) ∧
      ∀ e e' : Fin 16, e.val < 12 → e'.val < 12 → joins e a b → joins e' a b → e = e') ∧
    (∀ e : Fin 16, 12 ≤ e.val → coordsDiffering (Edges e).1 (Edges e).2 = 3 ∧
      (Edges e).1.val + (Edges e).2.val = 7) ∧
    (∀ a b : Fin 8, coordsDiffering a b = 3 →
      (∃ e : Fin 16, 12 ≤ e.val ∧ joins e a b) ∧
      ∀ e e' : Fin 16, 12 ≤ e.val → 12 ≤ e'.val → joins e a b → joins e' a b → e = e') ∧
    (∀ e : Fin 16, ∀ a b : Fin 8, joins e a b →
      (e.val < 12 ∧ coordsDiffering a b = 1) ∨ (12 ≤ e.val ∧ coordsDiffering a b = 3)) :=
  ⟨corner_enumeration, edges_standard.1, edges_standard.2, edges_diagonal.1, edges_diagonal.2,
    edges_kind⟩

set_option maxRecDepth 1000000 in
theorem axisFlags_bits : ∀ m : Fin 256,
    (decide (AxisFlags.getD (m.val &&& AxisMask) 0 &&& (1 <<< 0) ≠ 0) =
      (m.val.testBit 0 != m.val.testBit 1)) ∧
    (decide (AxisFlags.getD (m.val &&& AxisMask) 0 &&& (1 <<< 1) ≠ 0) =
      (m.val.testBit 0 != m.val.testBit 2)) ∧
    (decide (AxisFlags.getD (m.val &&& AxisMask) 0 &&& (1 <<< 2) ≠ 0) =
      (m.val.testBit 0 != m.val.testBit 4)) ∧
    AxisFlags.getD (m.val &&& AxisMask) 0 = AxisFlags.getD ((m.val &&& 0x17) &&& AxisMask) 0 ∧
    (AxisFlags.getD (m.val &&& AxisMask) 0 ≠ 0 → m.val ≠ 0x00 ∧ m.val ≠ 0xFF) := by
  decide

/-- C16: `AxisFlags` is the sign-change test on the three cube edges leaving corner 0.  For
every 8-bit mask `m` and every axis `a` in {0, 1, 2}, bit `a` of `AxisFlags[m & 0x1F]` is set
exactly when bit 0 of `m` differs from bit `2^a` of `m` (bits 1, 2, 4: the corner one step
along axis `a`).  So the flags depend only on bits 0, 1, 2 and 4 of the mask (not on bit 3 nor
on bits 5..7), and a flagged axis implies that the mask is neither 0x00 nor 0xFF. -/
theorem axisFlags_sign_change (m : Fin 256) :
    (∀ a : Fin 3, AxisFlags.getD (m.val &&& AxisMask) 0 &&& (1 <<< a.val) ≠ 0 ↔
      m.val.testBit 0 ≠ m.val.testBit (2 ^ a.val)) ∧
    AxisFlags.getD (m.val &&& AxisMask) 0 = AxisFlags.getD ((m.val &&& 0x17) &&& AxisMask) 0 ∧
    (AxisFlags.getD (m.val &&& AxisMask) 0 ≠ 0 → m.val ≠ 0x00 ∧ m.val ≠ 0xFF) := by
  obtain ⟨f0, f1, f2, f3, f4⟩ := axisFlags_bits m
  refine ⟨?_, f3, f4⟩
  intro a
  fin_cases a
  · simpa using Bool.eq_iff_iff.mp f0
  · simpa using Bool.eq_iff_iff.mp f1
  · simpa using Bool.eq_iff_iff.mp f2

/-! ## The flat index is a bijection -/

theorem flat_surj {P : Nat} {i : Int} (h0 : 0 ≤ i) (h1 : i < (P : Int) * P * P) :
    ∃ p : FIntVector3, InField P p ∧ p.Z * ((P : Int) * P) + p.Y * P + p.X = i := by
  obtain ⟨n, rfl⟩ := Int.eq_ofNat_of_zero_le h0
  have hn : n < P * P * P := by exact_mod_cast h1
  have hP : 0 < P := by
    rcases Nat.eq_zero_or_pos P with h | h
    · subst h
      simp at hn
    · exact h
  refine ⟨⟨((n % P : Nat) : Int), ((n / P % P : Nat) : Int), ((n / P / P : Nat) : Int)⟩, ?_, ?_⟩
  · refine ⟨⟨by positivity, ?_⟩, ⟨by positivity, ?_⟩, ⟨by positivity, ?_⟩⟩
    · simp only
      exact_mod_cast Nat.mod_lt n hP
    · simp only
      exact_mod_cast Nat.mod_lt (n / P) hP
    · have : n / P / P < P := by
        rw [Nat.div_div_eq_div_mul, Nat.div_lt_iff_lt_mul (Nat.mul_pos hP hP)]
        calc n < P * P * P := hn
          _ = P * (P * P) := by ring
      simp only
      exact_mod_cast this
  · simp only
    have e1 := Nat.div_add_mod n P
    have e2 := Nat.div_add_mod (n / P) P
    have : (n / P / P) * (P * P) + (n / P % P) * P + n % P = n := by
      calc (n / P / P) * (P * P) + (n / P % P) * P + n % P
          = P * (P * (n / P / P) + n / P % P) + n % P := by ring
        _ = n := by rw [e2, e1]
    exact_mod_cast this

/-! ## 32-bit integers -/

theorem wrapInt32_of_range {x : Int} (h0 : -2147483648 ≤ x) (h1 : x < 2147483648) :
    wrapInt32 x = x := by
  unfold wrapInt32
  omega

theorem shadowChunk_ready {s : Machine.ASurfaceNets} {P : Nat} (h : Machine.Ready s P) :
    Ready (shadowChunk s) P :=
  ⟨h.1, h.2.1, by simp [shadowChunk, h.2.2.1]⟩

theorem machine_index_eq {s : Machine.ASurfaceNets} {P : Nat} (h : Machine.Ready s P)
    {p : FIntVector3} (hp : InField P p) :
    Machine.GetVoxelIndex s p = p.Z * ((P : Int) * P) + p.Y * P + p.X := by
  have hb := flat_bounds hp
  have hP : ((P * P * P : Nat) : Int) < 2147483648 := by exact_mod_cast h.2.2.2
  push_cast at hP
  obtain ⟨⟨hx0, hx1⟩, ⟨hy0, hy1⟩, ⟨hz0, hz1⟩⟩ := hp
  have hzz : 0 ≤ p.Z * ((P : Int) * P) := by positivity
  have hyy : 0 ≤ p.Y * (P : Int) := by positivity
  unfold Machine.GetVoxelIndex
  rw [h.2.1]
  simp only
  rw [wrapInt32_of_range (x := p.Z * ((P : Int) * P)) (by omega) (by omega),
    wrapInt32_of_range (x := p.Y * (P : Int)) (by omega) (by omega),
    wrapInt32_of_range (x := p.Z * ((P : Int) * P) + p.Y * (P : Int)) (by omega) (by omega),
    wrapInt32_of_range (by omega) (by omega)]

theorem machine_index_shadow {s : Machine.ASurfaceNets} {P : Nat}
    (h : Machine.Ready s P) {p : FIntVector3} (hp : InField P p) :
    Machine.GetVoxelIndex s p = GetVoxelIndex (shadowChunk s) p := by
  rw [machine_index_eq h hp, GetVoxelIndex_ready (shadowChunk_ready h)]

theorem machine_setNum_length (A : List Binary) (N : Int) :
    (Machine.setNum A N).length = N.toNat := by
  unfold Machine.setNum
  simp only [List.length_append, List.length_take, List.length_replicate]
  omega

theorem cube_bounds (P : Nat) :
    (P : Int) ≤ (P : Int) * P * P ∧ (P : Int) * P ≤ (P : Int) * P * P := by
  rcases Nat.eq_zero_or_pos P with h | h
  · subst h
    constructor <;> norm_num
  · have h1 : (1 : Int) ≤ P := by exact_mod_cast h
    have h2 : (1 : Int) ≤ (P : Int) * P := by nlinarith
    constructor <;> nlinarith

theorem machine_Setup_ready (s : Machine.ASurfaceNets) (h0 : 0 ≤ s.Size + 2)
    (h1 : (s.Size + 2) * (s.Size + 2) * (s.Size + 2) < 2147483648) :
    ∃ s1, Machine.Setup s = some s1 ∧ Machine.Ready s1 (s.Size + 2).toNat := by
  obtain ⟨P, hP⟩ := Int.eq_ofNat_of_zero_le h0
  rw [hP] at h1
  obtain ⟨c1, c2⟩ := cube_bounds P
  have hp0 : (0 : Int) ≤ P := Int.natCast_nonneg P
  have hPP : (0 : Int) ≤ (P : Int) * P := by positivity
  have hnn : (0 : Int) ≤ (P : Int) * P * P := by positivity
  have w1 : wrapInt32 (s.Size + 2) = P := by
    rw [hP]
    exact wrapInt32_of_range (by omega) (by omega)
  have w2 : wrapInt32 ((P : Int) * P) = (P : Int) * P :=
    wrapInt32_of_range (by omega) (by omega)
  have e3 : (P : Int) * ((P : Int) * P) = (P : Int) * P * P := by ring
  have w3 : wrapInt32 ((P : Int) * ((P : Int) * P)) = (P : Int) * P * P := by
    rw [e3]
    exact wrapInt32_of_range (by omega) (by omega)
  have hcast : (P : Int) * P * P = ((P * P * P : Nat) : Int) := by push_cast; ring
  have hs : Machine.Setup s = some { s with
      AxisOffsets := ⟨1, (P : Int), (P : Int) * P⟩
      Voxels := Machine.setNum s.Voxels ((P : Int) * P * P) } := by
    unfold Machine.Setup
    simp only [w1, w2, w3]
    rw [if_pos hnn]
  refine ⟨_, hs, ?_⟩
  rw [hP, Int.toNat_ofNat]
  refine ⟨hP, ?_, ?_, ?_⟩
  · simp only
  · simp only [machine_setNum_length]
    rw [hcast, Int.toNat_ofNat]
  · exact_mod_cast h1

theorem machine_sampleChunk_ready : Machine.Ready Machine.sampleChunk 3 :=
  ⟨by decide, by decide, by decide, by decide⟩

/-- C20 fails as stated: at the padded size `P = 1291` (`Size = 1289`) the strides set by
`Setup` are `(1, 1291, 1291²)`, but the count `AxisOffsets.Y * AxisOffsets.Z` passed to
`SetNum` no longer fits 32 bits and is negative, so no buffer of `P³` values is allocated, and
`GetVoxelIndex` at the cell `(1290, 1290, 1290)` of the box `[0, P)³` is the negative number
-2143282126, not `x + y * P + z * P²` and not an index of `[0, P³)`. -/
theorem large_chunk_index_wraps :
    wrapInt32 (Machine.largeChunk.Size + 2) = 1291 ∧ wrapInt32 (1291 * 1291) = 1666681 ∧
    wrapInt32 (1291 * 1666681) = -2143282125 ∧
    Machine.Setup Machine.largeChunk = none ∧
    InField 1291 ⟨1290, 1290, 1290⟩ ∧
    Machine.GetVoxelIndex Machine.largeChunk ⟨1290, 1290, 1290⟩ = -2143282126 ∧
    Machine.GetVoxelIndex Machine.largeChunk ⟨1290, 1290, 1290⟩ ≠
      1290 + 1290 * 1291 + 1290 * (1291 * 1291) ∧
    ¬ (0 ≤ Machine.GetVoxelIndex Machine.largeChunk ⟨1290, 1290, 1290⟩) := by
  refine ⟨by decide, by decide, by decide, rfl, ?_, by decide, by decide, by decide⟩
  unfold InField
  decide

/-- C20 as amended: for every padded size `P` whose cube fits a 32-bit integer (`P ≤ 1290`),
`Setup` returns a chunk with the strides `(1, P, P²)` and a buffer of `P³` values, and on such
a chunk `GetVoxelIndex(x, y, z)`, computed with 32-bit integers, is `x + y * P + z * P²` on
the coordinate box `[0, P)³` and is a bijection from the box onto the flat index range
`[0, P³)`: every value is a valid index of the buffer, distinct cells of the box get distinct
indices, and every index of the range is the index of a cell of the box. -/
theorem getVoxelIndex_bijection (s : Machine.ASurfaceNets) (P : Nat)
    (h : Machine.Ready s P) :
    P ≤ 1290 ∧
    (∀ s0 : Machine.ASurfaceNets, 0 ≤ s0.Size + 2 →
      (s0.Size + 2) * (s0.Size + 2) * (s0.Size + 2) < 2147483648 →
      ∃ s1, Machine.Setup s0 = some s1 ∧ Machine.Ready s1 (s0.Size + 2).toNat) ∧
    (∀ p, InField P p → Machine.GetVoxelIndex s p = p.X + p.Y * P + p.Z * ((P : Int) * P)) ∧
    (∀ p, InField P p → 0 ≤ Machine.GetVoxelIndex s p ∧
      Machine.GetVoxelIndex s p < (P : Int) * P * P ∧
      (Machine.GetVoxelIndex s p).toNat < s.Voxels.length) ∧
    (∀ p q, InField P p → InField P q →
      Machine.GetVoxelIndex s p = Machine.GetVoxelIndex s q → p = q) ∧
    (∀ i : Int, 0 ≤ i → i < (P : Int) * P * P →
      ∃ p, InField P p ∧ Machine.GetVoxelIndex s p = i) := by
  have hs := shadowChunk_ready h
  refine ⟨?_, fun s0 h0 h1 => machine_Setup_ready s0 h0 h1, ?_, ?_, ?_, ?_⟩
  · by_contra hc
    have h1 : 1291 ≤ P := by omega
    have h2 : 1291 * 1291 ≤ P * P := Nat.mul_le_mul h1 h1
    have h3 : 1291 * 1291 * 1291 ≤ P * P * P := Nat.mul_le_mul h2 h1
    have := h.2.2.2
    omega
  · intro p hp
    rw [machine_index_eq h hp]
    ring
  · intro p hp
    have hb := GetVoxelIndex_bounds hs hp
    have hf := flat_bounds hp
    rw [machine_index_shadow h hp]
    rw [← GetVoxelIndex_ready hs] at hf
    refine ⟨hb.1, hf.2, ?_⟩
    have := hb.2
    simpa [shadowChunk] using this
  · intro p q hp hq he
    rw [machine_index_shadow h hp, machine_index_shadow h hq] at he
    exact GetVoxelIndex_inj hs hp hq he
  · intro i h0 h1
    obtain ⟨p, hp, he⟩ := flat_surj h0 h1
    exact ⟨p, hp, by rw [machine_index_eq h hp]; exact he⟩

/-- Witness of C20: the sample chunk of padded size 3; its centre `(1, 1, 1)` has the flat
index 13. -/
theorem getVoxelIndex_bijection_witness :
    Machine.Ready Machine.sampleChunk 3 ∧
    (∀ p q, InField 3 p → InField 3 q →
      Machine.GetVoxelIndex Machine.sampleChunk p =
        Machine.GetVoxelIndex Machine.sampleChunk q → p = q) ∧
    (∀ i : Int, 0 ≤ i → i < ((3 : Nat) : Int) * (3 : Nat) * (3 : Nat) →
      ∃ p, InField 3 p ∧ Machine.GetVoxelIndex Machine.sampleChunk p = i) ∧
    Machine.GetVoxelIndex Machine.sampleChunk ⟨1, 1, 1⟩ = 13 :=
  ⟨machine_sampleChunk_ready,
    (getVoxelIndex_bijection Machine.sampleChunk 3 machine_sampleChunk_ready).2.2.2.2.1,
    (getVoxelIndex_bijection Machine.sampleChunk 3 machine_sampleChunk_ready).2.2.2.2.2,
    by decide⟩

/-! ## Bits of the corner mask -/

theorem testBit_bitsMask : ∀ b0 b1 b2 b3 b4 b5 b6 b7 : Bool,
    (bitsMask b0 b1 b2 b3 b4 b5 b6 b7).testBit 0 = b0 ∧
    (bitsMask b0 b1 b2 b3 b4 b5 b6 b7).testBit 1 = b1 ∧
    (bitsMask b0 b1 b2 b3 b4 b5 b6 b7).testBit 2 = b2 ∧
    (bitsMask b0 b1 b2 b3 b4 b5 b6 b7).testBit 3 = b3 ∧
    (bitsMask b0 b1 b2 b3 b4 b5 b6 b7).testBit 4 = b4 ∧
    (bitsMask b0 b1 b2 b3 b4 b5 b6 b7).testBit 5 = b5 ∧
    (bitsMask b0 b1 b2 b3 b4 b5 b6 b7).testBit 6 = b6 ∧
    (bitsMask b0 b1 b2 b3 b4 b5 b6 b7).testBit 7 = b7 := by
  decide

theorem cornerMask_testBit (Cube : Fin 8 → ℚ) (c : Fin 8) :
    (cornerMask Cube).testBit c.val = negative Cube c := by
  rw [cornerMask_eq]
  obtain ⟨h0, h1, h2, h3, h4, h5, h6, h7⟩ := testBit_bitsMask (negative Cube 0)
    (negative Cube 1) (negative Cube 2) (negative Cube 3) (negative Cube 4) (negative Cube 5)
    (negative Cube 6) (negative Cube 7)
  fin_cases c
  · exact h0
  · exact h1
  · exact h2
  · exact h3
  · exact h4
  · exact h5
  · exact h6
  · exact h7

/-- Over exact arithmetic, where a value has its sign bit set exactly when it is negative: for a chunk laid out by `Setup` and every visited cell at coordinate `p`, the eight
corner reads of `GenerateMesh` succeed; the mask built from them is an 8-bit value; and for
each corner `c` in 0..7, with `CornerOffset[c] = (c & 1, (c >> 1) & 1, (c >> 2) & 1)`, the value
read at the flat index `GetVoxelIndex(p) + GetVoxelIndex(CornerOffset[c])` is the density stored
for the grid coordinate `p + CornerOffset[c]`, and bit `c` of the mask is set if and only if
that density is negative. -/
theorem corner_mask_bits (s : ASurfaceNets) (P : Nat) (p : FIntVector3) (h : Ready s P)
    (hp : InScan P p) :
    ∃ Cube, readCube s.Voxels (GetVoxelIndex s p) (IndexOffsets s) = some Cube ∧
      0 ≤ cornerMask Cube ∧ cornerMask Cube ≤ 255 ∧
      ∀ c : Fin 8,
        IndexOffsets s c = GetVoxelIndex s (cornerOffset c) ∧
        InField P (p.add (cornerOffset c)) ∧
        GetVoxelIndex s p + GetVoxelIndex s (cornerOffset c) =
          GetVoxelIndex s (p.add (cornerOffset c)) ∧
        readAt s.Voxels (GetVoxelIndex s p + GetVoxelIndex s (cornerOffset c)) =
          some (Cube c) ∧
        Cube c = density s (p.add (cornerOffset c)) ∧
        ((cornerMask Cube).testBit c.val = true ↔ density s (p.add (cornerOffset c)) < 0) := by
  refine ⟨cubeAt s p, readCube_eq h hp, Nat.zero_le _, cornerMask_le _, ?_⟩
  intro c
  have hoff : VertexOffset c = cornerOffset c := (corner_enumeration c).1
  have hf := inField_add_offset hp c
  rw [hoff] at hf
  have hd : cubeAt s p c = density s (p.add (cornerOffset c)) := by
    unfold cubeAt
    rw [hoff]
  refine ⟨by unfold IndexOffsets; rw [hoff], hf, GetVoxelIndex_add s p _, ?_, hd, ?_⟩
  · rw [GetVoxelIndex_add, density_eq h hf, hd]
  · rw [cornerMask_testBit, ← hd]
    simp [negative]

/-- An instance over exact arithmetic: the cell `(1, 1, 1)` of the sample chunk. -/
theorem corner_mask_bits_witness :
    Ready sampleChunk 3 ∧ InScan 3 ⟨1, 1, 1⟩ ∧
    ∃ Cube, readCube sampleChunk.Voxels (GetVoxelIndex sampleChunk ⟨1, 1, 1⟩)
        (IndexOffsets sampleChunk) = some Cube ∧ cornerMask Cube ≤ 255 :=
  have hp : InScan 3 ⟨1, 1, 1⟩ := by
    unfold InScan
    decide
  ⟨sampleChunk_ready, hp,
    let ⟨Cube, h1, _, h2, _⟩ := corner_mask_bits sampleChunk 3 ⟨1, 1, 1⟩ sampleChunk_ready hp
    ⟨Cube, h1, h2⟩⟩

/-! ## The brush stays inside the valid range -/

/-- C15: for a chunk laid out by `Setup` with `P = Size + 2`, every brush centre (any integer
coordinate) and either brush mode, `ModifyVoxelData` returns (no access is outside the buffer),
keeps the buffer length, the size and the strides, accesses only flat indices in `[0, P³)`,
namely those of cells whose coordinate lies in `[0, Size]` on every axis, and leaves the value
of every cell with some coordinate outside `[0, Size]`, in particular the padding layer at
coordinate `Size + 1`, as it was. -/
theorem brush_stays_in_valid_range (Sqrt : ℚ → ℚ) (s : ASurfaceNets) (P : Nat)
    (c : FIntVector3) (Block : EVoxelTutorialBlock) (h : Ready s P) :
    ∃ s', ModifyVoxelData Sqrt s c Block = some s' ∧
      s'.Voxels.length = s.Voxels.length ∧ s'.Size = s.Size ∧ s'.AxisOffsets = s.AxisOffsets ∧
      (∀ q, InValid s q → InField P q ∧ 0 ≤ GetVoxelIndex s q ∧
        GetVoxelIndex s q < (P : Int) * P * P ∧ (GetVoxelIndex s q).toNat < s.Voxels.length) ∧
      (∀ q, InField P q → ¬ InValid s q → density s' q = density s q) ∧
      (∀ q, InField P q → (q.X = s.Size + 1 ∨ q.Y = s.Size + 1 ∨ q.Z = s.Size + 1) →
        readAt s'.Voxels (GetVoxelIndex s q) = readAt s.Voxels (GetVoxelIndex s q)) ∧
      (∀ i : Int, 0 ≤ i → i < (P : Int) * P * P →
        (∀ q, InValid s q → GetVoxelIndex s q ≠ i) →
        readAt s'.Voxels i = readAt s.Voxels i) := by
  obtain ⟨V', hrun, hready, hval⟩ := modify_spec Sqrt h c Block
  have hframe : ∀ q, InField P q → ¬ InValid s q →
      readAt V' (GetVoxelIndex s q) = readAt s.Voxels (GetVoxelIndex s q) := by
    intro q hq hnv
    have h1 := density_eq hready hq
    have h2 := density_eq h hq
    have h3 := hval q hq
    rw [if_neg (fun hc => hnv hc.2), add_zero] at h3
    rw [h3] at h1
    rw [h2]
    exact h1
  refine ⟨_, hrun, ?_, rfl, rfl, ?_, ?_, ?_, ?_⟩
  · rw [hready.2.2, h.2.2]
  · intro q hq
    have hf := inField_of_inValid h hq
    have hb := GetVoxelIndex_bounds h hf
    have hfb := flat_bounds hf
    rw [← GetVoxelIndex_ready h] at hfb
    exact ⟨hf, hb.1, hfb.2, hb.2⟩
  · intro q hq hnv
    rw [hval q hq, if_neg (fun hc => hnv hc.2), add_zero]
  · intro q hq hpad
    apply hframe q hq
    intro hv
    obtain ⟨_, h2, _, h4, _, h6⟩ := hv
    omega
  · intro i h0 h1 hni
    obtain ⟨q, hq, he⟩ := flat_surj h0 h1
    rw [← GetVoxelIndex_ready h] at he
    rw [← he]
    apply hframe q hq
    intro hv
    exact hni q hv he

/-- Witness of C15: the all-zero chunk of size 2 with the brush centred at `(3, 3, 3)`, a cell
of the padding layer outside the valid range.  The brush writes the eight cells of
`[1, 2]³`; the cell `(2, 2, 2)` at offset `(-1, -1, -1)` changes from 0 to -1/4, and the
padding cell `(3, 2, 2)` keeps its value. -/
theorem brush_stays_in_valid_range_witness :
    Ready brushChunk 4 ∧
    (∃ s', ModifyVoxelData tangentSqrt brushChunk ⟨3, 3, 3⟩ EVoxelTutorialBlock.Stone = some s' ∧
      s'.Voxels.length = brushChunk.Voxels.length ∧ s'.Size = brushChunk.Size ∧
      s'.AxisOffsets = brushChunk.AxisOffsets ∧
      (∀ q, InValid brushChunk q → InField 4 q ∧ 0 ≤ GetVoxelIndex brushChunk q ∧
        GetVoxelIndex brushChunk q < ((4 : Nat) : Int) * (4 : Nat) * (4 : Nat) ∧
        (GetVoxelIndex brushChunk q).toNat < brushChunk.Voxels.length) ∧
      (∀ q, InField 4 q → ¬ InValid brushChunk q → density s' q = density brushChunk q) ∧
      (∀ q, InField 4 q →
        (q.X = brushChunk.Size + 1 ∨ q.Y = brushChunk.Size + 1 ∨ q.Z = brushChunk.Size + 1) →
        readAt s'.Voxels (GetVoxelIndex brushChunk q) =
          readAt brushChunk.Voxels (GetVoxelIndex brushChunk q)) ∧
      (∀ i : Int, 0 ≤ i → i < ((4 : Nat) : Int) * (4 : Nat) * (4 : Nat) →
        (∀ q, InValid brushChunk q → GetVoxelIndex brushChunk q ≠ i) →
        readAt s'.Voxels i = readAt brushChunk.Voxels i)) ∧
    (ModifyVoxelData tangentSqrt brushChunk ⟨3, 3, 3⟩ EVoxelTutorialBlock.Stone).map
      (fun s' => (density s' ⟨2, 2, 2⟩, density s' ⟨3, 2, 2⟩)) = some (-1 / 4, 0) :=
  ⟨brushChunk_ready,
    brush_stays_in_valid_range tangentSqrt brushChunk 4 ⟨3, 3, 3⟩ EVoxelTutorialBlock.Stone
      brushChunk_ready,
    by with_unfolding_all decide⟩

/-! ## Brush edits as functions of the field -/

theorem voxels_ext {s : ASurfaceNets} {P : Nat} (h : Ready s P) (V V' : List ℚ)
    (hV : V.length = s.Voxels.length) (hV' : V'.length = s.Voxels.length)
    (hq : ∀ q, InField P q → readAt V (GetVoxelIndex s q) = readAt V' (GetVoxelIndex s q)) :
    V = V' := by
  apply List.ext_getElem? 
  intro n
  by_cases hn : n < s.Voxels.length
  · have h0 : (0 : Int) ≤ (n : Int) := Int.natCast_nonneg n
    have h1 : (n : Int) < (P : Int) * P * P := by
      have : n < P * P * P := by rw [← h.2.2]; exact hn
      exact_mod_cast this
    obtain ⟨q, hqf, he⟩ := flat_surj h0 h1
    rw [← GetVoxelIndex_ready h] at he
    have := hq q hqf
    rw [he] at this
    simpa [readAt] using this
  · rw [List.getElem?_eq_none (by omega), List.getElem?_eq_none (by omega)]

theorem body_step_offsets (Sqrt : ℚ → ℚ) {s : ASurfaceNets} {P : Nat} (h : Ready s P)
    (Radius Strength : ℚ) (Start : FIntVector3) (pre : List FIntVector3) (x : FIntVector3)
    (V : List ℚ) (hxpre : x ∉ pre)
    (hinv : BrushInv Sqrt s P Radius Strength Start pre V) :
    ∃ V', ModifyVoxelData.body Sqrt s Radius Strength Start V x = some V' ∧
      BrushInv Sqrt s P Radius Strength Start (pre ++ [x]) V' := by
  obtain ⟨hlen, hval⟩ := hinv
  unfold ModifyVoxelData.body
  dsimp only
  by_cases hv : InValid s ⟨x.X + Start.X, x.Y + Start.Y, x.Z + Start.Z⟩
  · have hv' := hv
    unfold InValid at hv'
    dsimp only at hv'
    rw [if_pos hv']
    have hf := inField_of_inValid h hv
    have hr := hval _ hf
    have hsub : (⟨x.X + Start.X, x.Y + Start.Y, x.Z + Start.Z⟩ : FIntVector3).sub Start = x :=
      (sub_eq_iff _ _ _).mpr rfl
    rw [hsub, if_neg (fun hc => hxpre hc.1), add_zero] at hr
    rw [hr, Option.some_bind]
    obtain ⟨h0, h1⟩ := GetVoxelIndex_bounds h hf
    have w := writeAt_of_lt V (GetVoxelIndex s ⟨x.X + Start.X, x.Y + Start.Y, x.Z + Start.Z⟩)
      (density s ⟨x.X + Start.X, x.Y + Start.Y, x.Z + Start.Z⟩ + Strength * max (Radius -
        Sqrt ((x.Z * x.Z + x.Y * x.Y + x.X * x.X : Int) : ℚ)) 0) h0 (by rw [hlen]; exact h1)
    refine ⟨_, w, ?_, ?_⟩
    · rw [List.length_set]
      exact hlen
    · intro q hq
      by_cases hqx : q.sub Start = x
      · have hqe := (sub_eq_iff _ _ _).mp hqx
        subst hqe
        rw [readAt_writeAt_same w, hsub, if_pos ⟨by simp, hv⟩]
        rfl
      · have hne : GetVoxelIndex s q ≠
            GetVoxelIndex s ⟨x.X + Start.X, x.Y + Start.Y, x.Z + Start.Z⟩ := by
          intro he
          exact hqx ((sub_eq_iff _ _ _).mpr (GetVoxelIndex_inj h hq hf he))
        rw [readAt_writeAt_ne w hne, hval q hq]
        have hmem : (q.sub Start ∈ pre ++ [x]) ↔ q.sub Start ∈ pre := by
          simp [hqx]
        simp only [hmem]
  · have hv' := hv
    unfold InValid at hv'
    dsimp only at hv'
    rw [if_neg hv']
    refine ⟨V, rfl, hlen, ?_⟩
    intro q hq
    rw [hval q hq]
    by_cases hqx : q.sub Start = x
    · have hqe := (sub_eq_iff _ _ _).mp hqx
      have hnv : ¬ InValid s q := by rw [hqe]; exact hv
      rw [if_neg (fun hc => hnv hc.2), if_neg (fun hc => hnv hc.2)]
    · have hmem : (q.sub Start ∈ pre ++ [x]) ↔ q.sub Start ∈ pre := by
        simp [hqx]
      simp only [hmem]

theorem fold_offsets_spec (Sqrt : ℚ → ℚ) {s : ASurfaceNets} {P : Nat} (h : Ready s P)
    (Radius Strength : ℚ) (Start : FIntVector3) (offs : List FIntVector3) (hnd : offs.Nodup) :
    ∃ V', offs.foldlM (ModifyVoxelData.body Sqrt s Radius Strength Start) s.Voxels = some V' ∧
      BrushInv Sqrt s P Radius Strength Start offs V' := by
  apply foldlM_invariant _ (BrushInv Sqrt s P Radius Strength Start)
  · intro pre x post V hl hinv
    have hxpre : x ∉ pre := by
      intro hm
      rw [hl] at hnd
      exact (List.nodup_append.mp hnd).2.2 hm (by simp)
    exact body_step_offsets Sqrt h Radius Strength Start pre x V hxpre hinv
  · refine ⟨rfl, ?_⟩
    intro q hq
    rw [density_eq h hq]
    simp

theorem symmetric_loops_eq (Sqrt : ℚ → ℚ) (s : ASurfaceNets) (Radius Strength : ℚ)
    (Start : FIntVector3) (V : List ℚ) :
    ModifyVoxelDataSymmetric.loops Sqrt s Radius Strength Start V =
      symmetricOffsets.foldlM (ModifyVoxelData.body Sqrt s Radius Strength Start) V := by
  unfold symmetricOffsets ModifyVoxelDataSymmetric.loops
  rw [foldlM_flatMap]
  congr 1
  funext V Z
  rw [foldlM_flatMap]
  congr 1

set_option maxRecDepth 1000000 in
theorem symmetricOffsets_nodup : symmetricOffsets.Nodup := by decide

theorem mem_symmetricOffsets (o : FIntVector3) :
    o ∈ symmetricOffsets ↔ (-2 ≤ o.X ∧ o.X ≤ 2) ∧ (-2 ≤ o.Y ∧ o.Y ≤ 2) ∧ (-2 ≤ o.Z ∧ o.Z ≤ 2) := by
  obtain ⟨x, y, z⟩ := o
  simp only [symmetricOffsets, ModifyVoxelData.countsZ, List.mem_flatMap,
    List.mem_map, List.mem_cons, List.mem_singleton, List.not_mem_nil, or_false,
    FIntVector3.mk.injEq]
  constructor
  · rintro ⟨Z, hZ, Y, hY, X, hX, rfl, rfl, rfl⟩
    omega
  · rintro ⟨hx, hy, hz⟩
    exact ⟨z, by omega, y, by omega, x, by omega, rfl, rfl, rfl⟩

theorem brushAmount_eq_of_sqDist (Sqrt : ℚ → ℚ) (Radius Strength : ℚ) {o o' : FIntVector3}
    (h : sqDist o' = sqDist o) :
    brushAmount Sqrt Radius Strength o' = brushAmount Sqrt Radius Strength o := by
  unfold brushAmount
  rw [h]

theorem far_of_not_mem_brushOffsets {o : FIntVector3} (ho : o ∉ brushOffsets) :
    4 ≤ sqDist o := by
  apply far_offsets
  intro hn
  apply ho
  rw [mem_brushOffsets]
  omega

theorem modify_density {Sqrt : ℚ → ℚ} {s : ASurfaceNets} {P : Nat} (h : Ready s P)
    (hmono : ∀ a b : ℚ, 0 ≤ a → a ≤ b → Sqrt a ≤ Sqrt b) (h4 : Sqrt 4 = 2)
    (c : FIntVector3) (Block : EVoxelTutorialBlock) :
    ∃ V', ModifyVoxelData Sqrt s c Block = some { s with Voxels := V' } ∧
      V'.length = s.Voxels.length ∧
      ∀ q, InField P q → readAt V' (GetVoxelIndex s q) = some (density s q +
        (if InValid s q
          then brushAmount Sqrt 2 (if Block = EVoxelTutorialBlock.Air then 1 else -1) (q.sub c)
          else 0)) := by
  obtain ⟨V', hrun, hready, hval⟩ := modify_spec Sqrt h c Block
  refine ⟨V', hrun, by rw [hready.2.2, h.2.2], ?_⟩
  intro q hq
  have h1 := density_eq hready hq
  rw [hval q hq] at h1
  have hidx : GetVoxelIndex { s with Voxels := V' } q = GetVoxelIndex s q := rfl
  rw [hidx] at h1
  simp only at h1
  rw [h1]
  congr 2
  by_cases hv : InValid s q
  · by_cases hm : q.sub c ∈ brushOffsets
    · rw [if_pos ⟨hm, hv⟩, if_pos hv]
    · rw [if_neg (fun hc => hm hc.1), if_pos hv,
        brushAmount_far hmono h4 _ (far_of_not_mem_brushOffsets hm)]
  · rw [if_neg (fun hc => hv hc.2), if_neg hv]

theorem symmetric_density {Sqrt : ℚ → ℚ} {s : ASurfaceNets} {P : Nat} (h : Ready s P)
    (hmono : ∀ a b : ℚ, 0 ≤ a → a ≤ b → Sqrt a ≤ Sqrt b) (h4 : Sqrt 4 = 2)
    (c : FIntVector3) (Block : EVoxelTutorialBlock) :
    ∃ V', ModifyVoxelDataSymmetric Sqrt s c Block = some { s with Voxels := V' } ∧
      V'.length = s.Voxels.length ∧
      ∀ q, InField P q → readAt V' (GetVoxelIndex s q) = some (density s q +
        (if InValid s q
          then brushAmount Sqrt 2 (if Block = EVoxelTutorialBlock.Air then 1 else -1) (q.sub c)
          else 0)) := by
  obtain ⟨V', hV', hlen, hval⟩ := fold_offsets_spec Sqrt h 2
    (if Block = EVoxelTutorialBlock.Air then 1 else -1) c symmetricOffsets
    symmetricOffsets_nodup
  refine ⟨V', ?_, hlen, ?_⟩
  · unfold ModifyVoxelDataSymmetric
    dsimp only
    rw [symmetric_loops_eq, hV']
    rfl
  · intro q hq
    rw [hval q hq]
    congr 2
    by_cases hv : InValid s q
    · by_cases hm : q.sub c ∈ symmetricOffsets
      · rw [if_pos ⟨hm, hv⟩, if_pos hv]
      · have hfar : 4 ≤ sqDist (q.sub c) := by
          apply far_offsets
          intro hn
          apply hm
          rw [mem_symmetricOffsets]
          omega
        rw [if_neg (fun hc => hm hc.1), if_pos hv, brushAmount_far hmono h4 _ hfar]
    · rw [if_neg (fun hc => hv hc.2), if_neg hv]

/-- Over exact arithmetic, the asymmetric loop bounds of `ModifyVoxelData` (`Count.Z` over `[-2, 2]`,
`Count.Y` and `Count.X` over `[-2, 2)`) have no observable effect.  For a chunk laid out by
`Setup`, every centre and either brush mode, the call returns the same chunk as the brush
iterated with the inclusive bound on all three axes, because every offset the exclusive bound
omits has squared distance at least 4 and adds 0.  Every cell of the valid range moves by the
brush amount of its offset from the centre, which depends on the squared distance only and so
is unchanged by negating a coordinate of the offset or exchanging two of them.  `Sqrt` stands
for `FMath::Sqrt`, assumed monotone with `Sqrt 4 = 2`. -/
theorem asymmetric_bounds_unobservable (Sqrt : ℚ → ℚ) (s : ASurfaceNets) (P : Nat)
    (c : FIntVector3) (Block : EVoxelTutorialBlock) (h : Ready s P)
    (hmono : ∀ a b : ℚ, 0 ≤ a → a ≤ b → Sqrt a ≤ Sqrt b) (h4 : Sqrt 4 = 2) :
    ModifyVoxelData Sqrt s c Block = ModifyVoxelDataSymmetric Sqrt s c Block ∧
    (∀ o, o ∈ symmetricOffsets → o ∉ brushOffsets →
      4 ≤ sqDist o ∧
      brushAmount Sqrt 2 (if Block = EVoxelTutorialBlock.Air then 1 else -1) o = 0) ∧
    (∃ s', ModifyVoxelData Sqrt s c Block = some s' ∧
      ∀ q, InField P q → density s' q = density s q +
        (if InValid s q
          then brushAmount Sqrt 2 (if Block = EVoxelTutorialBlock.Air then 1 else -1) (q.sub c)
          else 0)) ∧
    (∀ (S : ℚ) (x y z : Int),
      brushAmount Sqrt 2 S ⟨-x, y, z⟩ = brushAmount Sqrt 2 S ⟨x, y, z⟩ ∧
      brushAmount Sqrt 2 S ⟨x, -y, z⟩ = brushAmount Sqrt 2 S ⟨x, y, z⟩ ∧
      brushAmount Sqrt 2 S ⟨x, y, -z⟩ = brushAmount Sqrt 2 S ⟨x, y, z⟩ ∧
      brushAmount Sqrt 2 S ⟨y, x, z⟩ = brushAmount Sqrt 2 S ⟨x, y, z⟩ ∧
      brushAmount Sqrt 2 S ⟨x, z, y⟩ = brushAmount Sqrt 2 S ⟨x, y, z⟩ ∧
      brushAmount Sqrt 2 S ⟨z, y, x⟩ = brushAmount Sqrt 2 S ⟨x, y, z⟩) := by
  obtain ⟨V1, hrun1, hlen1, hval1⟩ := modify_density h hmono h4 c Block
  obtain ⟨V2, hrun2, hlen2, hval2⟩ := symmetric_density h hmono h4 c Block
  have hV : V1 = V2 := by
    apply voxels_ext h V1 V2 hlen1 hlen2
    intro q hq
    rw [hval1 q hq, hval2 q hq]
  refine ⟨?_, ?_, ?_, ?_⟩
  · rw [hrun1, hrun2, hV]
  · intro o _ ho
    have hfar := far_of_not_mem_brushOffsets ho
    exact ⟨hfar, brushAmount_far hmono h4 _ hfar⟩
  · refine ⟨_, hrun1, ?_⟩
    intro q hq
    have hready : Ready { s with Voxels := V1 } P := ⟨h.1, h.2.1, by rw [← h.2.2]; exact hlen1⟩
    have h1 := density_eq hready hq
    have hidx : GetVoxelIndex { s with Voxels := V1 } q = GetVoxelIndex s q := rfl
    rw [hidx] at h1
    simp only at h1
    rw [hval1 q hq] at h1
    exact (Option.some.inj h1).symm
  · intro S x y z
    refine ⟨?_, ?_, ?_, ?_, ?_, ?_⟩ <;>
      (apply brushAmount_eq_of_sqDist; simp only [sqDist]; ring)

theorem two_edits (Sqrt : ℚ → ℚ) {s : ASurfaceNets} {P : Nat} (h : Ready s P)
    (c1 c2 : FIntVector3) (B1 B2 : EVoxelTutorialBlock) :
    ∃ V2, (ModifyVoxelData Sqrt s c1 B1).bind (fun s1 => ModifyVoxelData Sqrt s1 c2 B2) =
        some { s with Voxels := V2 } ∧
      V2.length = s.Voxels.length ∧
      ∀ q, InField P q → readAt V2 (GetVoxelIndex s q) = some (density s q +
        (if q.sub c1 ∈ brushOffsets ∧ InValid s q
          then brushAmount Sqrt 2 (if B1 = EVoxelTutorialBlock.Air then 1 else -1) (q.sub c1)
          else 0) +
        (if q.sub c2 ∈ brushOffsets ∧ InValid s q
          then brushAmount Sqrt 2 (if B2 = EVoxelTutorialBlock.Air then 1 else -1) (q.sub c2)
          else 0)) := by
  obtain ⟨V1, hrun1, hready1, hval1⟩ := modify_spec Sqrt h c1 B1
  obtain ⟨V2, hrun2, hready2, hval2⟩ := modify_spec Sqrt hready1 c2 B2
  refine ⟨V2, ?_, ?_, ?_⟩
  · rw [hrun1, Option.some_bind, hrun2]
  · exact hready2.2.2.trans h.2.2.symm
  · intro q hq
    have h2 := density_eq hready2 hq
    rw [hval2 q hq, hval1 q hq] at h2
    exact h2

theorem chunk_eta (s : ASurfaceNets) : { s with Voxels := s.Voxels } = s := by
  cases s
  rfl

/-- C18: over exact arithmetic, adding material and clearing material at the same centre are
inverse edits, and edits commute.  For a chunk laid out by `Setup` and every centre,
`ModifyVoxelData` with a non-air block followed by `ModifyVoxelData` with `Air` at the same
centre returns the chunk it started from, and likewise in the opposite order; and for any two
centres and modes the two edits applied in either order return the same chunk. -/
theorem brush_edits_inverse_and_commute (Sqrt : ℚ → ℚ) (s : ASurfaceNets) (P : Nat)
    (h : Ready s P) :
    (∀ c, (ModifyVoxelData Sqrt s c EVoxelTutorialBlock.Stone).bind
        (fun s1 => ModifyVoxelData Sqrt s1 c EVoxelTutorialBlock.Air) = some s ∧
      (ModifyVoxelData Sqrt s c EVoxelTutorialBlock.Air).bind
        (fun s1 => ModifyVoxelData Sqrt s1 c EVoxelTutorialBlock.Stone) = some s) ∧
    (∀ c1 c2 B1 B2, ∃ s2,
      (ModifyVoxelData Sqrt s c1 B1).bind (fun s1 => ModifyVoxelData Sqrt s1 c2 B2) = some s2 ∧
      (ModifyVoxelData Sqrt s c2 B2).bind (fun s1 => ModifyVoxelData Sqrt s1 c1 B1) =
        some s2) := by
  have hinv : ∀ c B1 B2,
      (if B1 = EVoxelTutorialBlock.Air then (1 : ℚ) else -1) +
        (if B2 = EVoxelTutorialBlock.Air then (1 : ℚ) else -1) = 0 →
      (ModifyVoxelData Sqrt s c B1).bind (fun s1 => ModifyVoxelData Sqrt s1 c B2) = some s := by
    intro c B1 B2 hS
    obtain ⟨V2, hrun, hlen, hval⟩ := two_edits Sqrt h c c B1 B2
    have hV : V2 = s.Voxels := by
      apply voxels_ext h V2 s.Voxels hlen rfl
      intro q hq
      rw [hval q hq, density_eq h hq]
      congr 1
      by_cases hc : q.sub c ∈ brushOffsets ∧ InValid s q
      · rw [if_pos hc, if_pos hc]
        unfold brushAmount
        have : ∀ a b m : ℚ, a + b = 0 → density s q + a * m + b * m = density s q := by
          intro a b m hab
          have : b = -a := by linarith
          rw [this]
          ring
        exact this _ _ _ hS
      · rw [if_neg hc, if_neg hc, add_zero, add_zero]
    rw [hrun, hV, chunk_eta]
  refine ⟨fun c => ⟨hinv c _ _ (by simp), hinv c _ _ (by simp)⟩, ?_⟩
  intro c1 c2 B1 B2
  obtain ⟨V, hrun, hlen, hval⟩ := two_edits Sqrt h c1 c2 B1 B2
  obtain ⟨V', hrun', hlen', hval'⟩ := two_edits Sqrt h c2 c1 B2 B1
  have hV : V' = V := by
    apply voxels_ext h V' V hlen' hlen
    intro q hq
    rw [hval q hq, hval' q hq, add_right_comm]
  refine ⟨_, hrun, ?_⟩
  rw [hrun', hV]

/-- Witness of C18: the all-zero chunk of size 2. -/
theorem brush_edits_inverse_and_commute_witness :
    Ready brushChunk 4 ∧
    (ModifyVoxelData tangentSqrt brushChunk ⟨1, 1, 1⟩ EVoxelTutorialBlock.Stone).bind
      (fun s1 => ModifyVoxelData tangentSqrt s1 ⟨1, 1, 1⟩ EVoxelTutorialBlock.Air) =
      some brushChunk :=
  ⟨brushChunk_ready,
    ((brush_edits_inverse_and_commute tangentSqrt brushChunk 4 brushChunk_ready).1
      ⟨1, 1, 1⟩).1⟩

/-! ## The position estimator as a mean -/

theorem edge_eq (Cube : Fin 8 → ℚ) (e : Fin 16) (acc : FVector × Nat) :
    ComputeSDFSurface.edge Cube e acc =
      if crosses Cube e = true then (acc.1.add (crossingPoint Cube e), acc.2 + 1) else acc := by
  unfold ComputeSDFSurface.edge crosses crossingPoint crossingFraction
  simp only [decide_eq_true_eq]

theorem edge_fold (Cube : Fin 8 → ℚ) (es : List (Fin 16)) (acc : FVector × Nat) :
    es.foldl (fun a e => ComputeSDFSurface.edge Cube e a) acc =
      (((es.filter (crosses Cube)).map (crossingPoint Cube)).foldl FVector.add acc.1,
        acc.2 + (es.filter (crosses Cube)).length) := by
  induction es generalizing acc with
  | nil => rfl
  | cons e es ih =>
    rw [List.foldl_cons, ih, edge_eq]
    by_cases hc : crosses Cube e = true
    · rw [if_pos hc, List.filter_cons_of_pos hc]
      simp only [List.map_cons, List.foldl_cons, List.length_cons]
      congr 1
      omega
    · rw [if_neg hc, List.filter_cons_of_neg hc]

theorem loop_standard (Cube : Fin 8 → ℚ) (acc : FVector × Nat) :
    ComputeSDFSurface.loop Cube 12 (by omega) acc =
      standardEdges.foldl (fun a e => ComputeSDFSurface.edge Cube e a) acc := by
  rfl

theorem loop_all (Cube : Fin 8 → ℚ) (acc : FVector × Nat) :
    ComputeSDFSurface.loop Cube 16 (le_refl 16) acc =
      if 3 ≤ (diagonalEdges.foldl (fun a e => ComputeSDFSurface.edge Cube e a) acc).2
      then diagonalEdges.foldl (fun a e => ComputeSDFSurface.edge Cube e a) acc
      else standardEdges.foldl (fun a e => ComputeSDFSurface.edge Cube e a)
        (diagonalEdges.foldl (fun a e => ComputeSDFSurface.edge Cube e a) acc) := by
  rw [← loop_standard]
  simp only [ComputeSDFSurface.loop, diagonalEdges, List.foldl_cons, List.foldl_nil]
  simp

theorem foldl_add_start (l : List FVector) (a : FVector) :
    l.foldl FVector.add a = a.add (vectorSum l) := by
  unfold vectorSum
  induction l generalizing a with
  | nil =>
    cases a
    simp [FVector.add]
  | cons v l ih =>
    rw [List.foldl_cons, List.foldl_cons, ih, ih (FVector.add ⟨0, 0, 0⟩ v)]
    cases a
    cases v
    simp only [FVector.add, FVector.mk.injEq, zero_add]
    refine ⟨?_, ?_, ?_⟩ <;> ring

theorem vectorSum_append (l l' : List FVector) :
    l'.foldl FVector.add (vectorSum l) = vectorSum (l ++ l') := by
  unfold vectorSum
  rw [List.foldl_append]

theorem loop_result (Cube : Fin 8 → ℚ) :
    ComputeSDFSurface.loop Cube 16 (le_refl 16) (⟨0, 0, 0⟩, 0) =
      (vectorSum ((consultedCrossings Cube).map (crossingPoint Cube)),
        (consultedCrossings Cube).length) := by
  rw [loop_all, edge_fold, edge_fold]
  simp only [Nat.zero_add]
  unfold consultedCrossings
  split
  · rfl
  · rw [List.filter_append, List.map_append, List.length_append]
    congr 1
    exact vectorSum_append _ _

theorem position_eq_mean (N : FVector → FVector) (Cube : Fin 8 → ℚ) :
    (ComputeSDFSurface N Cube).1 = meanCrossing Cube ∧
    IntersectionCount Cube = (consultedCrossings Cube).length ∧
    PositionSum Cube = vectorSum ((consultedCrossings Cube).map (crossingPoint Cube)) := by
  have hr := loop_result Cube
  have hc : IntersectionCount Cube = (consultedCrossings Cube).length := by
    unfold IntersectionCount
    rw [hr]
  have hs : PositionSum Cube =
      vectorSum ((consultedCrossings Cube).map (crossingPoint Cube)) := by
    unfold PositionSum
    rw [hr]
  refine ⟨?_, hc, hs⟩
  unfold ComputeSDFSurface meanCrossing vectorMean
  simp only [hc, hs, List.length_map]

/-- Over exact arithmetic: for every 8-tuple of corner densities, `ComputeSDFSurface` returns as position the
arithmetic mean of the zero-crossing points `p(e) = corner(e0) + t * (corner(e1) - corner(e0))`,
`t = d0 / (d0 - d1)`, over the consulted crossing edges: the crossing diagonals (table indices
12..15) when at least 3 of the 4 diagonals have endpoint densities with `d0 * d1 < 0`, otherwise
all crossing edges among the 16 table edges.  `IntersectionCount` is the number of these edges,
so the position has a value exactly when at least one consulted edge crosses. -/
theorem position_is_mean_of_crossings (N : FVector → FVector) (Cube : Fin 8 → ℚ) :
    (ComputeSDFSurface N Cube).1 = meanCrossing Cube ∧
    IntersectionCount Cube = (consultedCrossings Cube).length ∧
    (∀ e, e ∈ consultedCrossings Cube ↔
      Cube (Edges e).1 * Cube (Edges e).2 < 0 ∧
        (3 ≤ (diagonalEdges.filter (crosses Cube)).length → 12 ≤ e.val)) ∧
    (consultedCrossings Cube).Nodup ∧
    ((ComputeSDFSurface N Cube).1.isSome = true ↔ ∃ e, e ∈ consultedCrossings Cube) ∧
    (∀ pos, (ComputeSDFSurface N Cube).1 = some pos →
      pos = (vectorSum ((consultedCrossings Cube).map (crossingPoint Cube))).divide
        ((consultedCrossings Cube).length : ℚ)) := by
  obtain ⟨h1, h2, -⟩ := position_eq_mean N Cube
  refine ⟨h1, h2, ?_, ?_, ?_, ?_⟩
  · intro e
    unfold consultedCrossings
    have hall : ∀ e : Fin 16, e ∈ diagonalEdges ++ standardEdges := by decide
    have hdiag : ∀ e : Fin 16, e ∈ diagonalEdges ↔ 12 ≤ e.val := by decide
    split
    · rename_i h3
      rw [List.mem_filter, hdiag]
      simp only [crosses, decide_eq_true_eq]
      constructor
      · rintro ⟨ha, hb⟩
        exact ⟨hb, fun _ => ha⟩
      · rintro ⟨ha, hb⟩
        exact ⟨hb h3, ha⟩
    · rename_i h3
      rw [List.mem_filter]
      simp only [crosses, decide_eq_true_eq]
      constructor
      · rintro ⟨_, hb⟩
        exact ⟨hb, fun hc => absurd hc h3⟩
      · rintro ⟨ha, _⟩
        exact ⟨hall e, ha⟩
  · unfold consultedCrossings
    have hnd1 : diagonalEdges.Nodup := by decide
    have hnd2 : (diagonalEdges ++ standardEdges).Nodup := by decide
    split
    · exact hnd1.filter _
    · exact hnd2.filter _
  · rw [h1]
    unfold meanCrossing vectorMean
    rw [List.length_map]
    cases hl : consultedCrossings Cube with
    | nil => simp
    | cons a l => simp
  · intro pos hpos
    rw [h1] at hpos
    unfold meanCrossing vectorMean at hpos
    rw [List.length_map] at hpos
    split at hpos
    · exact absurd hpos (by simp)
    · exact (Option.some.inj hpos).symm

/-! ## The position lies in the cell -/

theorem fraction_bounds {d0 d1 : ℚ} (h : d0 * d1 < 0) :
    0 < d0 / (d0 - d1) ∧ d0 / (d0 - d1) < 1 := by
  rcases lt_trichotomy d0 0 with h0 | h0 | h0
  · have h1 : 0 < d1 := by
      by_contra hn
      have : 0 ≤ d0 * d1 := mul_nonneg_of_nonpos_of_nonpos (le_of_lt h0) (not_lt.mp hn)
      linarith
    have hneg : d0 - d1 < 0 := by linarith
    constructor
    · exact div_pos_of_neg_of_neg h0 hneg
    · rw [div_lt_one_of_neg hneg]
      linarith
  · rw [h0, zero_mul] at h
    exact absurd h (lt_irrefl 0)
  · have h1 : d1 < 0 := by
      by_contra hn
      have : 0 ≤ d0 * d1 := mul_nonneg (le_of_lt h0) (not_lt.mp hn)
      linarith
    have hpos : 0 < d0 - d1 := by linarith
    constructor
    · exact div_pos h0 hpos
    · rw [div_lt_one hpos]
      linarith

theorem VertexFloats_inUnitCube (c : Fin 8) : InUnitCube (VertexFloats c) := by
  rw [VertexFloats_eq]
  obtain ⟨hx, hy, hz⟩ := VertexOffset_bounds c
  unfold InUnitCube
  simp only
  refine ⟨⟨?_, ?_⟩, ⟨?_, ?_⟩, ⟨?_, ?_⟩⟩
  · exact_mod_cast hx.1
  · exact_mod_cast hx.2
  · exact_mod_cast hy.1
  · exact_mod_cast hy.2
  · exact_mod_cast hz.1
  · exact_mod_cast hz.2

theorem convex_bounds {a b t : ℚ} (ha : 0 ≤ a ∧ a ≤ 1) (hb : 0 ≤ b ∧ b ≤ 1)
    (ht : 0 < t ∧ t < 1) : 0 ≤ a + t * (b - a) ∧ a + t * (b - a) ≤ 1 := by
  have e : a + t * (b - a) = (1 - t) * a + t * b := by ring
  rw [e]
  have h1 : 0 ≤ (1 - t) * a := mul_nonneg (by linarith) ha.1
  have h2 : 0 ≤ t * b := mul_nonneg (le_of_lt ht.1) hb.1
  have h3 : (1 - t) * a ≤ (1 - t) * 1 := mul_le_mul_of_nonneg_left ha.2 (by linarith)
  have h4 : t * b ≤ t * 1 := mul_le_mul_of_nonneg_left hb.2 (le_of_lt ht.1)
  constructor <;> linarith

theorem crossingPoint_inUnitCube {Cube : Fin 8 → ℚ} {e : Fin 16} (h : crosses Cube e = true) :
    InUnitCube (crossingPoint Cube e) := by
  have hc : Cube (Edges e).1 * Cube (Edges e).2 < 0 := by simpa [crosses] using h
  have ht := fraction_bounds hc
  obtain ⟨ax, ay, az⟩ := VertexFloats_inUnitCube (Edges e).1
  obtain ⟨bx, b_y, bz⟩ := VertexFloats_inUnitCube (Edges e).2
  unfold crossingPoint crossingFraction InUnitCube
  simp only [FVector.add, FVector.scale, FVector.sub]
  exact ⟨convex_bounds ax bx ht, convex_bounds ay b_y ht, convex_bounds az bz ht⟩

theorem vectorSum_cons (v : FVector) (l : List FVector) :
    vectorSum (v :: l) = v.add (vectorSum l) := by
  have h := foldl_add_start l (FVector.add ⟨0, 0, 0⟩ v)
  unfold vectorSum at h ⊢
  rw [List.foldl_cons, h]
  cases v
  simp [FVector.add]

theorem vectorSum_bounds (l : List FVector) (h : ∀ v ∈ l, InUnitCube v) :
    (0 ≤ (vectorSum l).X ∧ (vectorSum l).X ≤ l.length) ∧
    (0 ≤ (vectorSum l).Y ∧ (vectorSum l).Y ≤ l.length) ∧
    (0 ≤ (vectorSum l).Z ∧ (vectorSum l).Z ≤ l.length) := by
  induction l with
  | nil => simp [vectorSum]
  | cons v l ih =>
    obtain ⟨ix, iy, iz⟩ := ih (fun w hw => h w (List.mem_cons_of_mem v hw))
    obtain ⟨vx, vy, vz⟩ := h v (List.mem_cons_self v l)
    rw [vectorSum_cons]
    simp only [FVector.add, List.length_cons, Nat.cast_add, Nat.cast_one]
    refine ⟨⟨?_, ?_⟩, ⟨?_, ?_⟩, ⟨?_, ?_⟩⟩ <;> linarith

theorem mean_inUnitCube (l : List FVector) (h : ∀ v ∈ l, InUnitCube v) (hl : l ≠ []) :
    InUnitCube ((vectorSum l).divide (l.length : ℚ)) := by
  obtain ⟨sx, sy, sz⟩ := vectorSum_bounds l h
  have hpos : (0 : ℚ) < (l.length : ℚ) := by
    have : 0 < l.length := List.length_pos.mpr hl
    exact_mod_cast this
  unfold InUnitCube FVector.divide
  simp only
  refine ⟨⟨?_, ?_⟩, ⟨?_, ?_⟩, ⟨?_, ?_⟩⟩
  · exact div_nonneg sx.1 (le_of_lt hpos)
  · exact (div_le_one hpos).mpr sx.2
  · exact div_nonneg sy.1 (le_of_lt hpos)
  · exact (div_le_one hpos).mpr sy.2
  · exact div_nonneg sz.1 (le_of_lt hpos)
  · exact (div_le_one hpos).mpr sz.2

theorem exists_standard_edge (b : Fin 8 → Bool) (h : ∃ c c', b c ≠ b c') :
    ∃ e : Fin 16, e ∈ standardEdges ∧ b (Edges e).1 ≠ b (Edges e).2 := by
  by_contra hcon
  push_neg at hcon
  have e0 : b 0 = b 1 := hcon 0 (by decide)
  have e1 : b 1 = b 3 := hcon 1 (by decide)
  have e2 : b 3 = b 2 := hcon 2 (by decide)
  have e8 : b 0 = b 4 := hcon 8 (by decide)
  have e4 : b 4 = b 5 := hcon 4 (by decide)
  have e5 : b 5 = b 7 := hcon 5 (by decide)
  have e6 : b 7 = b 6 := hcon 6 (by decide)
  have hall : ∀ c : Fin 8, b c = b 0 := by
    intro c
    fin_cases c
    · rfl
    · exact e0.symm
    · exact (e0.trans (e1.trans e2)).symm
    · exact (e0.trans e1).symm
    · exact e8.symm
    · exact (e8.trans e4).symm
    · exact (e8.trans (e4.trans (e5.trans e6))).symm
    · exact (e8.trans (e4.trans e5)).symm
  obtain ⟨c, c', hne⟩ := h
  exact hne ((hall c).trans (hall c').symm)

theorem consulted_nonempty {Cube : Fin 8 → ℚ} (hnz : ∀ c, Cube c ≠ 0)
    (hmix : ∃ c c', Cube c < 0 ∧ 0 < Cube c') : consultedCrossings Cube ≠ [] := by
  have hb : ∃ c c', negative Cube c ≠ negative Cube c' := by
    obtain ⟨c, c', h1, h2⟩ := hmix
    refine ⟨c, c', ?_⟩
    simp only [negative, decide_eq_true h1, ne_eq]
    have : ¬ Cube c' < 0 := not_lt.mpr (le_of_lt h2)
    simp [this]
  obtain ⟨e, he, hne⟩ := exists_standard_edge (negative Cube) hb
  have hcross : crosses Cube e = true := by
    simp only [crosses, decide_eq_true_eq]
    have h1 := hnz (Edges e).1
    have h2 := hnz (Edges e).2
    simp only [negative, ne_eq, decide_eq_decide] at hne
    rcases lt_or_gt_of_ne h1 with a | a <;> rcases lt_or_gt_of_ne h2 with b | b
    · exact absurd (iff_of_true a b) hne
    · exact mul_neg_of_neg_of_pos a b
    · exact mul_neg_of_pos_of_neg a b
    · exact absurd (iff_of_false (not_lt.mpr (le_of_lt a)) (not_lt.mpr (le_of_lt b))) hne
  unfold consultedCrossings
  split
  · rename_i h3
    intro hnil
    rw [hnil] at h3
    simp at h3
  · intro hnil
    have hm : e ∈ (diagonalEdges ++ standardEdges).filter (crosses Cube) :=
      List.mem_filter.mpr ⟨List.mem_append_right _ he, hcross⟩
    rw [hnil] at hm
    exact absurd hm (List.not_mem_nil e)

theorem consulted_cross {Cube : Fin 8 → ℚ} {e : Fin 16} (he : e ∈ consultedCrossings Cube) :
    crosses Cube e = true := by
  unfold consultedCrossings at he
  split at he
  · exact (List.mem_filter.mp he).2
  · exact (List.mem_filter.mp he).2

/-- Over exact arithmetic: for every 8-tuple of non-zero corner densities that are not all of the same sign,
every crossing fraction `t = d0 / (d0 - d1)` of a crossing edge satisfies `0 < t < 1`, and
`ComputeSDFSurface` returns a position inside the closed unit cube `[0, 1]³`; hence the vertex
`GenerateMesh` appends for the cell at `p` is `BlockSize` times a point that lies in
`[p, p + 1]` on every axis. -/
theorem position_in_unit_cube (N : FVector → FVector) (Cube : Fin 8 → ℚ)
    (hnz : ∀ c, Cube c ≠ 0) (hmix : ∃ c c', Cube c < 0 ∧ 0 < Cube c') :
    (∀ e, crosses Cube e = true → 0 < crossingFraction Cube e ∧ crossingFraction Cube e < 1) ∧
    1 ≤ IntersectionCount Cube ∧
    ∃ pos, (ComputeSDFSurface N Cube).1 = some pos ∧ InUnitCube pos ∧
      ∀ (BlockSize : ℚ) (p : FIntVector3),
        cellVertex N BlockSize Cube p =
          some (FVector.scale BlockSize (pos.add ⟨p.X, p.Y, p.Z⟩)) ∧
        ((p.X : ℚ) ≤ (pos.add ⟨p.X, p.Y, p.Z⟩).X ∧ (pos.add ⟨p.X, p.Y, p.Z⟩).X ≤ p.X + 1) ∧
        ((p.Y : ℚ) ≤ (pos.add ⟨p.X, p.Y, p.Z⟩).Y ∧ (pos.add ⟨p.X, p.Y, p.Z⟩).Y ≤ p.Y + 1) ∧
        ((p.Z : ℚ) ≤ (pos.add ⟨p.X, p.Y, p.Z⟩).Z ∧ (pos.add ⟨p.X, p.Y, p.Z⟩).Z ≤ p.Z + 1) := by
  obtain ⟨h1, h2, -⟩ := position_eq_mean N Cube
  have hne := consulted_nonempty hnz hmix
  refine ⟨?_, ?_, ?_⟩
  · intro e he
    apply fraction_bounds
    simpa [crosses] using he
  · rw [h2]
    exact List.length_pos.mpr hne
  · have hne' : (consultedCrossings Cube).map (crossingPoint Cube) ≠ [] := by
      simpa using hne
    have hcube := mean_inUnitCube ((consultedCrossings Cube).map (crossingPoint Cube))
      (by
        intro v hv
        obtain ⟨e, he, rfl⟩ := List.mem_map.mp hv
        exact crossingPoint_inUnitCube (consulted_cross he)) hne'
    have hpos : (ComputeSDFSurface N Cube).1 =
        some ((vectorSum ((consultedCrossings Cube).map (crossingPoint Cube))).divide
          (((consultedCrossings Cube).map (crossingPoint Cube)).length : ℚ)) := by
      rw [h1]
      unfold meanCrossing vectorMean
      rw [if_neg (fun h0 => hne' (List.length_eq_zero.mp h0))]
    refine ⟨_, hpos, hcube, ?_⟩
    intro BlockSize p
    obtain ⟨⟨x0, x1⟩, ⟨y0, y1⟩, ⟨z0, z1⟩⟩ := hcube
    refine ⟨?_, ?_, ?_, ?_⟩
    · unfold cellVertex
      rw [hpos]
      rfl
    · simp only [FVector.add]
      constructor <;> linarith
    · simp only [FVector.add]
      constructor <;> linarith
    · simp only [FVector.add]
      constructor <;> linarith

theorem mixedCube_ok :
    (∀ c, mixedCube c ≠ 0) ∧ ∃ c c', mixedCube c < 0 ∧ 0 < mixedCube c' := by
  constructor
  · intro c
    fin_cases c <;> with_unfolding_all decide
  · exact ⟨0, 1, by with_unfolding_all decide, by with_unfolding_all decide⟩

/-- An instance over exact arithmetic: one negative corner, seven positive corners. -/
theorem position_in_unit_cube_witness :
    (∀ c, mixedCube c ≠ 0) ∧ (∃ c c', mixedCube c < 0 ∧ 0 < mixedCube c') ∧
    1 ≤ IntersectionCount mixedCube ∧
    ∃ pos, (ComputeSDFSurface id mixedCube).1 = some pos ∧ InUnitCube pos :=
  ⟨mixedCube_ok.1, mixedCube_ok.2,
    (position_in_unit_cube id mixedCube mixedCube_ok.1 mixedCube_ok.2).2.1,
    let ⟨pos, h1, h2, _⟩ :=
      (position_in_unit_cube id mixedCube mixedCube_ok.1 mixedCube_ok.2).2.2
    ⟨pos, h1, h2⟩⟩

/-! ## The triangles of one cell -/

theorem axis_spec {s : ASurfaceNets} {VT : List Int} {p : FIntVector3} {Mask : Nat}
    {New : Int} {MD MD' : FChunkMeshData} {Axis : Nat}
    (h : GenerateMesh.axis s VT p (GetVoxelIndex s p) Mask
      (AxisFlags.getD (Mask &&& AxisMask) 0) New MD Axis = some MD') :
    MD' = { MD with Triangles := MD.Triangles ++ axisTriangles s VT p Mask New Axis } := by
  unfold GenerateMesh.axis at h
  unfold axisTriangles
  by_cases hf : AxisFlags.getD (Mask &&& AxisMask) 0 &&& (1 <<< Axis) = 0
  · rw [if_neg (not_not.mpr hf)] at h
    rw [if_pos hf, List.append_nil]
    exact (Option.some.inj h).symm
  · rw [if_pos hf] at h
    rw [if_neg hf]
    by_cases g0 : p.get Axis < 1
    · rw [if_pos g0] at h
      rw [if_pos (Or.inl g0), List.append_nil]
      exact (Option.some.inj h).symm
    · rw [if_neg g0] at h
      dsimp only at h
      by_cases g1 : p.get ((Axis + 1) % 3) < 1
      · rw [if_pos g1] at h
        rw [if_pos (Or.inr (Or.inl g1)), List.append_nil]
        exact (Option.some.inj h).symm
      · rw [if_neg g1] at h
        by_cases g2 : p.get ((Axis + 2) % 3) < 1
        · rw [if_pos g2] at h
          rw [if_pos (Or.inr (Or.inr g2)), List.append_nil]
          exact (Option.some.inj h).symm
        · rw [if_neg g2] at h
          rw [if_neg (by tauto)]
          cases r1 : readAt VT (GetVoxelIndex s p - s.AxisOffsets.get ((Axis + 1) % 3)) with
          | none =>
            rw [r1] at h
            exact absurd h (by simp)
          | some v1 =>
            cases r2 : readAt VT (GetVoxelIndex s p - s.AxisOffsets.get ((Axis + 1) % 3) -
                s.AxisOffsets.get ((Axis + 2) % 3)) with
            | none =>
              rw [r1, r2] at h
              exact absurd h (by simp)
            | some v2 =>
              cases r3 : readAt VT (GetVoxelIndex s p - s.AxisOffsets.get ((Axis + 2) % 3)) with
              | none =>
                rw [r1, r2, r3] at h
                exact absurd h (by simp)
              | some v3 =>
                rw [r1, r2, r3] at h
                simp only [Option.some_bind, Option.some.injEq] at h
                rw [← h]
                by_cases hm : Mask &&& 1 = 0
                · rw [if_neg (not_not.mpr hm)]
                  simp only [if_pos hm, AddTriangle, List.append_assoc, List.cons_append,
                    List.nil_append]
                · rw [if_pos hm]
                  simp only [if_neg hm, AddTriangle, List.append_assoc, List.cons_append,
                    List.nil_append]

theorem cell_some {N : FVector → FVector} {s : ASurfaceNets} {st st' : MeshState}
    {p : FIntVector3} {I : Int} (h : GenerateMesh.cell N s st p I = some st') :
    ∃ Cube, readCube s.Voxels I (IndexOffsets s) = some Cube ∧
      ((¬ (cornerMask Cube ≠ 0 ∧ cornerMask Cube < 0xFF) ∧ st'.MeshData = st.MeshData ∧
          st'.VertexCount = st.VertexCount) ∨
        ((cornerMask Cube ≠ 0 ∧ cornerMask Cube < 0xFF) ∧
          st'.VertexCount = st.VertexCount + 1 ∧
          readAt st'.VertexTable I = some st.VertexCount ∧
          ∃ M1 M2,
            GenerateMesh.axis s st'.VertexTable p I (cornerMask Cube)
              (AxisFlags.getD (cornerMask Cube &&& AxisMask) 0) st.VertexCount
              { st.MeshData with
                Vertices := st.MeshData.Vertices ++ [(ComputeSDFSurface N Cube).1.map fun V =>
                  FVector.scale s.BlockSize (V.add ⟨p.X, p.Y, p.Z⟩)]
                Normals := st.MeshData.Normals ++ [(ComputeSDFSurface N Cube).2] } 0 = some M1 ∧
            GenerateMesh.axis s st'.VertexTable p I (cornerMask Cube)
              (AxisFlags.getD (cornerMask Cube &&& AxisMask) 0) st.VertexCount M1 1 = some M2 ∧
            GenerateMesh.axis s st'.VertexTable p I (cornerMask Cube)
              (AxisFlags.getD (cornerMask Cube &&& AxisMask) 0) st.VertexCount M2 2 =
              some st'.MeshData)) := by
  unfold GenerateMesh.cell at h
  cases w0 : writeAt st.VertexTable I (-1) with
  | none =>
    rw [w0] at h
    exact absurd h (by simp)
  | some VT0 =>
    rw [w0, Option.some_bind] at h
    cases rc : readCube s.Voxels I (IndexOffsets s) with
    | none =>
      rw [rc] at h
      exact absurd h (by simp)
    | some Cube =>
      rw [rc, Option.some_bind] at h
      dsimp only at h
      refine ⟨Cube, rfl, ?_⟩
      by_cases hc : cornerMask Cube ≠ 0 ∧ cornerMask Cube < 0xFF
      · right
        rw [if_pos hc] at h
        cases w1 : writeAt VT0 I st.VertexCount with
        | none =>
          rw [w1] at h
          exact absurd h (by simp)
        | some VT =>
          rw [w1, Option.some_bind] at h
          simp only [List.foldlM_cons, List.foldlM_nil, Option.bind_eq_bind] at h
          cases a0 : GenerateMesh.axis s VT p I (cornerMask Cube)
              (AxisFlags.getD (cornerMask Cube &&& AxisMask) 0) st.VertexCount
              { st.MeshData with
                Vertices := st.MeshData.Vertices ++ [(ComputeSDFSurface N Cube).1.map fun V =>
                  FVector.scale s.BlockSize (V.add ⟨p.X, p.Y, p.Z⟩)]
                Normals := st.MeshData.Normals ++ [(ComputeSDFSurface N Cube).2] } 0 with
          | none =>
            rw [a0] at h
            exact absurd h (by simp)
          | some M1 =>
            rw [a0, Option.some_bind] at h
            cases a1 : GenerateMesh.axis s VT p I (cornerMask Cube)
                (AxisFlags.getD (cornerMask Cube &&& AxisMask) 0) st.VertexCount M1 1 with
            | none =>
              rw [a1] at h
              exact absurd h (by simp)
            | some M2 =>
              rw [a1, Option.some_bind] at h
              cases a2 : GenerateMesh.axis s VT p I (cornerMask Cube)
                  (AxisFlags.getD (cornerMask Cube &&& AxisMask) 0) st.VertexCount M2 2 with
              | none =>
                rw [a2] at h
                exact absurd h (by simp)
              | some M3 =>
                rw [a2, Option.some_bind] at h
                simp only [Option.some_bind, pure, Option.some.injEq] at h
                subst h
                exact ⟨hc, rfl, readAt_writeAt_same w1, M1, M2, a0, a1, a2⟩
      · left
        rw [if_neg hc] at h
        simp only [Option.some.injEq] at h
        subst h
        exact ⟨hc, rfl, rfl⟩

theorem marchInv_init (N : FVector → FVector) (s : ASurfaceNets) :
    MarchInv N s s.MeshData [] ⟨List.replicate s.Voxels.length 0, 0, s.MeshData⟩ :=
  ⟨by simp, by simp, by simp, by simp, ⟨[], by simp, rfl, by simp⟩, by simp⟩

theorem march_to_cell (N : FVector → FVector) {s : ASurfaceNets} {P : Nat} (h : Ready s P)
    (pre rest : List FIntVector3) (hl : scanCells (P - 1) = pre ++ rest) :
    ∃ st, pre.foldlM (fun st p => GenerateMesh.cell N s st p (GetVoxelIndex s p))
        ⟨List.replicate s.Voxels.length 0, 0, s.MeshData⟩ = some st ∧
      MarchInv N s s.MeshData pre st := by
  apply foldlM_invariant _ (MarchInv N s s.MeshData)
  · intro pre' x post' st hpre hinv
    apply cell_step N h s.MeshData pre' x (post' ++ rest) st _ hinv
    rw [hl, hpre]
    simp
  · exact marchInv_init N s

theorem visited_before {s : ASurfaceNets} {P : Nat} (h : Ready s P)
    {pre : List FIntVector3} {x : FIntVector3} {post : List FIntVector3}
    (hl : scanCells (P - 1) = pre ++ x :: post) (q : FIntVector3) (hq : InScan P q)
    (hlt : GetVoxelIndex s q < GetVoxelIndex s x) : q ∈ pre := by
  have hpw := scanCells_pairwise h
  rw [hl, List.pairwise_append] at hpw
  obtain ⟨_, hpw2, _⟩ := hpw
  rw [List.pairwise_cons] at hpw2
  rw [← mem_scanCells_iff, hl] at hq
  simp only [List.mem_append, List.mem_cons] at hq
  rcases hq with hq | rfl | hq
  · exact hq
  · exact absurd hlt (lt_irrefl _)
  · exact absurd (hpw2.1 q hq) (not_lt.mpr (le_of_lt hlt))

theorem run_split (N : FVector → FVector) {s : ASurfaceNets} {P : Nat} (h : Ready s P)
    (pre : List FIntVector3) (x : FIntVector3) (post : List FIntVector3)
    (hl : scanCells (P - 1) = pre ++ x :: post) (st st' : MeshState)
    (hpre : pre.foldlM (fun st p => GenerateMesh.cell N s st p (GetVoxelIndex s p))
        ⟨List.replicate s.Voxels.length 0, 0, s.MeshData⟩ = some st)
    (hcell : GenerateMesh.cell N s st x (GetVoxelIndex s x) = some st') :
    GenerateMesh.run N s =
      post.foldlM (fun st p => GenerateMesh.cell N s st p (GetVoxelIndex s p)) st' := by
  unfold GenerateMesh.run
  rw [loopZ_eq]
  have hn : (s.AxisOffsets.Y - 1).toNat = P - 1 := by
    rw [h.2.1]
    simp only
    omega
  rw [hn, hl, List.foldlM_append, hpre]
  simp only [Option.bind_eq_bind, Option.some_bind, List.foldlM_cons, hcell]

theorem cell_triangles (N : FVector → FVector) {s : ASurfaceNets} {P : Nat} (h : Ready s P)
    (pre : List FIntVector3) (x : FIntVector3) (post : List FIntVector3)
    (hl : scanCells (P - 1) = pre ++ x :: post) :
    ∃ st st', pre.foldlM (fun st p => GenerateMesh.cell N s st p (GetVoxelIndex s p))
        ⟨List.replicate s.Voxels.length 0, 0, s.MeshData⟩ = some st ∧
      GenerateMesh.cell N s st x (GetVoxelIndex s x) = some st' ∧
      GenerateMesh.run N s =
        post.foldlM (fun st p => GenerateMesh.cell N s st p (GetVoxelIndex s p)) st' ∧
      ((cornerMask (cubeAt s x) = 0x00 ∨ cornerMask (cubeAt s x) = 0xFF) →
        st'.MeshData = st.MeshData) ∧
      (¬ (cornerMask (cubeAt s x) = 0x00 ∨ cornerMask (cubeAt s x) = 0xFF) →
        readAt st'.VertexTable (GetVoxelIndex s x) = some st.VertexCount ∧
        st'.MeshData.Triangles = st.MeshData.Triangles ++
          axisTriangles s st'.VertexTable x (cornerMask (cubeAt s x)) st.VertexCount 0 ++
          axisTriangles s st'.VertexTable x (cornerMask (cubeAt s x)) st.VertexCount 1 ++
          axisTriangles s st'.VertexTable x (cornerMask (cubeAt s x)) st.VertexCount 2 ∧
        ∀ Axis, Axis < 3 →
          AxisFlags.getD (cornerMask (cubeAt s x) &&& AxisMask) 0 &&& (1 <<< Axis) ≠ 0 →
          ¬ x.get Axis < 1 → ¬ x.get ((Axis + 1) % 3) < 1 → ¬ x.get ((Axis + 2) % 3) < 1 →
          ∃ v1 v2 v3 : Int,
            readAt st'.VertexTable
              (GetVoxelIndex s x - s.AxisOffsets.get ((Axis + 1) % 3)) = some v1 ∧
            readAt st'.VertexTable
              (GetVoxelIndex s x - s.AxisOffsets.get ((Axis + 1) % 3) -
                s.AxisOffsets.get ((Axis + 2) % 3)) = some v2 ∧
            readAt st'.VertexTable
              (GetVoxelIndex s x - s.AxisOffsets.get ((Axis + 2) % 3)) = some v3 ∧
            axisTriangles s st'.VertexTable x (cornerMask (cubeAt s x)) st.VertexCount Axis =
              (if cornerMask (cubeAt s x) &&& 1 = 0
                then [st.VertexCount, v1, v2, st.VertexCount, v2, v3]
                else [st.VertexCount, v3, v2, st.VertexCount, v2, v1])) := by
  have hx : InScan P x := by
    rw [← mem_scanCells_iff, hl]
    simp
  obtain ⟨st, hpre, hinv⟩ := march_to_cell N h pre (x :: post) hl
  obtain ⟨st', hcell, hinv'⟩ := cell_step N h s.MeshData pre x post st hl hinv
  refine ⟨st, st', hpre, hcell, run_split N h pre x post hl st st' hpre hcell, ?_, ?_⟩
  · intro htriv
    obtain ⟨Cube, hrc, hcases⟩ := cell_some hcell
    rw [readCube_eq h hx] at hrc
    have hC : cubeAt s x = Cube := Option.some.inj hrc
    rw [← hC] at hcases
    rcases hcases with ⟨_, hm, _⟩ | ⟨hnt, _⟩
    · exact hm
    · omega
  · intro hnt
    obtain ⟨Cube, hrc, hcases⟩ := cell_some hcell
    rw [readCube_eq h hx] at hrc
    have hC : cubeAt s x = Cube := Option.some.inj hrc
    rw [← hC] at hcases
    have hle := cornerMask_le (cubeAt s x)
    rcases hcases with ⟨hn, _⟩ | ⟨_, _, hown, M1, M2, a0, a1, a2⟩
    · exact absurd (by omega) hn
    · have e0 := axis_spec a0
      have e1 := axis_spec a1
      have e2 := axis_spec a2
      refine ⟨hown, ?_, ?_⟩
      · rw [e2, e1, e0]
      · intro Axis hA hf g0 g1 g2
        have hreads : ∀ I, (I = GetVoxelIndex s x - s.AxisOffsets.get ((Axis + 1) % 3) ∨
            I = GetVoxelIndex s x - s.AxisOffsets.get ((Axis + 1) % 3) -
              s.AxisOffsets.get ((Axis + 2) % 3) ∨
            I = GetVoxelIndex s x - s.AxisOffsets.get ((Axis + 2) % 3)) →
            ∃ v, readAt st'.VertexTable I = some v := by
          intro I hI
          obtain ⟨q, hq, hIq, hlt, _⟩ := neighbours_surface h hx Axis hA hf g1 g2 I hI
          have hqpre := visited_before h hl q hq hlt
          have := hinv'.2.2.2.2.2 q (List.mem_append_left _ hqpre)
          rw [hIq]
          exact ⟨_, this⟩
        obtain ⟨v1, r1⟩ := hreads _ (Or.inl rfl)
        obtain ⟨v2, r2⟩ := hreads _ (Or.inr (Or.inl rfl))
        obtain ⟨v3, r3⟩ := hreads _ (Or.inr (Or.inr rfl))
        refine ⟨v1, v2, v3, r1, r2, r3, ?_⟩
        unfold axisTriangles
        rw [if_neg hf, if_neg (by tauto), r1, r2, r3]

theorem cell_own_vertex (N : FVector → FVector) {s : ASurfaceNets} {P : Nat} (h : Ready s P)
    (hempty : s.MeshData = emptyMesh)
    (pre : List FIntVector3) (x : FIntVector3) (post : List FIntVector3)
    (hl : scanCells (P - 1) = pre ++ x :: post) (st st' : MeshState)
    (hpre : pre.foldlM (fun st p => GenerateMesh.cell N s st p (GetVoxelIndex s p))
        ⟨List.replicate s.Voxels.length 0, 0, s.MeshData⟩ = some st)
    (hcell : GenerateMesh.cell N s st x (GetVoxelIndex s x) = some st')
    (hnt : ¬ (cornerMask (cubeAt s x) = 0x00 ∨ cornerMask (cubeAt s x) = 0xFF)) :
    st.VertexCount = (st.MeshData.Vertices.length : Int) ∧
    st.MeshData.Normals.length = st.MeshData.Vertices.length ∧
    st'.MeshData.Vertices =
      st.MeshData.Vertices ++ [cellVertex N s.BlockSize (cubeAt s x) x] ∧
    st'.MeshData.Normals = st.MeshData.Normals ++ [(ComputeSDFSurface N (cubeAt s x)).2] := by
  obtain ⟨st0, hpre0, hinv⟩ := march_to_cell N h pre (x :: post) hl
  rw [hpre] at hpre0
  obtain rfl := Option.some.inj hpre0
  obtain ⟨st1, hcell1, hinv'⟩ := cell_step N h s.MeshData pre x post st hl hinv
  rw [hcell] at hcell1
  obtain rfl := Option.some.inj hcell1
  have hle := cornerMask_le (cubeAt s x)
  have hsurf : surfaceCell s x = true := by
    unfold surfaceCell isSurface
    simp only [decide_eq_true_eq]
    omega
  obtain ⟨-, hc, hv, hn, -⟩ := hinv
  obtain ⟨-, -, hv', hn', -⟩ := hinv'
  rw [hempty] at hv hn hv' hn'
  simp only [emptyMesh, List.nil_append] at hv hn hv' hn'
  rw [List.filter_append] at hv' hn'
  simp only [List.filter_cons, hsurf, if_true, List.filter_nil, List.map_append,
    List.map_cons, List.map_nil] at hv' hn'
  refine ⟨?_, ?_, ?_, ?_⟩
  · rw [hc, hv, List.length_map]
  · rw [hn, hv, List.length_map, List.length_map]
  · rw [hv', hv]
  · rw [hn', hn]

theorem cell_neighbours (N : FVector → FVector) {s : ASurfaceNets} {P : Nat} (h : Ready s P)
    (pre : List FIntVector3) (x : FIntVector3) (post : List FIntVector3)
    (hl : scanCells (P - 1) = pre ++ x :: post) (st st' : MeshState)
    (hpre : pre.foldlM (fun st p => GenerateMesh.cell N s st p (GetVoxelIndex s p))
        ⟨List.replicate s.Voxels.length 0, 0, s.MeshData⟩ = some st)
    (hcell : GenerateMesh.cell N s st x (GetVoxelIndex s x) = some st')
    (Axis : Nat) (hA : Axis < 3)
    (hf : AxisFlags.getD (cornerMask (cubeAt s x) &&& AxisMask) 0 &&& (1 <<< Axis) ≠ 0)
    (g1 : ¬ x.get ((Axis + 1) % 3) < 1) (g2 : ¬ x.get ((Axis + 2) % 3) < 1) (I : Int)
    (hI : I = GetVoxelIndex s x - s.AxisOffsets.get ((Axis + 1) % 3) ∨
      I = GetVoxelIndex s x - s.AxisOffsets.get ((Axis + 1) % 3) -
        s.AxisOffsets.get ((Axis + 2) % 3) ∨
      I = GetVoxelIndex s x - s.AxisOffsets.get ((Axis + 2) % 3)) :
    ∃ v : Int, readAt st'.VertexTable I = some v ∧ 0 ≤ v ∧ v < st.VertexCount := by
  have hx : InScan P x := by
    rw [← mem_scanCells_iff, hl]
    simp
  obtain ⟨st0, hpre0, hinv⟩ := march_to_cell N h pre (x :: post) hl
  rw [hpre] at hpre0
  obtain rfl := Option.some.inj hpre0
  obtain ⟨st1, hcell1, hinv'⟩ := cell_step N h s.MeshData pre x post st hl hinv
  rw [hcell] at hcell1
  obtain rfl := Option.some.inj hcell1
  obtain ⟨q, hq, hIq, hlt, hs⟩ := neighbours_surface h hx Axis hA hf g1 g2 I hI
  have hqpre := visited_before h hl q hq hlt
  have hread := hinv'.2.2.2.2.2 q (List.mem_append_left _ hqpre)
  rw [hs, if_pos rfl] at hread
  have hmem : q ∈ pre.filter (surfaceCell s) := List.mem_filter.mpr ⟨hqpre, hs⟩
  rw [List.filter_append, List.indexOf_append_of_mem hmem] at hread
  refine ⟨_, hIq ▸ hread, Int.natCast_nonneg _, ?_⟩
  rw [hinv.2.1]
  exact_mod_cast List.indexOf_lt_length.mpr hmem

/-- C13: for every cell `x` of the march of a chunk laid out by `Setup` whose mesh sequences
are empty on entry, with `st` the state on arrival at the cell and `st'` the state after it
(the march continues from `st'`): a trivial-mask cell leaves the mesh as it is; a cell with a
non-trivial mask appends its own vertex at index `new = VertexCount` of `MeshData.Vertices`,
records `new` in `VertexTable`, and appends, for the axes 0, 1, 2 in turn, nothing when the
flag bit of the axis in `AxisFlags[Mask & 0x1F]` is clear or when the coordinate of the cell on
the axis or on either orthogonal axis `o1 = (a + 1) mod 3`, `o2 = (a + 2) mod 3` is `< 1`, and
otherwise exactly the six indices of `(new, n1, n2)` and `(new, n2, n3)`, where `v1`, `v2`,
`v3` are the `VertexTable` entries at the cell's flat index minus the stride of `o1`, minus
both strides, minus the stride of `o2` (indices of vertices appended earlier), and
`(n1, n2, n3)` is `(v1, v2, v3)` when bit 0 of the mask is clear and `(v3, v2, v1)` when it is
set. -/
theorem quads_per_cell (N : FVector → FVector) (s : ASurfaceNets) (P : Nat)
    (pre : List FIntVector3) (x : FIntVector3) (post : List FIntVector3) (h : Ready s P)
    (hempty : s.MeshData = emptyMesh)
    (hl : scanCells (P - 1) = pre ++ x :: post) :
    ∃ st st', pre.foldlM (fun st p => GenerateMesh.cell N s st p (GetVoxelIndex s p))
        ⟨List.replicate s.Voxels.length 0, 0, s.MeshData⟩ = some st ∧
      GenerateMesh.cell N s st x (GetVoxelIndex s x) = some st' ∧
      GenerateMesh.run N s =
        post.foldlM (fun st p => GenerateMesh.cell N s st p (GetVoxelIndex s p)) st' ∧
      ((cornerMask (cubeAt s x) = 0x00 ∨ cornerMask (cubeAt s x) = 0xFF) →
        st'.MeshData = st.MeshData) ∧
      (¬ (cornerMask (cubeAt s x) = 0x00 ∨ cornerMask (cubeAt s x) = 0xFF) →
        readAt st'.VertexTable (GetVoxelIndex s x) = some st.VertexCount ∧
        st.VertexCount = (st.MeshData.Vertices.length : Int) ∧
        st'.MeshData.Vertices =
          st.MeshData.Vertices ++ [cellVertex N s.BlockSize (cubeAt s x) x] ∧
        st'.MeshData.Vertices[st.VertexCount.toNat]? =
          some (cellVertex N s.BlockSize (cubeAt s x) x) ∧
        st'.MeshData.Triangles = st.MeshData.Triangles ++
          axisTriangles s st'.VertexTable x (cornerMask (cubeAt s x)) st.VertexCount 0 ++
          axisTriangles s st'.VertexTable x (cornerMask (cubeAt s x)) st.VertexCount 1 ++
          axisTriangles s st'.VertexTable x (cornerMask (cubeAt s x)) st.VertexCount 2 ∧
        (∀ Axis, Axis < 3 →
          (AxisFlags.getD (cornerMask (cubeAt s x) &&& AxisMask) 0 &&& (1 <<< Axis) = 0 ∨
            x.get Axis < 1 ∨ x.get ((Axis + 1) % 3) < 1 ∨ x.get ((Axis + 2) % 3) < 1) →
          axisTriangles s st'.VertexTable x (cornerMask (cubeAt s x)) st.VertexCount Axis = []) ∧
        ∀ Axis, Axis < 3 →
          AxisFlags.getD (cornerMask (cubeAt s x) &&& AxisMask) 0 &&& (1 <<< Axis) ≠ 0 →
          ¬ x.get Axis < 1 → ¬ x.get ((Axis + 1) % 3) < 1 → ¬ x.get ((Axis + 2) % 3) < 1 →
          ∃ v1 v2 v3 : Int,
            readAt st'.VertexTable
              (GetVoxelIndex s x - s.AxisOffsets.get ((Axis + 1) % 3)) = some v1 ∧
            readAt st'.VertexTable
              (GetVoxelIndex s x - s.AxisOffsets.get ((Axis + 1) % 3) -
                s.AxisOffsets.get ((Axis + 2) % 3)) = some v2 ∧
            readAt st'.VertexTable
              (GetVoxelIndex s x - s.AxisOffsets.get ((Axis + 2) % 3)) = some v3 ∧
            (0 ≤ v1 ∧ v1 < st.VertexCount) ∧ (0 ≤ v2 ∧ v2 < st.VertexCount) ∧
            (0 ≤ v3 ∧ v3 < st.VertexCount) ∧
            axisTriangles s st'.VertexTable x (cornerMask (cubeAt s x)) st.VertexCount Axis =
              (if cornerMask (cubeAt s x) &&& 1 = 0
                then [st.VertexCount, v1, v2, st.VertexCount, v2, v3]
                else [st.VertexCount, v3, v2, st.VertexCount, v2, v1])) := by
  obtain ⟨st, st', h1, h2, h3, h4, h5⟩ := cell_triangles N h pre x post hl
  refine ⟨st, st', h1, h2, h3, h4, ?_⟩
  intro hnt
  obtain ⟨a, b, c⟩ := h5 hnt
  obtain ⟨o1, -, o2, -⟩ := cell_own_vertex N h hempty pre x post hl st st' h1 h2 hnt
  refine ⟨a, o1, o2, ?_, b, ?_, ?_⟩
  · rw [o2, o1, Int.toNat_ofNat]
    simp
  · intro Axis _ hskip
    unfold axisTriangles
    by_cases hf : AxisFlags.getD (cornerMask (cubeAt s x) &&& AxisMask) 0 &&& (1 <<< Axis) = 0
    · rw [if_pos hf]
    · rw [if_neg hf, if_pos (by tauto)]
  · intro Axis hA hf g0 g1 g2
    obtain ⟨v1, v2, v3, r1, r2, r3, e⟩ := c Axis hA hf g0 g1 g2
    have hb : ∀ I v, (I = GetVoxelIndex s x - s.AxisOffsets.get ((Axis + 1) % 3) ∨
        I = GetVoxelIndex s x - s.AxisOffsets.get ((Axis + 1) % 3) -
          s.AxisOffsets.get ((Axis + 2) % 3) ∨
        I = GetVoxelIndex s x - s.AxisOffsets.get ((Axis + 2) % 3)) →
        readAt st'.VertexTable I = some v → 0 ≤ v ∧ v < st.VertexCount := by
      intro I v hI hr
      obtain ⟨w, hw, hw0, hw1⟩ :=
        cell_neighbours N h pre x post hl st st' h1 h2 Axis hA hf g1 g2 I hI
      rw [hr] at hw
      obtain rfl := Option.some.inj hw
      exact ⟨hw0, hw1⟩
    exact ⟨v1, v2, v3, r1, r2, r3, hb _ v1 (Or.inl rfl) r1, hb _ v2 (Or.inr (Or.inl rfl)) r2,
      hb _ v3 (Or.inr (Or.inr rfl)) r3, e⟩

/-- Witness of C13: the last cell `(1, 1, 1)` of the march of the sample chunk, reached after
the seven other cells.  Its mask is 1, all three axes are flagged and unguarded, its own
vertex is number 7, and it appends the 18 indices of three quads. -/
theorem quads_per_cell_witness :
    Ready sampleChunk 3 ∧ sampleChunk.MeshData = emptyMesh ∧
    scanCells (3 - 1) = (scanCells 2).take 7 ++ (⟨1, 1, 1⟩ : FIntVector3) :: [] ∧
    cornerMask (cubeAt sampleChunk ⟨1, 1, 1⟩) = 1 ∧
    (∃ st st', ((scanCells 2).take 7).foldlM
        (fun st p => GenerateMesh.cell id sampleChunk st p (GetVoxelIndex sampleChunk p))
        ⟨List.replicate sampleChunk.Voxels.length 0, 0, sampleChunk.MeshData⟩ = some st ∧
      GenerateMesh.cell id sampleChunk st ⟨1, 1, 1⟩ (GetVoxelIndex sampleChunk ⟨1, 1, 1⟩) =
        some st' ∧
      readAt st'.VertexTable (GetVoxelIndex sampleChunk ⟨1, 1, 1⟩) = some st.VertexCount ∧
      st'.MeshData.Vertices[st.VertexCount.toNat]? =
        some (cellVertex id sampleChunk.BlockSize (cubeAt sampleChunk ⟨1, 1, 1⟩) ⟨1, 1, 1⟩) ∧
      st'.MeshData.Triangles = st.MeshData.Triangles ++
        axisTriangles sampleChunk st'.VertexTable ⟨1, 1, 1⟩
          (cornerMask (cubeAt sampleChunk ⟨1, 1, 1⟩)) st.VertexCount 0 ++
        axisTriangles sampleChunk st'.VertexTable ⟨1, 1, 1⟩
          (cornerMask (cubeAt sampleChunk ⟨1, 1, 1⟩)) st.VertexCount 1 ++
        axisTriangles sampleChunk st'.VertexTable ⟨1, 1, 1⟩
          (cornerMask (cubeAt sampleChunk ⟨1, 1, 1⟩)) st.VertexCount 2 ∧
      ∃ v1 v2 v3 : Int,
        readAt st'.VertexTable (GetVoxelIndex sampleChunk ⟨1, 1, 1⟩ -
          sampleChunk.AxisOffsets.get ((0 + 1) % 3)) = some v1 ∧
        readAt st'.VertexTable (GetVoxelIndex sampleChunk ⟨1, 1, 1⟩ -
          sampleChunk.AxisOffsets.get ((0 + 1) % 3) -
            sampleChunk.AxisOffsets.get ((0 + 2) % 3)) = some v2 ∧
        readAt st'.VertexTable (GetVoxelIndex sampleChunk ⟨1, 1, 1⟩ -
          sampleChunk.AxisOffsets.get ((0 + 2) % 3)) = some v3 ∧
        axisTriangles sampleChunk st'.VertexTable ⟨1, 1, 1⟩
            (cornerMask (cubeAt sampleChunk ⟨1, 1, 1⟩)) st.VertexCount 0 =
          (if cornerMask (cubeAt sampleChunk ⟨1, 1, 1⟩) &&& 1 = 0
            then [st.VertexCount, v1, v2, st.VertexCount, v2, v3]
            else [st.VertexCount, v3, v2, st.VertexCount, v2, v1])) ∧
    (GenerateMesh.run id sampleChunk).map (fun st => st.MeshData.Triangles) =
      some [7, 3, 1, 7, 1, 5, 7, 6, 2, 7, 2, 3, 7, 5, 4, 7, 4, 6] := by
  have hl : scanCells (3 - 1) = (scanCells 2).take 7 ++ (⟨1, 1, 1⟩ : FIntVector3) :: [] := by
    decide
  have hm : cornerMask (cubeAt sampleChunk ⟨1, 1, 1⟩) = 1 := by with_unfolding_all decide
  refine ⟨sampleChunk_ready, rfl, hl, hm, ?_, by with_unfolding_all decide⟩
  obtain ⟨st, st', h1, h2, -, -, h5⟩ :=
    quads_per_cell id sampleChunk 3 ((scanCells 2).take 7) ⟨1, 1, 1⟩ [] sampleChunk_ready rfl hl
  obtain ⟨a, -, -, d, e, -, g⟩ := h5 (by rw [hm]; decide)
  obtain ⟨v1, v2, v3, r1, r2, r3, -, -, -, t⟩ :=
    g 0 (by decide) (by rw [hm]; decide) (by decide) (by decide) (by decide)
  exact ⟨st, st', h1, h2, a, d, e, v1, v2, v3, r1, r2, r3, t⟩

/-! ## Machine numbers: basic facts -/

theorem pow2_pos (e : Int) : 0 < pow2 e := by
  unfold pow2
  have h : ∀ n : Nat, (0 : ℚ) < ((1 <<< n : Nat) : ℚ) := by
    intro n
    rw [Nat.one_shiftLeft]
    positivity
  split
  · exact h _
  · exact div_pos one_pos (h _)

theorem round_cases (F : Format) (Sign : Bool) (q : ℚ) :
    (∃ m, 0 ≤ m ∧ Binary.round F Sign q = Binary.finite Sign m) ∨
      Binary.round F Sign q = Binary.infinite Sign := by
  unfold Binary.round
  split
  · exact Or.inl ⟨0, le_refl _, rfl⟩
  · dsimp only
    split
    · exact Or.inr rfl
    · refine Or.inl ⟨_, ?_, rfl⟩
      exact mul_nonneg (Nat.cast_nonneg _) (le_of_lt (pow2_pos _))

theorem zero_lt_round_neg (F : Format) (q : ℚ) :
    Binary.lt Binary.zero (Binary.round F true q) = false := by
  rcases round_cases F true q with ⟨m, hm, he⟩ | he
  · rw [he]
    simp only [Binary.lt, Binary.zero, signed, decide_eq_false_iff_not, not_lt]
    simp only [Bool.false_eq_true, if_false, if_true]
    linarith
  · rw [he]
    rfl

theorem ofInt_two : Binary.ofInt single 2 = Binary.finite false 2 := by decide!

theorem ofInt_one : Binary.ofInt single 1 = Binary.finite false 1 := by decide!

theorem ofInt_neg_one : Binary.ofInt single (-1) = Binary.finite true 1 := by decide!

theorem max_sub_far {D : Binary} (h1 : Binary.lt D (Binary.ofInt single 2) = false)
    (h2 : Binary.isNaN D = false) :
    Binary.max (Binary.sub single (Binary.ofInt single 2) D) Binary.zero = Binary.zero := by
  rw [ofInt_two] at h1 ⊢
  unfold Binary.max
  have key : Binary.lt Binary.zero (Binary.sub single (Binary.finite false 2) D) = false := by
    cases D with
    | nan s => simp [Binary.isNaN] at h2
    | infinite t =>
      simp only [Binary.lt] at h1
      subst h1
      rfl
    | finite t n =>
      simp only [Binary.lt, decide_eq_false_iff_not, not_lt] at h1
      have hs : signed false 2 = 2 := rfl
      rw [hs] at h1
      simp only [Binary.sub, Binary.ofExact, hs]
      split
      · linarith
      · split
        · exact zero_lt_round_neg _ _
        · simp [Binary.lt, Binary.zero, signed]
  rw [key]
  simp

theorem add_zero_of_valid {x : Binary} (hv : Binary.Valid single x)
    (hx : x ≠ Binary.finite true 0) : Binary.add single x Binary.zero = x := by
  cases x with
  | nan s => rfl
  | infinite s => rfl
  | finite s m =>
    obtain ⟨hm, hr⟩ := hv
    simp only [Binary.add, Binary.zero, Binary.ofExact]
    have h0 : signed false 0 = 0 := rfl
    rw [h0, add_zero]
    rcases eq_or_lt_of_le hm with h | h
    · subst h
      cases s
      · simp [signed]
      · exact absurd rfl hx
    · cases s
      · have : signed false m = m := rfl
        rw [this, if_pos h]
        exact hr
      · have : signed true m = -m := rfl
        rw [this, if_neg (by linarith), if_pos (by linarith), neg_neg]
        exact hr

theorem add_negzero_of_valid {x : Binary} (hv : Binary.Valid single x) :
    Binary.add single x (Binary.finite true 0) = x := by
  cases x with
  | nan s => rfl
  | infinite s => rfl
  | finite s m =>
    obtain ⟨hm, hr⟩ := hv
    simp only [Binary.add, Binary.ofExact]
    have h0 : signed true 0 = 0 := by simp [signed]
    rw [h0, add_zero]
    rcases eq_or_lt_of_le hm with h | h
    · subst h
      cases s <;> simp [signed]
    · cases s
      · have : signed false m = m := rfl
        rw [this, if_pos h]
        exact hr
      · have : signed true m = -m := rfl
        rw [this, if_neg (by linarith), if_pos (by linarith), neg_neg]
        exact hr

theorem negzero_add_zero :
    Binary.add single (Binary.finite true 0) Binary.zero = Binary.zero := by decide!

/-! ## The brush over machine numbers -/

theorem machine_inField_of_inValid {s : Machine.ASurfaceNets} {P : Nat}
    (h : Machine.Ready s P) {q : FIntVector3} (hq : Machine.InValid s q) : InField P q := by
  have hs := h.1
  obtain ⟨h1, h2, h3, h4, h5, h6⟩ := hq
  simp only [InField]
  omega

theorem machine_index_bounds {s : Machine.ASurfaceNets} {P : Nat} (h : Machine.Ready s P)
    {p : FIntVector3} (hp : InField P p) :
    0 ≤ Machine.GetVoxelIndex s p ∧ (Machine.GetVoxelIndex s p).toNat < s.Voxels.length := by
  have hb := GetVoxelIndex_bounds (shadowChunk_ready h) hp
  rw [machine_index_shadow h hp]
  refine ⟨hb.1, ?_⟩
  have := hb.2
  simpa [shadowChunk] using this

theorem machine_index_inj {s : Machine.ASurfaceNets} {P : Nat} (h : Machine.Ready s P)
    {p q : FIntVector3} (hp : InField P p) (hq : InField P q)
    (he : Machine.GetVoxelIndex s p = Machine.GetVoxelIndex s q) : p = q := by
  rw [machine_index_shadow h hp, machine_index_shadow h hq] at he
  exact GetVoxelIndex_inj (shadowChunk_ready h) hp hq he

theorem machine_density_eq {s : Machine.ASurfaceNets} {P : Nat} (h : Machine.Ready s P)
    {q : FIntVector3} (hq : InField P q) :
    readAt s.Voxels (Machine.GetVoxelIndex s q) = some (Machine.density s q) := by
  obtain ⟨h0, h1⟩ := machine_index_bounds h hq
  unfold Machine.density
  rw [readAt_of_lt _ _ h0 h1]
  rfl

theorem machine_body_step (Sqrt : Binary → Binary) {s : Machine.ASurfaceNets} {P : Nat}
    (h : Machine.Ready s P) (Radius Strength : Binary) (Start : FIntVector3)
    (pre : List FIntVector3) (x : FIntVector3) (V : List Binary) (hxpre : x ∉ pre)
    (hinv : Machine.BrushInv Sqrt s P Radius Strength Start pre V) :
    ∃ V', Machine.ModifyVoxelData.body Sqrt s Radius Strength Start V x = some V' ∧
      Machine.BrushInv Sqrt s P Radius Strength Start (pre ++ [x]) V' := by
  obtain ⟨hlen, hval⟩ := hinv
  unfold Machine.ModifyVoxelData.body
  dsimp only
  by_cases hv : Machine.InValid s ⟨x.X + Start.X, x.Y + Start.Y, x.Z + Start.Z⟩
  · have hv' := hv
    unfold Machine.InValid at hv'
    dsimp only at hv'
    rw [if_pos hv']
    have hf := machine_inField_of_inValid h hv
    have hr := hval _ hf
    have hsub : (⟨x.X + Start.X, x.Y + Start.Y, x.Z + Start.Z⟩ : FIntVector3).sub Start = x :=
      (sub_eq_iff _ _ _).mpr rfl
    rw [hsub, if_neg (fun hc => hxpre hc.1)] at hr
    rw [hr, Option.some_bind]
    obtain ⟨h0, h1⟩ := machine_index_bounds h hf
    have w := writeAt_of_lt V
      (Machine.GetVoxelIndex s ⟨x.X + Start.X, x.Y + Start.Y, x.Z + Start.Z⟩)
      (Binary.add single (Machine.density s ⟨x.X + Start.X, x.Y + Start.Y, x.Z + Start.Z⟩)
        (Binary.mul single Strength (Binary.max (Binary.sub single Radius
          (Sqrt (Binary.ofInt single (x.Z * x.Z + x.Y * x.Y + x.X * x.X)))) Binary.zero)))
      h0 (by rw [hlen]; exact h1)
    refine ⟨_, w, ?_, ?_⟩
    · rw [List.length_set]
      exact hlen
    · intro q hq
      by_cases hqx : q.sub Start = x
      · have hqe := (sub_eq_iff _ _ _).mp hqx
        subst hqe
        rw [readAt_writeAt_same w, hsub, if_pos ⟨by simp, hv⟩]
        rfl
      · have hne : Machine.GetVoxelIndex s q ≠
            Machine.GetVoxelIndex s ⟨x.X + Start.X, x.Y + Start.Y, x.Z + Start.Z⟩ := by
          intro he
          exact hqx ((sub_eq_iff _ _ _).mpr (machine_index_inj h hq hf he))
        rw [readAt_writeAt_ne w hne, hval q hq]
        have hmem : (q.sub Start ∈ pre ++ [x]) ↔ q.sub Start ∈ pre := by
          simp [hqx]
        simp only [hmem]
  · have hv' := hv
    unfold Machine.InValid at hv'
    dsimp only at hv'
    rw [if_neg hv']
    refine ⟨V, rfl, hlen, ?_⟩
    intro q hq
    rw [hval q hq]
    by_cases hqx : q.sub Start = x
    · have hqe := (sub_eq_iff _ _ _).mp hqx
      have hnv : ¬ Machine.InValid s q := by rw [hqe]; exact hv
      rw [if_neg (fun hc => hnv hc.2), if_neg (fun hc => hnv hc.2)]
    · have hmem : (q.sub Start ∈ pre ++ [x]) ↔ q.sub Start ∈ pre := by
        simp [hqx]
      simp only [hmem]

theorem machine_fold_offsets (Sqrt : Binary → Binary) {s : Machine.ASurfaceNets} {P : Nat}
    (h : Machine.Ready s P) (Radius Strength : Binary) (Start : FIntVector3)
    (offs : List FIntVector3) (hnd : offs.Nodup) :
    ∃ V', offs.foldlM (Machine.ModifyVoxelData.body Sqrt s Radius Strength Start) s.Voxels =
        some V' ∧
      Machine.BrushInv Sqrt s P Radius Strength Start offs V' := by
  apply foldlM_invariant _ (Machine.BrushInv Sqrt s P Radius Strength Start)
  · intro pre x post V hl hinv
    have hxpre : x ∉ pre := by
      intro hm
      rw [hl] at hnd
      exact (List.nodup_append.mp hnd).2.2 hm (by simp)
    exact machine_body_step Sqrt h Radius Strength Start pre x V hxpre hinv
  · refine ⟨rfl, ?_⟩
    intro q hq
    rw [machine_density_eq h hq]
    simp

theorem machine_loops_eq (Sqrt : Binary → Binary) (s : Machine.ASurfaceNets)
    (Radius Strength : Binary) (Start : FIntVector3) (V : List Binary) :
    Machine.ModifyVoxelData.loops Sqrt s Radius Strength Start V =
      brushOffsets.foldlM (Machine.ModifyVoxelData.body Sqrt s Radius Strength Start) V := by
  unfold brushOffsets Machine.ModifyVoxelData.loops
  rw [foldlM_flatMap]
  congr 1
  funext V Z
  rw [foldlM_flatMap]
  congr 1

theorem machine_modify_spec (Sqrt : Binary → Binary) {s : Machine.ASurfaceNets} {P : Nat}
    (h : Machine.Ready s P) (c : FIntVector3) (Block : EVoxelTutorialBlock) :
    ∃ V', Machine.ModifyVoxelData Sqrt s c Block = some { s with Voxels := V' } ∧
      Machine.Ready { s with Voxels := V' } P ∧
      ∀ q, InField P q → Machine.density { s with Voxels := V' } q =
        (if q.sub c ∈ brushOffsets ∧ Machine.InValid s q
          then Binary.add single (Machine.density s q)
            (Machine.brushAmount Sqrt (Binary.ofInt single 2)
              (if Block = EVoxelTutorialBlock.Air then Binary.ofInt single 1
                else Binary.ofInt single (-1)) (q.sub c))
          else Machine.density s q) := by
  obtain ⟨V', hV', hlen, hval⟩ := machine_fold_offsets Sqrt h (Binary.ofInt single 2)
    (if Block = EVoxelTutorialBlock.Air then Binary.ofInt single 1
      else Binary.ofInt single (-1)) c brushOffsets brushOffsets_nodup
  rw [← machine_loops_eq] at hV'
  refine ⟨V', ?_, ⟨h.1, h.2.1, ?_, h.2.2.2⟩, ?_⟩
  · unfold Machine.ModifyVoxelData
    dsimp only
    rw [hV']
    rfl
  · simp only
    rw [hlen]
    exact h.2.2.1
  · intro q hq
    have := hval q hq
    unfold Machine.density
    have hidx : Machine.GetVoxelIndex { s with Voxels := V' } q =
        Machine.GetVoxelIndex s q := rfl
    rw [hidx]
    simp only
    rw [this]
    rfl

theorem sqDist_le_of_mem {o : FIntVector3} (h : o ∈ symmetricOffsets) : sqDist o ≤ 12 := by
  rw [mem_symmetricOffsets] at h
  obtain ⟨⟨hx0, hx1⟩, ⟨hy0, hy1⟩, ⟨hz0, hz1⟩⟩ := h
  unfold sqDist
  nlinarith

theorem brushOffsets_subset {o : FIntVector3} (h : o ∈ brushOffsets) :
    o ∈ symmetricOffsets := by
  rw [mem_brushOffsets] at h
  rw [mem_symmetricOffsets]
  omega

theorem mul_one_zero :
    Binary.mul single (Binary.ofInt single 1) Binary.zero = Binary.zero := by decide!

theorem mul_neg_one_zero :
    Binary.mul single (Binary.ofInt single (-1)) Binary.zero = Binary.finite true 0 := by
  decide!

theorem machine_amount_far {Sqrt : Binary → Binary}
    (hSqrt : ∀ n : Int, 4 ≤ n → n ≤ 12 →
      Binary.lt (Sqrt (Binary.ofInt single n)) (Binary.ofInt single 2) = false ∧
      Binary.isNaN (Sqrt (Binary.ofInt single n)) = false)
    (Strength : Binary) {o : FIntVector3} (h4 : 4 ≤ sqDist o) (h12 : sqDist o ≤ 12) :
    Machine.brushAmount Sqrt (Binary.ofInt single 2) Strength o =
      Binary.mul single Strength Binary.zero := by
  unfold Machine.brushAmount
  obtain ⟨h1, h2⟩ := hSqrt (sqDist o) h4 h12
  rw [max_sub_far h1 h2]

theorem machine_density_mem {s : Machine.ASurfaceNets} {P : Nat} (h : Machine.Ready s P)
    {q : FIntVector3} (hq : InField P q) : Machine.density s q ∈ s.Voxels := by
  obtain ⟨h0, h1⟩ := machine_index_bounds h hq
  unfold Machine.density
  rw [readAt_of_lt _ _ h0 h1]
  exact List.get_mem _ _ _

theorem sqrtTable_ok : ∀ n : Int, 4 ≤ n → n ≤ 12 →
    Binary.lt (sqrtTable (Binary.ofInt single n)) (Binary.ofInt single 2) = false ∧
    Binary.isNaN (sqrtTable (Binary.ofInt single n)) = false := by
  intro n h4 h12
  have : n = 4 ∨ n = 5 ∨ n = 6 ∨ n = 7 ∨ n = 8 ∨ n = 9 ∨ n = 10 ∨ n = 11 ∨ n = 12 := by omega
  rcases this with h | h | h | h | h | h | h | h | h <;> subst h <;> decide!

theorem machine_brushChunk_ready : Machine.Ready Machine.brushChunk 5 :=
  ⟨by decide, by decide, by simp [Machine.brushChunk], by decide⟩

set_option maxRecDepth 1000000 in
theorem machine_brushChunk_valid : ∀ v ∈ Machine.brushChunk.Voxels, Binary.Valid single v := by
  decide!

/-- C4 fails as stated: on the chunk of size 3 with the brush centred at `(1, 1, 1)` (all
neighbours in the valid range) the `Air` brush turns the `-0.0f` stored at `(1, 1, 3)`, at
distance 2 from the centre, into `+0.0f`, so a cell outside the radius does not keep its
value (its sign bit changes); and the `0.1f` at the centre becomes the `float` nearest to
`0.1f + 2`, which is not `0.1f + 2`. -/
theorem brush_clear_rounds_and_flips_zero :
    Machine.Ready Machine.brushChunk 5 ∧
    ((1 : Int) ≤ 1 ∧ (1 : Int) + 1 ≤ Machine.brushChunk.Size) ∧
    sqDist ((⟨1, 1, 3⟩ : FIntVector3).sub ⟨1, 1, 1⟩) = 4 ∧
    Machine.density Machine.brushChunk ⟨1, 1, 3⟩ = Binary.finite true 0 ∧
    Machine.density Machine.brushChunk ⟨1, 1, 1⟩ = Binary.finite false (13421773 / 134217728) ∧
    (Machine.ModifyVoxelData sqrtTable Machine.brushChunk ⟨1, 1, 1⟩
        EVoxelTutorialBlock.Air).map
      (fun s' => (Machine.density s' ⟨1, 1, 3⟩, Machine.density s' ⟨1, 1, 1⟩)) =
      some (Binary.finite false 0, Binary.finite false (4404019 / 2097152)) ∧
    Binary.finite false 0 ≠ Binary.finite true 0 ∧
    (4404019 / 2097152 : ℚ) ≠ 13421773 / 134217728 + (2 - 0) := by
  refine ⟨machine_brushChunk_ready, by decide, by decide, by decide!, by decide!, ?_,
    by decide, by norm_num⟩
  decide!

/-- C4 as amended, over machine numbers: for a chunk laid out by `Setup` whose buffer holds
`float` values, and a brush centre whose neighbours `centre + [-1,1]³` all lie in the valid
range `[0, Size]³`, `ModifyVoxelData` with `Block == Air` returns, keeps the buffer length, and
changes the field as follows.  A cell at squared distance `d² < 4` from the centre holds the
`float` sum of its density and of `1.0f * Max(2 - d, 0.0f)`, where `d = Sqrt(d²)` is the
distance the code computes; every other cell keeps its density, except that one that stores
`-0.0f` and is visited by the loops inside the valid range is left holding `+0.0f`.  `Sqrt`
stands for `FMath::Sqrt`, assumed to return a number not less than 2 for the squared lengths
4 to 12. -/
theorem brush_clear_float_effect (Sqrt : Binary → Binary) (s : Machine.ASurfaceNets) (P : Nat)
    (c : FIntVector3) (h : Machine.Ready s P)
    (hvalid : ∀ v ∈ s.Voxels, Binary.Valid single v)
    (hSqrt : ∀ n : Int, 4 ≤ n → n ≤ 12 →
      Binary.lt (Sqrt (Binary.ofInt single n)) (Binary.ofInt single 2) = false ∧
      Binary.isNaN (Sqrt (Binary.ofInt single n)) = false)
    (hc : (1 ≤ c.X ∧ c.X + 1 ≤ s.Size) ∧ (1 ≤ c.Y ∧ c.Y + 1 ≤ s.Size) ∧
      (1 ≤ c.Z ∧ c.Z + 1 ≤ s.Size)) :
    ∃ s', Machine.ModifyVoxelData Sqrt s c EVoxelTutorialBlock.Air = some s' ∧
      s'.Voxels.length = s.Voxels.length ∧
      ∀ q, InField P q →
        (sqDist (q.sub c) < 4 →
          Machine.density s' q = Binary.add single (Machine.density s q)
            (Binary.mul single (Binary.ofInt single 1)
              (Binary.max (Binary.sub single (Binary.ofInt single 2)
                (Sqrt (Binary.ofInt single (sqDist (q.sub c))))) Binary.zero))) ∧
        (4 ≤ sqDist (q.sub c) → Machine.density s q ≠ Binary.finite true 0 →
          Machine.density s' q = Machine.density s q) ∧
        (4 ≤ sqDist (q.sub c) → Machine.density s q = Binary.finite true 0 →
          Machine.density s' q =
            if q.sub c ∈ brushOffsets ∧ Machine.InValid s q then Binary.finite false 0
            else Binary.finite true 0) := by
  obtain ⟨V', hrun, hready, hval⟩ := machine_modify_spec Sqrt h c EVoxelTutorialBlock.Air
  refine ⟨_, hrun, ?_, ?_⟩
  · rw [hready.2.2.1, h.2.2.1]
  · intro q hq
    rw [hval q hq]
    simp only [if_true]
    have hfar : 4 ≤ sqDist (q.sub c) → q.sub c ∈ brushOffsets →
        Machine.brushAmount Sqrt (Binary.ofInt single 2) (Binary.ofInt single 1) (q.sub c) =
          Binary.zero := by
      intro hd hm
      rw [machine_amount_far hSqrt _ hd (sqDist_le_of_mem (brushOffsets_subset hm)),
        mul_one_zero]
    refine ⟨?_, ?_, ?_⟩
    · intro hd
      have hn := near_offsets hd
      have hmem : q.sub c ∈ brushOffsets := by
        rw [mem_brushOffsets]
        omega
      have hv : Machine.InValid s q := by
        simp only [FIntVector3.sub] at hn
        simp only [Machine.InValid]
        omega
      rw [if_pos ⟨hmem, hv⟩]
      rfl
    · intro hd hnz
      split
      · rename_i hm
        rw [hfar hd hm.1]
        exact add_zero_of_valid (hvalid _ (machine_density_mem h hq)) hnz
      · rfl
    · intro hd hz
      split
      · rename_i hm
        rw [hfar hd hm.1, hz]
        exact negzero_add_zero
      · exact hz

/-- Witness of C4: the chunk of size 3 with the brush centred at `(1, 1, 1)`, with the values
of `sqrtf`.  The cell `(2, 1, 1)` at distance 1 goes from `1.0f` to `2.0f`, and the cell
`(4, 4, 4)` keeps its `1.0f`. -/
theorem brush_clear_float_effect_witness :
    Machine.Ready Machine.brushChunk 5 ∧
    (∀ v ∈ Machine.brushChunk.Voxels, Binary.Valid single v) ∧
    (∃ s', Machine.ModifyVoxelData sqrtTable Machine.brushChunk ⟨1, 1, 1⟩
        EVoxelTutorialBlock.Air = some s' ∧
      s'.Voxels.length = Machine.brushChunk.Voxels.length ∧
      ∀ q, InField 5 q →
        (sqDist (q.sub ⟨1, 1, 1⟩) < 4 →
          Machine.density s' q = Binary.add single (Machine.density Machine.brushChunk q)
            (Binary.mul single (Binary.ofInt single 1)
              (Binary.max (Binary.sub single (Binary.ofInt single 2)
                (sqrtTable (Binary.ofInt single (sqDist (q.sub ⟨1, 1, 1⟩))))) Binary.zero))) ∧
        (4 ≤ sqDist (q.sub ⟨1, 1, 1⟩) →
          Machine.density Machine.brushChunk q ≠ Binary.finite true 0 →
          Machine.density s' q = Machine.density Machine.brushChunk q) ∧
        (4 ≤ sqDist (q.sub ⟨1, 1, 1⟩) →
          Machine.density Machine.brushChunk q = Binary.finite true 0 →
          Machine.density s' q =
            if q.sub ⟨1, 1, 1⟩ ∈ brushOffsets ∧ Machine.InValid Machine.brushChunk q
              then Binary.finite false 0 else Binary.finite true 0)) ∧
    (Machine.ModifyVoxelData sqrtTable Machine.brushChunk ⟨1, 1, 1⟩
        EVoxelTutorialBlock.Air).map
      (fun s' => (Machine.density s' ⟨2, 1, 1⟩, Machine.density s' ⟨4, 4, 4⟩)) =
      some (Binary.finite false 2, Binary.finite false 1) :=
  ⟨machine_brushChunk_ready, machine_brushChunk_valid,
    brush_clear_float_effect sqrtTable Machine.brushChunk 5 ⟨1, 1, 1⟩ machine_brushChunk_ready
      machine_brushChunk_valid sqrtTable_ok (by decide),
    by decide!⟩

/-! ## The loop bounds of the brush over machine numbers -/

theorem machine_voxels_ext {s : Machine.ASurfaceNets} {P : Nat} (h : Machine.Ready s P)
    (V V' : List Binary) (hV : V.length = s.Voxels.length) (hV' : V'.length = s.Voxels.length)
    (hq : ∀ q, InField P q →
      readAt V (Machine.GetVoxelIndex s q) = readAt V' (Machine.GetVoxelIndex s q)) :
    V = V' := by
  apply List.ext_getElem?
  intro n
  by_cases hn : n < s.Voxels.length
  · have h0 : (0 : Int) ≤ (n : Int) := Int.natCast_nonneg n
    have h1 : (n : Int) < (P : Int) * P * P := by
      have : n < P * P * P := by rw [← h.2.2.1]; exact hn
      exact_mod_cast this
    obtain ⟨q, hqf, he⟩ := flat_surj h0 h1
    rw [← machine_index_eq h hqf] at he
    have := hq q hqf
    rw [he] at this
    simpa [readAt] using this
  · rw [List.getElem?_eq_none (by omega), List.getElem?_eq_none (by omega)]

theorem machine_symmetric_loops_eq (Sqrt : Binary → Binary) (s : Machine.ASurfaceNets)
    (Radius Strength : Binary) (Start : FIntVector3) (V : List Binary) :
    Machine.ModifyVoxelDataSymmetric.loops Sqrt s Radius Strength Start V =
      symmetricOffsets.foldlM (Machine.ModifyVoxelData.body Sqrt s Radius Strength Start) V := by
  unfold symmetricOffsets Machine.ModifyVoxelDataSymmetric.loops
  rw [foldlM_flatMap]
  congr 1
  funext V Z
  rw [foldlM_flatMap]
  congr 1

theorem machine_symmetric_spec (Sqrt : Binary → Binary) {s : Machine.ASurfaceNets} {P : Nat}
    (h : Machine.Ready s P) (c : FIntVector3) (Block : EVoxelTutorialBlock) :
    ∃ V', Machine.ModifyVoxelDataSymmetric Sqrt s c Block = some { s with Voxels := V' } ∧
      Machine.Ready { s with Voxels := V' } P ∧
      ∀ q, InField P q → Machine.density { s with Voxels := V' } q =
        (if q.sub c ∈ symmetricOffsets ∧ Machine.InValid s q
          then Binary.add single (Machine.density s q)
            (Machine.brushAmount Sqrt (Binary.ofInt single 2)
              (if Block = EVoxelTutorialBlock.Air then Binary.ofInt single 1
                else Binary.ofInt single (-1)) (q.sub c))
          else Machine.density s q) := by
  obtain ⟨V', hV', hlen, hval⟩ := machine_fold_offsets Sqrt h (Binary.ofInt single 2)
    (if Block = EVoxelTutorialBlock.Air then Binary.ofInt single 1
      else Binary.ofInt single (-1)) c symmetricOffsets symmetricOffsets_nodup
  rw [← machine_symmetric_loops_eq] at hV'
  refine ⟨V', ?_, ⟨h.1, h.2.1, ?_, h.2.2.2⟩, ?_⟩
  · unfold Machine.ModifyVoxelDataSymmetric
    dsimp only
    rw [hV']
    rfl
  · simp only
    rw [hlen]
    exact h.2.2.1
  · intro q hq
    have := hval q hq
    unfold Machine.density
    have hidx : Machine.GetVoxelIndex { s with Voxels := V' } q =
        Machine.GetVoxelIndex s q := rfl
    rw [hidx]
    simp only
    rw [this]
    rfl

theorem machine_amount_eq_of_sqDist (Sqrt : Binary → Binary) (Radius Strength : Binary)
    {o o' : FIntVector3} (h : sqDist o' = sqDist o) :
    Machine.brushAmount Sqrt Radius Strength o' = Machine.brushAmount Sqrt Radius Strength o := by
  unfold Machine.brushAmount
  rw [h]

theorem machine_omitted_cell {Sqrt : Binary → Binary} {s : Machine.ASurfaceNets} {P : Nat}
    (h : Machine.Ready s P) (hvalid : ∀ v ∈ s.Voxels, Binary.Valid single v)
    (hSqrt : ∀ n : Int, 4 ≤ n → n ≤ 12 →
      Binary.lt (Sqrt (Binary.ofInt single n)) (Binary.ofInt single 2) = false ∧
      Binary.isNaN (Sqrt (Binary.ofInt single n)) = false)
    (c : FIntVector3) (Block : EVoxelTutorialBlock) {q : FIntVector3} (hq : InField P q)
    (hs : q.sub c ∈ symmetricOffsets) (hb : q.sub c ∉ brushOffsets) :
    Binary.add single (Machine.density s q)
      (Machine.brushAmount Sqrt (Binary.ofInt single 2)
        (if Block = EVoxelTutorialBlock.Air then Binary.ofInt single 1
          else Binary.ofInt single (-1)) (q.sub c)) =
      if Block = EVoxelTutorialBlock.Air ∧ Machine.density s q = Binary.finite true 0
        then Binary.finite false 0 else Machine.density s q := by
  rw [machine_amount_far hSqrt _ (far_of_not_mem_brushOffsets hb) (sqDist_le_of_mem hs)]
  have hv := hvalid _ (machine_density_mem h hq)
  by_cases hB : Block = EVoxelTutorialBlock.Air
  · rw [if_pos hB, mul_one_zero]
    by_cases hz : Machine.density s q = Binary.finite true 0
    · rw [if_pos ⟨hB, hz⟩, hz]
      exact negzero_add_zero
    · rw [if_neg (fun hc => hz hc.2)]
      exact add_zero_of_valid hv hz
  · rw [if_neg hB, mul_neg_one_zero, if_neg (fun hc => hB hc.1)]
    exact add_negzero_of_valid hv

theorem machine_bounds_cell {Sqrt : Binary → Binary} {s : Machine.ASurfaceNets} {P : Nat}
    (h : Machine.Ready s P) (hvalid : ∀ v ∈ s.Voxels, Binary.Valid single v)
    (hSqrt : ∀ n : Int, 4 ≤ n → n ≤ 12 →
      Binary.lt (Sqrt (Binary.ofInt single n)) (Binary.ofInt single 2) = false ∧
      Binary.isNaN (Sqrt (Binary.ofInt single n)) = false)
    (c : FIntVector3) (Block : EVoxelTutorialBlock) (V1 V2 : List Binary)
    (hval1 : ∀ q, InField P q → Machine.density { s with Voxels := V1 } q =
      (if q.sub c ∈ brushOffsets ∧ Machine.InValid s q
        then Binary.add single (Machine.density s q)
          (Machine.brushAmount Sqrt (Binary.ofInt single 2)
            (if Block = EVoxelTutorialBlock.Air then Binary.ofInt single 1
              else Binary.ofInt single (-1)) (q.sub c))
        else Machine.density s q))
    (hval2 : ∀ q, InField P q → Machine.density { s with Voxels := V2 } q =
      (if q.sub c ∈ symmetricOffsets ∧ Machine.InValid s q
        then Binary.add single (Machine.density s q)
          (Machine.brushAmount Sqrt (Binary.ofInt single 2)
            (if Block = EVoxelTutorialBlock.Air then Binary.ofInt single 1
              else Binary.ofInt single (-1)) (q.sub c))
        else Machine.density s q))
    {q : FIntVector3} (hq : InField P q) :
    (Block = EVoxelTutorialBlock.Air ∧ q.sub c ∈ symmetricOffsets ∧ q.sub c ∉ brushOffsets ∧
        Machine.InValid s q ∧ Machine.density s q = Binary.finite true 0 →
      Machine.density { s with Voxels := V1 } q = Binary.finite true 0 ∧
      Machine.density { s with Voxels := V2 } q = Binary.finite false 0) ∧
    (¬ (Block = EVoxelTutorialBlock.Air ∧ q.sub c ∈ symmetricOffsets ∧
        q.sub c ∉ brushOffsets ∧ Machine.InValid s q ∧
        Machine.density s q = Binary.finite true 0) →
      Machine.density { s with Voxels := V2 } q = Machine.density { s with Voxels := V1 } q) := by
  rw [hval1 q hq, hval2 q hq]
  by_cases hb : q.sub c ∈ brushOffsets
  · have hs := brushOffsets_subset hb
    constructor
    · intro hc
      exact absurd hb hc.2.2.1
    · intro _
      by_cases hv : Machine.InValid s q
      · have e1 : q.sub c ∈ brushOffsets ∧ Machine.InValid s q := ⟨hb, hv⟩
        have e2 : q.sub c ∈ symmetricOffsets ∧ Machine.InValid s q := ⟨hs, hv⟩
        rw [if_pos e1, if_pos e2]
      · have e1 : ¬ (q.sub c ∈ brushOffsets ∧ Machine.InValid s q) := fun hc => hv hc.2
        have e2 : ¬ (q.sub c ∈ symmetricOffsets ∧ Machine.InValid s q) := fun hc => hv hc.2
        rw [if_neg e1, if_neg e2]
  · have e1 : ¬ (q.sub c ∈ brushOffsets ∧ Machine.InValid s q) := fun hc => hb hc.1
    rw [if_neg e1]
    by_cases hsv : q.sub c ∈ symmetricOffsets ∧ Machine.InValid s q
    · rw [if_pos hsv, machine_omitted_cell h hvalid hSqrt c Block hq hsv.1 hb]
      constructor
      · intro hc
        have e3 : Block = EVoxelTutorialBlock.Air ∧
            Machine.density s q = Binary.finite true 0 := ⟨hc.1, hc.2.2.2.2⟩
        rw [if_pos e3]
        exact ⟨hc.2.2.2.2, rfl⟩
      · intro hn
        have e3 : ¬ (Block = EVoxelTutorialBlock.Air ∧
            Machine.density s q = Binary.finite true 0) :=
          fun hc => hn ⟨hc.1, hsv.1, hb, hsv.2, hc.2⟩
        rw [if_neg e3]
    · rw [if_neg hsv]
      constructor
      · intro hc
        exact absurd ⟨hc.2.1, hc.2.2.2.1⟩ hsv
      · intro _
        rfl

/-- C17 fails as stated: on the chunk of size 3 with the `Air` brush centred at `(1, 1, 1)`,
the cell `(3, 1, 1)`, at the offset `(2, 0, 0)` that the exclusive bound omits, stores `-0.0f`.
The code leaves it as it is, while the loops with inclusive bounds add `+0.0f` and leave
`+0.0f`: the two fields differ in a sign bit, and `GenerateMesh` observes it, since the corner
mask of the cell `(3, 1, 1)` is 1 after the code and 0 after the loops with inclusive bounds. -/
theorem symmetric_bounds_flip_zero :
    Machine.Ready Machine.brushChunk 5 ∧
    (⟨3, 1, 1⟩ : FIntVector3).sub ⟨1, 1, 1⟩ ∈ symmetricOffsets ∧
    (⟨3, 1, 1⟩ : FIntVector3).sub ⟨1, 1, 1⟩ ∉ brushOffsets ∧
    (Machine.ModifyVoxelData sqrtTable Machine.brushChunk ⟨1, 1, 1⟩
        EVoxelTutorialBlock.Air).map
      (fun s' => (Machine.density s' ⟨3, 1, 1⟩, Machine.cornerMask (Machine.cubeAt s' ⟨3, 1, 1⟩))) =
      some (Binary.finite true 0, 1) ∧
    (Machine.ModifyVoxelDataSymmetric sqrtTable Machine.brushChunk ⟨1, 1, 1⟩
        EVoxelTutorialBlock.Air).map
      (fun s' => (Machine.density s' ⟨3, 1, 1⟩, Machine.cornerMask (Machine.cubeAt s' ⟨3, 1, 1⟩))) =
      some (Binary.finite false 0, 0) ∧
    (Machine.ModifyVoxelData sqrtTable Machine.brushChunk ⟨1, 1, 1⟩
        EVoxelTutorialBlock.Air).map (fun s' => s'.Voxels) ≠
      (Machine.ModifyVoxelDataSymmetric sqrtTable Machine.brushChunk ⟨1, 1, 1⟩
        EVoxelTutorialBlock.Air).map (fun s' => s'.Voxels) := by
  refine ⟨machine_brushChunk_ready, by decide, by decide, by decide!, by decide!, by decide!⟩

/-- C17 as amended, over machine numbers: for a chunk laid out by `Setup` whose buffer holds
`float` values, every centre and either brush mode, `ModifyVoxelData` and the brush iterated
with the inclusive bound on all three axes both return.  Every offset the exclusive bound omits
has squared distance at least 4 and adds a zero, `+0.0f` for `Air` and `-0.0f` for `Stone`.
The two resulting chunks are equal for `Stone`, and for `Air` when no cell of the valid range
at an omitted offset stores `-0.0f`; for `Air` such a cell keeps `-0.0f` under the code and
holds `+0.0f` under the inclusive bounds, and every other cell of the field has the same value
in both.  The brush amount depends on the squared distance only, so it is unchanged by
negating a coordinate of the offset or exchanging two of them.  `Sqrt` stands for
`FMath::Sqrt`, assumed to return a number not less than 2 for the squared lengths 4 to 12. -/
theorem asymmetric_bounds_float (Sqrt : Binary → Binary) (s : Machine.ASurfaceNets) (P : Nat)
    (c : FIntVector3) (Block : EVoxelTutorialBlock) (h : Machine.Ready s P)
    (hvalid : ∀ v ∈ s.Voxels, Binary.Valid single v)
    (hSqrt : ∀ n : Int, 4 ≤ n → n ≤ 12 →
      Binary.lt (Sqrt (Binary.ofInt single n)) (Binary.ofInt single 2) = false ∧
      Binary.isNaN (Sqrt (Binary.ofInt single n)) = false) :
    ∃ s1 s2, Machine.ModifyVoxelData Sqrt s c Block = some s1 ∧
      Machine.ModifyVoxelDataSymmetric Sqrt s c Block = some s2 ∧
      (∀ o, o ∈ symmetricOffsets → o ∉ brushOffsets →
        4 ≤ sqDist o ∧
        Machine.brushAmount Sqrt (Binary.ofInt single 2)
            (if Block = EVoxelTutorialBlock.Air then Binary.ofInt single 1
              else Binary.ofInt single (-1)) o =
          (if Block = EVoxelTutorialBlock.Air then Binary.finite false 0
            else Binary.finite true 0)) ∧
      ((Block = EVoxelTutorialBlock.Stone ∨
          ∀ q, InField P q → q.sub c ∈ symmetricOffsets → q.sub c ∉ brushOffsets →
            Machine.InValid s q → Machine.density s q ≠ Binary.finite true 0) →
        s2 = s1) ∧
      (∀ q, InField P q →
        (Block = EVoxelTutorialBlock.Air ∧ q.sub c ∈ symmetricOffsets ∧
            q.sub c ∉ brushOffsets ∧ Machine.InValid s q ∧
            Machine.density s q = Binary.finite true 0 →
          Machine.density s1 q = Binary.finite true 0 ∧
          Machine.density s2 q = Binary.finite false 0) ∧
        (¬ (Block = EVoxelTutorialBlock.Air ∧ q.sub c ∈ symmetricOffsets ∧
            q.sub c ∉ brushOffsets ∧ Machine.InValid s q ∧
            Machine.density s q = Binary.finite true 0) →
          Machine.density s2 q = Machine.density s1 q)) ∧
      (∀ (S : Binary) (x y z : Int),
        Machine.brushAmount Sqrt (Binary.ofInt single 2) S ⟨-x, y, z⟩ =
          Machine.brushAmount Sqrt (Binary.ofInt single 2) S ⟨x, y, z⟩ ∧
        Machine.brushAmount Sqrt (Binary.ofInt single 2) S ⟨x, -y, z⟩ =
          Machine.brushAmount Sqrt (Binary.ofInt single 2) S ⟨x, y, z⟩ ∧
        Machine.brushAmount Sqrt (Binary.ofInt single 2) S ⟨x, y, -z⟩ =
          Machine.brushAmount Sqrt (Binary.ofInt single 2) S ⟨x, y, z⟩ ∧
        Machine.brushAmount Sqrt (Binary.ofInt single 2) S ⟨y, x, z⟩ =
          Machine.brushAmount Sqrt (Binary.ofInt single 2) S ⟨x, y, z⟩ ∧
        Machine.brushAmount Sqrt (Binary.ofInt single 2) S ⟨x, z, y⟩ =
          Machine.brushAmount Sqrt (Binary.ofInt single 2) S ⟨x, y, z⟩ ∧
        Machine.brushAmount Sqrt (Binary.ofInt single 2) S ⟨z, y, x⟩ =
          Machine.brushAmount Sqrt (Binary.ofInt single 2) S ⟨x, y, z⟩) := by
  obtain ⟨V1, hrun1, hready1, hval1⟩ := machine_modify_spec Sqrt h c Block
  obtain ⟨V2, hrun2, hready2, hval2⟩ := machine_symmetric_spec Sqrt h c Block
  have hcell := fun q (hq : InField P q) =>
    machine_bounds_cell h hvalid hSqrt c Block V1 V2 hval1 hval2 hq
  refine ⟨_, _, hrun1, hrun2, ?_, ?_, hcell, ?_⟩
  · intro o hs hb
    refine ⟨far_of_not_mem_brushOffsets hb, ?_⟩
    rw [machine_amount_far hSqrt _ (far_of_not_mem_brushOffsets hb) (sqDist_le_of_mem hs)]
    by_cases hB : Block = EVoxelTutorialBlock.Air
    · rw [if_pos hB, if_pos hB, mul_one_zero]
      rfl
    · rw [if_neg hB, if_neg hB, mul_neg_one_zero]
  · intro hcond
    have hV : V2 = V1 := by
      apply machine_voxels_ext h V2 V1
      · rw [hready2.2.2.1, h.2.2.1]
      · rw [hready1.2.2.1, h.2.2.1]
      · intro q hq
        have d1 := machine_density_eq hready1 hq
        have d2 := machine_density_eq hready2 hq
        have hidx1 : Machine.GetVoxelIndex { s with Voxels := V1 } q =
            Machine.GetVoxelIndex s q := rfl
        have hidx2 : Machine.GetVoxelIndex { s with Voxels := V2 } q =
            Machine.GetVoxelIndex s q := rfl
        rw [hidx1] at d1
        rw [hidx2] at d2
        simp only at d1 d2
        rw [d1, d2]
        congr 1
        apply (hcell q hq).2
        rintro ⟨hB, hs, hb, hv, hz⟩
        rcases hcond with hS | hnz
        · rw [hS] at hB
          exact absurd hB (by decide)
        · exact hnz q hq hs hb hv hz
    rw [hV]
  · intro S x y z
    refine ⟨?_, ?_, ?_, ?_, ?_, ?_⟩ <;>
      (apply machine_amount_eq_of_sqDist; simp only [sqDist]; ring)

/-- Witness of C17: the chunk of size 3 with the `Stone` brush centred at `(1, 1, 1)`, with the
values of `sqrtf`.  Of the 45 offsets the exclusive bound omits, 28 lead to a cell of the valid
range; one of them, `(3, 1, 1)`, stores `-0.0f` and keeps it under both brushes. -/
theorem asymmetric_bounds_float_witness :
    Machine.Ready Machine.brushChunk 5 ∧
    (∀ v ∈ Machine.brushChunk.Voxels, Binary.Valid single v) ∧
    (∃ s1 s2, Machine.ModifyVoxelData sqrtTable Machine.brushChunk ⟨1, 1, 1⟩
        EVoxelTutorialBlock.Stone = some s1 ∧
      Machine.ModifyVoxelDataSymmetric sqrtTable Machine.brushChunk ⟨1, 1, 1⟩
        EVoxelTutorialBlock.Stone = some s2 ∧ s2 = s1) ∧
    ((symmetricOffsets.filter fun o => decide (o ∉ brushOffsets)).length = 45 ∧
      (symmetricOffsets.filter fun o => decide (o ∉ brushOffsets ∧
        Machine.InValid Machine.brushChunk (o.add ⟨1, 1, 1⟩))).length = 28) ∧
    (Machine.ModifyVoxelDataSymmetric sqrtTable Machine.brushChunk ⟨1, 1, 1⟩
        EVoxelTutorialBlock.Stone).map (fun s' => Machine.density s' ⟨3, 1, 1⟩) =
      some (Binary.finite true 0) := by
  refine ⟨machine_brushChunk_ready, machine_brushChunk_valid, ?_, ⟨by decide, by decide⟩,
    by decide!⟩
  obtain ⟨s1, s2, h1, h2, -, h3, -⟩ :=
    asymmetric_bounds_float sqrtTable Machine.brushChunk 5 ⟨1, 1, 1⟩ EVoxelTutorialBlock.Stone
      machine_brushChunk_ready machine_brushChunk_valid sqrtTable_ok
  exact ⟨s1, s2, h1, h2, h3 (Or.inl rfl)⟩

/-! ## The corner mask over machine numbers -/

theorem signBit_sign (v : Binary) : Binary.signBit v = (Binary.sign v).toNat := by
  cases v <;> rfl

theorem machine_cornerMask_eq (Cube : Fin 8 → Binary) :
    Machine.cornerMask Cube = bitsMask (Binary.sign (Cube 0)) (Binary.sign (Cube 1))
      (Binary.sign (Cube 2)) (Binary.sign (Cube 3)) (Binary.sign (Cube 4))
      (Binary.sign (Cube 5)) (Binary.sign (Cube 6)) (Binary.sign (Cube 7)) := by
  simp only [Machine.cornerMask, Machine.cornerMask.loop, signBit_sign, bitsMask]
  rfl

theorem machine_cornerMask_le (Cube : Fin 8 → Binary) : Machine.cornerMask Cube ≤ 255 := by
  rw [machine_cornerMask_eq]
  exact bitsMask_le _ _ _ _ _ _ _ _

theorem machine_cornerMask_testBit (Cube : Fin 8 → Binary) (c : Fin 8) :
    (Machine.cornerMask Cube).testBit c.val = Binary.sign (Cube c) := by
  rw [machine_cornerMask_eq]
  obtain ⟨h0, h1, h2, h3, h4, h5, h6, h7⟩ := testBit_bitsMask (Binary.sign (Cube 0))
    (Binary.sign (Cube 1)) (Binary.sign (Cube 2)) (Binary.sign (Cube 3))
    (Binary.sign (Cube 4)) (Binary.sign (Cube 5)) (Binary.sign (Cube 6))
    (Binary.sign (Cube 7))
  fin_cases c
  · exact h0
  · exact h1
  · exact h2
  · exact h3
  · exact h4
  · exact h5
  · exact h6
  · exact h7

theorem machine_offset_inField {P : Nat} {p : FIntVector3} (hp : InScan P p) (Corner : Fin 8) :
    InField P (VertexOffset Corner) := by
  obtain ⟨hx, hy, hz⟩ := hp
  obtain ⟨ox, oy, oz⟩ := VertexOffset_bounds Corner
  simp only [InField]
  omega

theorem machine_index_add_offset {s : Machine.ASurfaceNets} {P : Nat}
    (h : Machine.Ready s P) {p : FIntVector3} (hp : InScan P p) (Corner : Fin 8) :
    Machine.GetVoxelIndex s p + Machine.IndexOffsets s Corner =
      Machine.GetVoxelIndex s (p.add (VertexOffset Corner)) := by
  unfold Machine.IndexOffsets
  rw [machine_index_shadow h (inField_of_inScan hp),
    machine_index_shadow h (machine_offset_inField hp Corner),
    machine_index_shadow h (inField_add_offset hp Corner)]
  exact GetVoxelIndex_add _ _ _

theorem machine_readCube_eq {s : Machine.ASurfaceNets} {P : Nat} (h : Machine.Ready s P)
    {p : FIntVector3} (hp : InScan P p) :
    Machine.readCube s.Voxels (Machine.GetVoxelIndex s p) (Machine.IndexOffsets s) =
      some (Machine.cubeAt s p) := by
  have hall : ∀ c : Fin 8, 0 ≤ Machine.GetVoxelIndex s p + Machine.IndexOffsets s c ∧
      (Machine.GetVoxelIndex s p + Machine.IndexOffsets s c).toNat < s.Voxels.length := by
    intro c
    rw [machine_index_add_offset h hp]
    exact machine_index_bounds h (inField_add_offset hp c)
  unfold Machine.readCube
  rw [dif_pos hall]
  congr 1
  funext c
  unfold Machine.cubeAt Machine.density
  rw [← machine_index_add_offset h hp, readAt_of_lt _ _ (hall c).1 (hall c).2]
  rfl

theorem sign_iff_lt_zero {d : Binary} (hv : Binary.Valid single d)
    (hz : d ≠ Binary.finite true 0) (hn : d ≠ Binary.nan true) :
    Binary.sign d = true ↔ Binary.lt d Binary.zero = true := by
  cases d with
  | nan s =>
    cases s
    · simp [Binary.sign, Binary.lt]
    · exact absurd rfl hn
  | infinite s => simp [Binary.sign, Binary.lt, Binary.zero]
  | finite s m =>
    obtain ⟨hm, -⟩ := hv
    simp only [Binary.sign, Binary.lt, Binary.zero, decide_eq_true_eq]
    have h0 : signed false 0 = 0 := rfl
    rw [h0]
    cases s
    · simp only [Bool.false_eq_true, false_iff, not_lt]
      exact hm
    · have hpos : 0 < m := by
        rcases eq_or_lt_of_le hm with h | h
        · subst h
          exact absurd rfl hz
        · exact h
      simp only [true_iff]
      have : signed true m = -m := rfl
      rw [this]
      linarith

theorem machine_negZeroChunk_ready : Machine.Ready Machine.negZeroChunk 2 :=
  ⟨by decide, by decide, by decide, by decide⟩

/-- C14 fails as stated: in the one-cell chunk whose corner 0 stores `-0.0f`, bit 0 of the
corner mask of the cell `(0, 0, 0)` is set (the mask is 1, so the cell gets a vertex), while
the density `-0.0f` is not negative: `-0.0f < 0.0f` is false. -/
theorem negative_zero_sets_mask_bit :
    Machine.Ready Machine.negZeroChunk 2 ∧
    (Machine.readCube Machine.negZeroChunk.Voxels
        (Machine.GetVoxelIndex Machine.negZeroChunk ⟨0, 0, 0⟩)
        (Machine.IndexOffsets Machine.negZeroChunk)).map Machine.cornerMask = some 1 ∧
    (1 : Nat).testBit 0 = true ∧ isSurface 1 = true ∧
    Machine.density Machine.negZeroChunk ((⟨0, 0, 0⟩ : FIntVector3).add (cornerOffset 0)) =
      Binary.finite true 0 ∧
    Binary.lt (Binary.finite true 0) Binary.zero = false := by
  refine ⟨machine_negZeroChunk_ready, by decide!, by decide, by decide, by decide!, by decide!⟩

/-- C14 as amended, over machine numbers: for a chunk laid out by `Setup` and every visited
cell at coordinate `p`, the eight corner reads of `GenerateMesh` succeed; the mask built from
them is an 8-bit value; and for each corner `c` in 0..7, with
`CornerOffset[c] = (c & 1, (c >> 1) & 1, (c >> 2) & 1)`, the value read at the flat index
`GetVoxelIndex(p) + GetVoxelIndex(CornerOffset[c])` is the density stored for the grid
coordinate `p + CornerOffset[c]`, and bit `c` of the mask is set if and only if the sign bit of
that density is set.  For a `float` density other than `-0.0f` and a NaN with the sign bit set,
that is the case if and only if the density is negative. -/
theorem corner_mask_sign_bits (s : Machine.ASurfaceNets) (P : Nat) (p : FIntVector3)
    (h : Machine.Ready s P) (hp : InScan P p) :
    ∃ Cube, Machine.readCube s.Voxels (Machine.GetVoxelIndex s p) (Machine.IndexOffsets s) =
        some Cube ∧
      0 ≤ Machine.cornerMask Cube ∧ Machine.cornerMask Cube ≤ 255 ∧
      ∀ c : Fin 8,
        Machine.IndexOffsets s c = Machine.GetVoxelIndex s (cornerOffset c) ∧
        InField P (p.add (cornerOffset c)) ∧
        Machine.GetVoxelIndex s p + Machine.GetVoxelIndex s (cornerOffset c) =
          Machine.GetVoxelIndex s (p.add (cornerOffset c)) ∧
        readAt s.Voxels (Machine.GetVoxelIndex s p + Machine.GetVoxelIndex s (cornerOffset c)) =
          some (Cube c) ∧
        Cube c = Machine.density s (p.add (cornerOffset c)) ∧
        ((Machine.cornerMask Cube).testBit c.val = true ↔
          Binary.signBit (Machine.density s (p.add (cornerOffset c))) = 1) ∧
        (Binary.Valid single (Machine.density s (p.add (cornerOffset c))) →
          Machine.density s (p.add (cornerOffset c)) ≠ Binary.finite true 0 →
          Machine.density s (p.add (cornerOffset c)) ≠ Binary.nan true →
          ((Machine.cornerMask Cube).testBit c.val = true ↔
            Binary.lt (Machine.density s (p.add (cornerOffset c))) Binary.zero = true)) := by
  refine ⟨Machine.cubeAt s p, machine_readCube_eq h hp, Nat.zero_le _,
    machine_cornerMask_le _, ?_⟩
  intro c
  have hoff : VertexOffset c = cornerOffset c := (corner_enumeration c).1
  have hf := inField_add_offset hp c
  have hadd := machine_index_add_offset h hp c
  unfold Machine.IndexOffsets at hadd
  rw [hoff] at hf hadd
  have hd : Machine.cubeAt s p c = Machine.density s (p.add (cornerOffset c)) := by
    unfold Machine.cubeAt
    rw [hoff]
  refine ⟨by unfold Machine.IndexOffsets; rw [hoff], hf, hadd, ?_, hd, ?_, ?_⟩
  · rw [hadd, machine_density_eq h hf, hd]
  · rw [machine_cornerMask_testBit, hd, signBit_sign]
    cases Binary.sign (Machine.density s (p.add (cornerOffset c))) <;> simp
  · intro hv hz hn
    rw [machine_cornerMask_testBit, hd]
    exact sign_iff_lt_zero hv hz hn

/-- Witness of C14: the cell `(1, 1, 1)` of the sample chunk, whose corner 0 is the only
negative density; its mask is 1. -/
theorem corner_mask_sign_bits_witness :
    Machine.Ready Machine.sampleChunk 3 ∧ InScan 3 ⟨1, 1, 1⟩ ∧
    (∃ Cube, Machine.readCube Machine.sampleChunk.Voxels
        (Machine.GetVoxelIndex Machine.sampleChunk ⟨1, 1, 1⟩)
        (Machine.IndexOffsets Machine.sampleChunk) = some Cube ∧
      Machine.cornerMask Cube ≤ 255 ∧
      ∀ c : Fin 8, Cube c =
          Machine.density Machine.sampleChunk ((⟨1, 1, 1⟩ : FIntVector3).add (cornerOffset c)) ∧
        ((Machine.cornerMask Cube).testBit c.val = true ↔
          Binary.signBit (Machine.density Machine.sampleChunk
            ((⟨1, 1, 1⟩ : FIntVector3).add (cornerOffset c))) = 1)) ∧
    (Machine.readCube Machine.sampleChunk.Voxels
        (Machine.GetVoxelIndex Machine.sampleChunk ⟨1, 1, 1⟩)
        (Machine.IndexOffsets Machine.sampleChunk)).map Machine.cornerMask = some 1 := by
  have hp : InScan 3 ⟨1, 1, 1⟩ := by
    unfold InScan
    decide
  refine ⟨machine_sampleChunk_ready, hp, ?_, by decide!⟩
  obtain ⟨Cube, h1, -, h2, h3⟩ :=
    corner_mask_sign_bits Machine.sampleChunk 3 ⟨1, 1, 1⟩ machine_sampleChunk_ready hp
  exact ⟨Cube, h1, h2, fun c => ⟨(h3 c).2.2.2.2.1, (h3 c).2.2.2.2.2.1⟩⟩

/-! ## Densities whose product underflows -/

/-- C12: on the corner values `-2⁻⁸⁰` at corner 0 and `2⁻⁸⁰` elsewhere (`float` values, mask
1), four consulted edges have endpoint densities of strictly opposite sign, the table entries
12, 8, 3 and 0, and the mean of their zero-crossing points is `(1/4, 1/4, 1/4)`.  In `float`
each of the four products `SDF0 * SDF1` underflows to `-0.0f`, the test `SDF0 * SDF1 < 0.f` is
false, no intersection is counted, and the returned position is `PositionSum / 0`, a NaN in
every component. -/
theorem tiny_densities_no_crossing :
    (∀ c, Binary.Valid single (Machine.tinyCube c)) ∧
    Machine.cornerMask Machine.tinyCube = 1 ∧
    consultedCrossings (fun c => Binary.toRat (Machine.tinyCube c)) = [12, 8, 3, 0] ∧
    meanCrossing (fun c => Binary.toRat (Machine.tinyCube c)) = some ⟨1 / 4, 1 / 4, 1 / 4⟩ ∧
    (∀ e ∈ ([12, 8, 3, 0] : List (Fin 16)),
      Binary.toRat (Machine.tinyCube (Edges e).1) *
        Binary.toRat (Machine.tinyCube (Edges e).2) < 0 ∧
      Binary.mul single (Machine.tinyCube (Edges e).1) (Machine.tinyCube (Edges e).2) =
        Binary.finite true 0 ∧
      Binary.lt (Binary.mul single (Machine.tinyCube (Edges e).1)
        (Machine.tinyCube (Edges e).2)) Binary.zero = false) ∧
    Machine.IntersectionCount Machine.tinyCube = 0 ∧
    ∀ N : Machine.FVector → Machine.FVector,
      Binary.isNaN (Machine.ComputeSDFSurface N Machine.tinyCube).1.X = true ∧
      Binary.isNaN (Machine.ComputeSDFSurface N Machine.tinyCube).1.Y = true ∧
      Binary.isNaN (Machine.ComputeSDFSurface N Machine.tinyCube).1.Z = true := by
  refine ⟨by decide!, by decide!, by decide!, by decide!, by decide!, by decide!, ?_⟩
  intro N
  have h : (Machine.ComputeSDFSurface N Machine.tinyCube).1 =
      (Machine.ComputeSDFSurface id Machine.tinyCube).1 := rfl
  rw [h]
  decide!

theorem machine_tinyChunk_ready : Machine.Ready Machine.tinyChunk 2 :=
  ⟨by decide, by decide, by decide, by decide⟩

/-- C19: in the one-cell chunk with the densities `-2⁻⁸⁰` at corner 0 and `2⁻⁸⁰` elsewhere,
all non-zero `float` values and not all of the same sign, `GenerateMesh` gives the cell
`(0, 0, 0)` a vertex, but `ComputeSDFSurface` counts no intersection, since every product
`SDF0 * SDF1` underflows to a zero: the position it returns is a NaN in every component, it
does not lie in the closed unit cube, and the one vertex `GenerateMesh` emits is a NaN in
every component, not a point of the cell. -/
theorem tiny_densities_vertex_undefined :
    Machine.Ready Machine.tinyChunk 2 ∧
    (∀ v ∈ Machine.tinyChunk.Voxels, Binary.Valid single v ∧ Binary.toRat v ≠ 0) ∧
    Binary.toRat (Machine.density Machine.tinyChunk ⟨0, 0, 0⟩) < 0 ∧
    0 < Binary.toRat (Machine.density Machine.tinyChunk ⟨1, 0, 0⟩) ∧
    Machine.cubeAt Machine.tinyChunk ⟨0, 0, 0⟩ = Machine.tinyCube ∧
    ∀ N : Machine.FVector → Machine.FVector,
      ¬ Machine.InUnitCube (Machine.ComputeSDFSurface N Machine.tinyCube).1 ∧
      (Machine.GenerateMesh.run N Machine.tinyChunk).map
        (fun st => (st.VertexCount, st.MeshData.Vertices.map fun v =>
          (Binary.isNaN v.X, Binary.isNaN v.Y, Binary.isNaN v.Z))) =
        some (1, [(true, true, true)]) := by
  refine ⟨machine_tinyChunk_ready, by decide!, by decide!, by decide!, ?_, ?_⟩
  · funext c
    fin_cases c <;> decide!
  · intro N
    have h : (Machine.ComputeSDFSurface N Machine.tinyCube).1 =
        (Machine.ComputeSDFSurface id Machine.tinyCube).1 := rfl
    rw [h]
    exact ⟨by decide!, by with_unfolding_all rfl⟩

/-! ## The march over machine numbers -/

theorem readAt_map {α β : Type} (f : α → β) (A : List α) (I : Int) :
    readAt (A.map f) I = (readAt A I).map f := by
  unfold readAt
  split
  · simp [List.getElem?_map]
  · rfl

theorem shadow_density {s : Machine.ASurfaceNets} {P : Nat} (h : Machine.Ready s P)
    {q : FIntVector3} (hq : InField P q) :
    density (shadowChunk s) q =
      if Binary.signBit (Machine.density s q) = 1 then -1 else 1 := by
  unfold density
  have e : (shadowChunk s).Voxels =
      s.Voxels.map fun v => if Binary.signBit v = 1 then (-1 : ℚ) else 1 := rfl
  rw [e, readAt_map, ← machine_index_shadow h hq, machine_density_eq h hq]
  rfl

theorem shadow_negative {s : Machine.ASurfaceNets} {P : Nat} (h : Machine.Ready s P)
    {p : FIntVector3} (hp : InScan P p) (c : Fin 8) :
    negative (cubeAt (shadowChunk s) p) c = Binary.sign (Machine.cubeAt s p c) := by
  unfold negative cubeAt Machine.cubeAt
  rw [shadow_density h (inField_add_offset hp c), signBit_sign]
  cases Binary.sign (Machine.density s (p.add (VertexOffset c))) <;> simp

theorem shadow_mask {s : Machine.ASurfaceNets} {P : Nat} (h : Machine.Ready s P)
    {p : FIntVector3} (hp : InScan P p) :
    cornerMask (cubeAt (shadowChunk s) p) = Machine.cornerMask (Machine.cubeAt s p) := by
  rw [cornerMask_eq, machine_cornerMask_eq]
  simp only [shadow_negative h hp]

theorem machine_axis_sim (s : Machine.ASurfaceNets) (VT : List Int) (p : FIntVector3) (I : Int)
    (Mask Flags : Nat) (V1 : Int) (MDm : Machine.FChunkMeshData) (MDe : FChunkMeshData)
    (Axis : Nat) (hT : MDm.Triangles = MDe.Triangles) :
    Machine.GenerateMesh.axis s VT p I Mask Flags V1 MDm Axis =
      (GenerateMesh.axis (shadowChunk s) VT p I Mask Flags V1 MDe Axis).map
        (fun M => { MDm with Triangles := M.Triangles }) := by
  have hA : (shadowChunk s).AxisOffsets = s.AxisOffsets := rfl
  have hsame : some MDm = (some MDe).map
      (fun M => ({ MDm with Triangles := M.Triangles } : Machine.FChunkMeshData)) := by
    simp only [Option.map_some', ← hT]
  unfold Machine.GenerateMesh.axis GenerateMesh.axis
  rw [hA]
  split
  · split
    · exact hsame
    · dsimp only
      split
      · exact hsame
      · split
        · exact hsame
        · cases readAt VT (I - s.AxisOffsets.get ((Axis + 1) % 3)) with
          | none => rfl
          | some v2 =>
            cases readAt VT (I - s.AxisOffsets.get ((Axis + 1) % 3) -
                s.AxisOffsets.get ((Axis + 2) % 3)) with
            | none => rfl
            | some v3 =>
              cases readAt VT (I - s.AxisOffsets.get ((Axis + 2) % 3)) with
              | none => rfl
              | some v4 =>
                simp [AddTriangle, Machine.AddTriangle, hT]
  · exact hsame

theorem machine_axes_sim (s : Machine.ASurfaceNets) (VT : List Int) (p : FIntVector3) (I : Int)
    (Mask Flags : Nat) (V1 : Int) (l : List Nat) (MDm : Machine.FChunkMeshData)
    (MDe : FChunkMeshData) (hT : MDm.Triangles = MDe.Triangles) :
    l.foldlM (Machine.GenerateMesh.axis s VT p I Mask Flags V1) MDm =
      (l.foldlM (GenerateMesh.axis (shadowChunk s) VT p I Mask Flags V1) MDe).map
        (fun M => { MDm with Triangles := M.Triangles }) := by
  induction l generalizing MDm MDe with
  | nil =>
    simp only [List.foldlM_nil, pure, Option.map_some', ← hT]
  | cons a l ih =>
    rw [List.foldlM_cons, List.foldlM_cons, machine_axis_sim s VT p I Mask Flags V1 MDm MDe a hT]
    cases GenerateMesh.axis (shadowChunk s) VT p I Mask Flags V1 MDe a with
    | none => rfl
    | some M =>
      simp only [Option.map_some', Option.bind_eq_bind, Option.some_bind]
      rw [ih { MDm with Triangles := M.Triangles } M rfl]

theorem machine_row_index {s : Machine.ASurfaceNets} {P : Nat} (h : Machine.Ready s P)
    {x : FIntVector3} (hx : InScan P x) :
    Machine.GetVoxelIndex s ⟨0, x.Y, x.Z⟩ + x.X = GetVoxelIndex (shadowChunk s) x := by
  have hf : InField P ⟨0, x.Y, x.Z⟩ := by
    obtain ⟨h1, h2, h3⟩ := hx
    simp only [InField]
    omega
  rw [machine_index_eq h hf, GetVoxelIndex_ready (shadowChunk_ready h)]
  simp

theorem machine_cell_sim (Nm : Machine.FVector → Machine.FVector) (Ne : FVector → FVector)
    {s : Machine.ASurfaceNets} {P : Nat} (h : Machine.Ready s P) {x : FIntVector3}
    (hx : InScan P x) (stm : Machine.MeshState) (st : MeshState)
    (hVT : stm.VertexTable = st.VertexTable) (hVC : stm.VertexCount = st.VertexCount)
    (hT : stm.MeshData.Triangles = st.MeshData.Triangles) :
    Machine.GenerateMesh.cell Nm s stm x (Machine.GetVoxelIndex s ⟨0, x.Y, x.Z⟩ + x.X) =
      (GenerateMesh.cell Ne (shadowChunk s) st x (GetVoxelIndex (shadowChunk s) x)).map
        (fun st' => ⟨st'.VertexTable, st'.VertexCount,
          ⟨stm.MeshData.Vertices ++
              (if surfaceCell (shadowChunk s) x = true
                then [Machine.cellVertex Nm s.BlockSize (Machine.cubeAt s x) x] else []),
            stm.MeshData.Normals ++
              (if surfaceCell (shadowChunk s) x = true
                then [(Machine.ComputeSDFSurface Nm (Machine.cubeAt s x)).2] else []),
            st'.MeshData.Triangles⟩⟩) := by
  have hI := machine_row_index h hx
  have hIm : Machine.GetVoxelIndex s x = GetVoxelIndex (shadowChunk s) x :=
    machine_index_shadow h (inField_of_inScan hx)
  have hrm := machine_readCube_eq h hx
  have hre := readCube_eq (shadowChunk_ready h) hx
  have hmask := shadow_mask h hx
  rw [hIm] at hrm
  unfold Machine.GenerateMesh.cell GenerateMesh.cell
  rw [hI, hVT, hVC, hrm, hre]
  cases writeAt st.VertexTable (GetVoxelIndex (shadowChunk s) x) (-1) with
  | none => rfl
  | some VT0 =>
    simp only [Option.some_bind]
    rw [hmask]
    by_cases hc : Machine.cornerMask (Machine.cubeAt s x) ≠ 0 ∧
        Machine.cornerMask (Machine.cubeAt s x) < 0xFF
    · have hs : surfaceCell (shadowChunk s) x = true := by
        unfold surfaceCell isSurface
        rw [hmask]
        exact decide_eq_true hc
      rw [if_pos hc, if_pos hc, if_pos hs, if_pos hs]
      cases writeAt VT0 (GetVoxelIndex (shadowChunk s) x) st.VertexCount with
      | none => rfl
      | some VT =>
        simp only [Option.some_bind]
        have hax := machine_axes_sim s VT x (GetVoxelIndex (shadowChunk s) x)
          (Machine.cornerMask (Machine.cubeAt s x))
          (AxisFlags.getD (Machine.cornerMask (Machine.cubeAt s x) &&& AxisMask) 0)
          st.VertexCount [0, 1, 2]
          (⟨stm.MeshData.Vertices ++
              [Machine.cellVertex Nm s.BlockSize (Machine.cubeAt s x) x],
            stm.MeshData.Normals ++ [(Machine.ComputeSDFSurface Nm (Machine.cubeAt s x)).2],
            stm.MeshData.Triangles⟩ : Machine.FChunkMeshData)
          { st.MeshData with
            Vertices := st.MeshData.Vertices ++
              [(ComputeSDFSurface Ne (cubeAt (shadowChunk s) x)).1.map fun V =>
                FVector.scale (shadowChunk s).BlockSize (V.add ⟨x.X, x.Y, x.Z⟩)]
            Normals := st.MeshData.Normals ++
              [(ComputeSDFSurface Ne (cubeAt (shadowChunk s) x)).2] } hT
        rw [hax]
        cases [0, 1, 2].foldlM (GenerateMesh.axis (shadowChunk s) VT x
            (GetVoxelIndex (shadowChunk s) x) (Machine.cornerMask (Machine.cubeAt s x))
            (AxisFlags.getD (Machine.cornerMask (Machine.cubeAt s x) &&& AxisMask) 0)
            st.VertexCount)
          { st.MeshData with
            Vertices := st.MeshData.Vertices ++
              [(ComputeSDFSurface Ne (cubeAt (shadowChunk s) x)).1.map fun V =>
                FVector.scale (shadowChunk s).BlockSize (V.add ⟨x.X, x.Y, x.Z⟩)]
            Normals := st.MeshData.Normals ++
              [(ComputeSDFSurface Ne (cubeAt (shadowChunk s) x)).2] } with
        | none => rfl
        | some MD1 => rfl
    · have hs : ¬ (surfaceCell (shadowChunk s) x = true) := by
        unfold surfaceCell isSurface
        rw [hmask]
        simpa using hc
      rw [if_neg hc, if_neg hc, if_neg hs, if_neg hs]
      simp only [Option.map_some', List.append_nil, ← hT]

theorem machine_loopZ_eq (N : Machine.FVector → Machine.FVector) (s : Machine.ASurfaceNets)
    (MaxSize : Int) (st : Machine.MeshState) :
    Machine.GenerateMesh.loopZ N s MaxSize st =
      (scanCells MaxSize.toNat).foldlM
        (fun st p => Machine.GenerateMesh.cell N s st p
          (Machine.GetVoxelIndex s ⟨0, p.Y, p.Z⟩ + p.X)) st := by
  unfold scanCells Machine.GenerateMesh.loopZ
  rw [foldlM_flatMap]
  congr 1
  funext st Z
  unfold Machine.GenerateMesh.loopY
  rw [foldlM_flatMap]
  congr 1
  funext st Y
  unfold Machine.GenerateMesh.loopX
  rw [List.foldlM_map]

theorem machine_fold_sim (Nm : Machine.FVector → Machine.FVector) (Ne : FVector → FVector)
    {s : Machine.ASurfaceNets} {P : Nat} (h : Machine.Ready s P) (l : List FIntVector3)
    (hl : ∀ p ∈ l, InScan P p) (stm : Machine.MeshState) (st : MeshState)
    (hVT : stm.VertexTable = st.VertexTable) (hVC : stm.VertexCount = st.VertexCount)
    (hT : stm.MeshData.Triangles = st.MeshData.Triangles) :
    l.foldlM (fun st p => Machine.GenerateMesh.cell Nm s st p
        (Machine.GetVoxelIndex s ⟨0, p.Y, p.Z⟩ + p.X)) stm =
      (l.foldlM (fun st p => GenerateMesh.cell Ne (shadowChunk s) st p
        (GetVoxelIndex (shadowChunk s) p)) st).map
        (fun st' => ⟨st'.VertexTable, st'.VertexCount,
          ⟨stm.MeshData.Vertices ++ (l.filter (surfaceCell (shadowChunk s))).map
              (fun p => Machine.cellVertex Nm s.BlockSize (Machine.cubeAt s p) p),
            stm.MeshData.Normals ++ (l.filter (surfaceCell (shadowChunk s))).map
              (fun p => (Machine.ComputeSDFSurface Nm (Machine.cubeAt s p)).2),
            st'.MeshData.Triangles⟩⟩) := by
  induction l generalizing stm st with
  | nil =>
    simp only [List.foldlM_nil, pure, Option.map_some', List.filter_nil, List.map_nil,
      List.append_nil, ← hVT, ← hVC, ← hT]
  | cons a l ih =>
    have ha : InScan P a := hl a (List.mem_cons_self _ _)
    have hl' : ∀ p ∈ l, InScan P p := fun p hp => hl p (List.mem_cons_of_mem _ hp)
    rw [List.foldlM_cons, List.foldlM_cons, machine_cell_sim Nm Ne h ha stm st hVT hVC hT]
    cases GenerateMesh.cell Ne (shadowChunk s) st a (GetVoxelIndex (shadowChunk s) a) with
    | none => rfl
    | some st1 =>
      simp only [Option.map_some', Option.bind_eq_bind, Option.some_bind]
      rw [ih hl' _ st1 rfl rfl rfl]
      congr 1
      funext st'
      by_cases hs : surfaceCell (shadowChunk s) a = true
      · simp [List.filter_cons, hs]
      · simp [List.filter_cons, hs]

theorem machine_march_table (Nm : Machine.FVector → Machine.FVector)
    {s : Machine.ASurfaceNets} {P : Nat} (h : Machine.Ready s P)
    (hempty : s.MeshData = Machine.emptyMesh) :
    ∃ st, Machine.GenerateMesh.run Nm s = some st ∧
      ∀ p, InScan P p →
        (readAt st.VertexTable (Machine.GetVoxelIndex s p) = some (-1) ↔
          (Machine.cornerMask (Machine.cubeAt s p) = 0x00 ∨
            Machine.cornerMask (Machine.cubeAt s p) = 0xFF)) ∧
        (¬ (Machine.cornerMask (Machine.cubeAt s p) = 0x00 ∨
            Machine.cornerMask (Machine.cubeAt s p) = 0xFF) →
          ∃ k : Nat, readAt st.VertexTable (Machine.GetVoxelIndex s p) = some (k : Int) ∧
            st.MeshData.Vertices[k]? =
              some (Machine.cellVertex Nm s.BlockSize (Machine.cubeAt s p) p) ∧
            st.MeshData.Normals[k]? =
              some (Machine.ComputeSDFSurface Nm (Machine.cubeAt s p)).2) := by
  have hs := shadowChunk_ready h
  obtain ⟨-, -, -, ste, hrun, -, -, -, htab⟩ := march_table id (shadowChunk s) P hs rfl
  have hn : (s.AxisOffsets.Y - 1).toNat = P - 1 := by
    rw [h.2.1]
    simp only
    omega
  have hne : ((shadowChunk s).AxisOffsets.Y - 1).toNat = P - 1 := hn
  unfold GenerateMesh.run at hrun
  rw [loopZ_eq, hne] at hrun
  have hsim := machine_fold_sim Nm id h (scanCells (P - 1))
    (fun p hp => mem_scanCells_iff.mp hp)
    ⟨List.replicate s.Voxels.length 0, 0, s.MeshData⟩
    ⟨List.replicate (shadowChunk s).Voxels.length 0, 0, (shadowChunk s).MeshData⟩
    (by simp [shadowChunk]) rfl (by rw [hempty]; rfl)
  rw [hrun] at hsim
  simp only [Option.map_some', hempty, Machine.emptyMesh, List.nil_append] at hsim
  refine ⟨⟨ste.VertexTable, ste.VertexCount,
    ⟨((scanCells (P - 1)).filter (surfaceCell (shadowChunk s))).map
        (fun p => Machine.cellVertex Nm s.BlockSize (Machine.cubeAt s p) p),
      ((scanCells (P - 1)).filter (surfaceCell (shadowChunk s))).map
        (fun p => (Machine.ComputeSDFSurface Nm (Machine.cubeAt s p)).2),
      ste.MeshData.Triangles⟩⟩, ?_, ?_⟩
  · unfold Machine.GenerateMesh.run
    rw [machine_loopZ_eq, hn, hempty]
    exact hsim
  · intro p hp
    obtain ⟨t1, t2⟩ := htab p hp
    rw [shadow_mask h hp] at t1 t2
    rw [machine_index_shadow h (inField_of_inScan hp)]
    refine ⟨t1, ?_⟩
    intro hnt
    obtain ⟨k, hk, hcell, -, -⟩ := t2 hnt
    refine ⟨k, hk, ?_, ?_⟩
    · simp only [List.getElem?_map]
      rw [← surfaceCells, hcell]
      rfl
    · simp only [List.getElem?_map]
      rw [← surfaceCells, hcell]
      rfl

/-! ## Extraction after a brush edit, over machine numbers -/

theorem machine_far_density {Sqrt : Binary → Binary} {s : Machine.ASurfaceNets} {P : Nat}
    (h : Machine.Ready s P) (hvalid : ∀ v ∈ s.Voxels, Binary.Valid single v)
    (hSqrt : ∀ n : Int, 4 ≤ n → n ≤ 12 →
      Binary.lt (Sqrt (Binary.ofInt single n)) (Binary.ofInt single 2) = false ∧
      Binary.isNaN (Sqrt (Binary.ofInt single n)) = false)
    (c : FIntVector3) (Block : EVoxelTutorialBlock) (V' : List Binary)
    (hval : ∀ q, InField P q → Machine.density { s with Voxels := V' } q =
      (if q.sub c ∈ brushOffsets ∧ Machine.InValid s q
        then Binary.add single (Machine.density s q)
          (Machine.brushAmount Sqrt (Binary.ofInt single 2)
            (if Block = EVoxelTutorialBlock.Air then Binary.ofInt single 1
              else Binary.ofInt single (-1)) (q.sub c))
        else Machine.density s q))
    {q : FIntVector3} (hq : InField P q) (hfar : 4 ≤ sqDist (q.sub c)) :
    Machine.density { s with Voxels := V' } q =
      if Block = EVoxelTutorialBlock.Air ∧ q.sub c ∈ brushOffsets ∧ Machine.InValid s q ∧
          Machine.density s q = Binary.finite true 0
        then Binary.finite false 0 else Machine.density s q := by
  rw [hval q hq]
  have hv := hvalid _ (machine_density_mem h hq)
  by_cases hm : q.sub c ∈ brushOffsets ∧ Machine.InValid s q
  · rw [if_pos hm,
      machine_amount_far hSqrt _ hfar (sqDist_le_of_mem (brushOffsets_subset hm.1))]
    by_cases hB : Block = EVoxelTutorialBlock.Air
    · rw [if_pos hB, mul_one_zero]
      by_cases hz : Machine.density s q = Binary.finite true 0
      · have e : Block = EVoxelTutorialBlock.Air ∧ q.sub c ∈ brushOffsets ∧
            Machine.InValid s q ∧ Machine.density s q = Binary.finite true 0 :=
          ⟨hB, hm.1, hm.2, hz⟩
        rw [if_pos e, hz]
        exact negzero_add_zero
      · have e : ¬ (Block = EVoxelTutorialBlock.Air ∧ q.sub c ∈ brushOffsets ∧
            Machine.InValid s q ∧ Machine.density s q = Binary.finite true 0) :=
          fun hc => hz hc.2.2.2
        rw [if_neg e]
        exact add_zero_of_valid hv hz
    · have e : ¬ (Block = EVoxelTutorialBlock.Air ∧ q.sub c ∈ brushOffsets ∧
          Machine.InValid s q ∧ Machine.density s q = Binary.finite true 0) :=
        fun hc => hB hc.1
      rw [if_neg hB, mul_neg_one_zero, if_neg e]
      exact add_negzero_of_valid hv
  · have e : ¬ (Block = EVoxelTutorialBlock.Air ∧ q.sub c ∈ brushOffsets ∧
        Machine.InValid s q ∧ Machine.density s q = Binary.finite true 0) :=
      fun hc => hm ⟨hc.2.1, hc.2.2.1⟩
    rw [if_neg hm, if_neg e]

theorem machine_corner_far {p c : FIntVector3}
    (hout : ¬ ((-2 ≤ p.X - c.X ∧ p.X - c.X ≤ 1) ∧ (-2 ≤ p.Y - c.Y ∧ p.Y - c.Y ≤ 1) ∧
      (-2 ≤ p.Z - c.Z ∧ p.Z - c.Z ≤ 1))) (Corner : Fin 8) :
    4 ≤ sqDist ((p.add (VertexOffset Corner)).sub c) := by
  apply far_offsets
  obtain ⟨ox, oy, oz⟩ := VertexOffset_bounds Corner
  simp only [FIntVector3.sub, FIntVector3.add]
  omega

set_option maxRecDepth 1000000 in
theorem brushChunk_march_before :
    (Machine.GenerateMesh.run id Machine.brushChunk).map
      (fun st => readAt st.VertexTable (Machine.GetVoxelIndex Machine.brushChunk ⟨1, 1, 3⟩)) =
      some (some 15) := by decide!

set_option maxRecDepth 1000000 in
theorem brushChunk_march_after :
    ((Machine.ModifyVoxelData sqrtTable Machine.brushChunk ⟨1, 1, 1⟩
        EVoxelTutorialBlock.Air).bind fun s' =>
      (Machine.GenerateMesh.run id s').map
        (fun st => readAt st.VertexTable (Machine.GetVoxelIndex s' ⟨1, 1, 3⟩))) =
      some (some (-1)) := by decide!

set_option maxRecDepth 1000000 in
theorem brushChunk_mask_after :
    (Machine.ModifyVoxelData sqrtTable Machine.brushChunk ⟨1, 1, 1⟩
        EVoxelTutorialBlock.Air).map
      (fun s' => Machine.cornerMask (Machine.cubeAt s' ⟨1, 1, 3⟩)) = some 0 := by decide!

/-- C9 fails as stated: on the chunk of size 3 with the `Air` brush centred at `(1, 1, 1)`,
the scanned cell `(1, 1, 3)` lies outside the box `c + [-2, 1]³`; its corner 0 stores `-0.0f`
and is visited by the loops at the offset `(0, 0, 2)`, where `+0.0f` is added.  Before the edit
the mask of the cell is 1 and the cell has the vertex number 15; after the edit the mask is 0
and the cell has no vertex. -/
theorem brush_flips_zero_outside_box :
    Machine.Ready Machine.brushChunk 5 ∧ InScan 5 ⟨1, 1, 3⟩ ∧
    ¬ ((-2 ≤ (1 : Int) - 1 ∧ (1 : Int) - 1 ≤ 1) ∧ (-2 ≤ (1 : Int) - 1 ∧ (1 : Int) - 1 ≤ 1) ∧
      (-2 ≤ (3 : Int) - 1 ∧ (3 : Int) - 1 ≤ 1)) ∧
    Machine.cornerMask (Machine.cubeAt Machine.brushChunk ⟨1, 1, 3⟩) = 1 ∧
    (Machine.GenerateMesh.run id Machine.brushChunk).map
      (fun st => readAt st.VertexTable (Machine.GetVoxelIndex Machine.brushChunk ⟨1, 1, 3⟩)) =
      some (some 15) ∧
    (Machine.ModifyVoxelData sqrtTable Machine.brushChunk ⟨1, 1, 1⟩
        EVoxelTutorialBlock.Air).map
      (fun s' => Machine.cornerMask (Machine.cubeAt s' ⟨1, 1, 3⟩)) = some 0 ∧
    ((Machine.ModifyVoxelData sqrtTable Machine.brushChunk ⟨1, 1, 1⟩
        EVoxelTutorialBlock.Air).bind fun s' =>
      (Machine.GenerateMesh.run id s').map
        (fun st => readAt st.VertexTable (Machine.GetVoxelIndex s' ⟨1, 1, 3⟩))) =
      some (some (-1)) := by
  refine ⟨machine_brushChunk_ready, ?_, by decide, by decide!, brushChunk_march_before,
    brushChunk_mask_after, brushChunk_march_after⟩
  unfold InScan
  decide

/-- C9 as amended, over machine numbers: for a chunk laid out by `Setup` whose buffer holds
`float` values and whose mesh sequences are empty, every brush centre `c` and either brush
mode, `ModifyVoxelData` returns and both extractions return.  Every visited cell whose minimum
corner lies outside the box `c + [-2, 1]³` has all 8 corners at distance 2 or more from the
centre, where the brush adds a zero.  If the mode is `Stone`, or if no corner of the cell that
the loops write stores `-0.0f`, the cell has the same 8 corner values and corner mask before and
after the edit, -1 in `VertexTable` in both extractions or in neither, and, when it has a
vertex, the same vertex position and the same normal.  In the mode `Air` a corner that the
loops write and that stores `-0.0f` holds `+0.0f` after the edit, which clears its bit of the
mask.  `Sqrt` stands for `FMath::Sqrt`, assumed to return a number not less than 2 for the
squared lengths 4 to 12. -/
theorem extraction_local_float (N : Machine.FVector → Machine.FVector)
    (Sqrt : Binary → Binary) (s : Machine.ASurfaceNets) (P : Nat) (c : FIntVector3)
    (Block : EVoxelTutorialBlock) (h : Machine.Ready s P)
    (hempty : s.MeshData = Machine.emptyMesh)
    (hvalid : ∀ v ∈ s.Voxels, Binary.Valid single v)
    (hSqrt : ∀ n : Int, 4 ≤ n → n ≤ 12 →
      Binary.lt (Sqrt (Binary.ofInt single n)) (Binary.ofInt single 2) = false ∧
      Binary.isNaN (Sqrt (Binary.ofInt single n)) = false) :
    ∃ s' st st', Machine.ModifyVoxelData Sqrt s c Block = some s' ∧
      Machine.GenerateMesh.run N s = some st ∧ Machine.GenerateMesh.run N s' = some st' ∧
      ∀ p, InScan P p →
        ¬ ((-2 ≤ p.X - c.X ∧ p.X - c.X ≤ 1) ∧ (-2 ≤ p.Y - c.Y ∧ p.Y - c.Y ≤ 1) ∧
          (-2 ≤ p.Z - c.Z ∧ p.Z - c.Z ≤ 1)) →
        (∀ Corner : Fin 8, 4 ≤ sqDist ((p.add (VertexOffset Corner)).sub c)) ∧
        (∀ Corner : Fin 8, Block = EVoxelTutorialBlock.Air →
          (p.add (VertexOffset Corner)).sub c ∈ brushOffsets →
          Machine.InValid s (p.add (VertexOffset Corner)) →
          Machine.cubeAt s p Corner = Binary.finite true 0 →
          Machine.cubeAt s' p Corner = Binary.finite false 0) ∧
        ((Block = EVoxelTutorialBlock.Stone ∨
            ∀ Corner : Fin 8, ¬ ((p.add (VertexOffset Corner)).sub c ∈ brushOffsets ∧
              Machine.InValid s (p.add (VertexOffset Corner)) ∧
              Machine.cubeAt s p Corner = Binary.finite true 0)) →
          Machine.cubeAt s' p = Machine.cubeAt s p ∧
          Machine.cornerMask (Machine.cubeAt s' p) = Machine.cornerMask (Machine.cubeAt s p) ∧
          (readAt st'.VertexTable (Machine.GetVoxelIndex s' p) = some (-1) ↔
            readAt st.VertexTable (Machine.GetVoxelIndex s p) = some (-1)) ∧
          (¬ (Machine.cornerMask (Machine.cubeAt s p) = 0x00 ∨
              Machine.cornerMask (Machine.cubeAt s p) = 0xFF) →
            ∃ k k' : Nat, readAt st.VertexTable (Machine.GetVoxelIndex s p) = some (k : Int) ∧
              readAt st'.VertexTable (Machine.GetVoxelIndex s' p) = some (k' : Int) ∧
              st'.MeshData.Vertices[k']? = st.MeshData.Vertices[k]? ∧
              st.MeshData.Vertices[k]? =
                some (Machine.cellVertex N s.BlockSize (Machine.cubeAt s p) p) ∧
              st'.MeshData.Normals[k']? = st.MeshData.Normals[k]? ∧
              st.MeshData.Normals[k]? =
                some (Machine.ComputeSDFSurface N (Machine.cubeAt s p)).2)) := by
  obtain ⟨V', hrun, hready, hval⟩ := machine_modify_spec Sqrt h c Block
  obtain ⟨st, hst, htab⟩ := machine_march_table N h hempty
  obtain ⟨st', hst', htab'⟩ := machine_march_table N hready hempty
  refine ⟨_, st, st', hrun, hst, hst', ?_⟩
  intro p hp hout
  have hfar := machine_corner_far hout
  have hden : ∀ Corner : Fin 8, Machine.cubeAt { s with Voxels := V' } p Corner =
      if Block = EVoxelTutorialBlock.Air ∧ (p.add (VertexOffset Corner)).sub c ∈ brushOffsets ∧
          Machine.InValid s (p.add (VertexOffset Corner)) ∧
          Machine.cubeAt s p Corner = Binary.finite true 0
        then Binary.finite false 0 else Machine.cubeAt s p Corner := fun Corner =>
    machine_far_density h hvalid hSqrt c Block V' hval (inField_add_offset hp Corner)
      (hfar Corner)
  refine ⟨hfar, ?_, ?_⟩
  · intro Corner hB hm hv hz
    rw [hden Corner, if_pos ⟨hB, hm, hv, hz⟩]
  · intro hcond
    have hcube : Machine.cubeAt { s with Voxels := V' } p = Machine.cubeAt s p := by
      funext Corner
      rw [hden Corner]
      apply if_neg
      rintro ⟨hB, hm, hv, hz⟩
      rcases hcond with hS | hnz
      · rw [hS] at hB
        exact absurd hB (by decide)
      · exact hnz Corner ⟨hm, hv, hz⟩
    obtain ⟨t1, t2⟩ := htab p hp
    obtain ⟨t1', t2'⟩ := htab' p hp
    rw [hcube] at t1' t2'
    refine ⟨hcube, by rw [hcube], t1'.trans t1.symm, ?_⟩
    intro hnt
    obtain ⟨k, r, v, n⟩ := t2 hnt
    obtain ⟨k', r', v', n'⟩ := t2' hnt
    exact ⟨k, k', r, r', v'.trans v.symm, v, n'.trans n.symm, n⟩

set_option maxRecDepth 1000000 in
theorem brushChunk_stone_march :
    (scanCells 4).countP (fun p => decide (¬ ((-2 ≤ p.X - 1 ∧ p.X - 1 ≤ 1) ∧
      (-2 ≤ p.Y - 1 ∧ p.Y - 1 ≤ 1) ∧ (-2 ≤ p.Z - 1 ∧ p.Z - 1 ≤ 1)))) = 37 ∧
    (Machine.GenerateMesh.run id Machine.brushChunk).map
      (fun st => (st.VertexCount,
        readAt st.VertexTable (Machine.GetVoxelIndex Machine.brushChunk ⟨1, 1, 3⟩))) =
      some (16, some 15) ∧
    ((Machine.ModifyVoxelData sqrtTable Machine.brushChunk ⟨1, 1, 1⟩
        EVoxelTutorialBlock.Stone).bind fun s' =>
      (Machine.GenerateMesh.run id s').map
        (fun st => (st.VertexCount,
          readAt st.VertexTable (Machine.GetVoxelIndex s' ⟨1, 1, 3⟩)))) =
      some (24, some 23) := by
  refine ⟨by decide, by decide!, by decide!⟩

/-- Witness of C9: the chunk of size 3 with the `Stone` brush centred at `(1, 1, 1)`, with the
values of `sqrtf`, and the cell `(1, 1, 3)`, one of the 37 visited cells outside the box
`c + [-2, 1]³`.  Its corner 0 stores `-0.0f` and is written by the loops; the cell keeps its
corner values, its mask 1 and its vertex, which is number 15 of 16 before the edit and number
23 of 24 after it. -/
theorem extraction_local_float_witness :
    Machine.Ready Machine.brushChunk 5 ∧ Machine.brushChunk.MeshData = Machine.emptyMesh ∧
    (∀ v ∈ Machine.brushChunk.Voxels, Binary.Valid single v) ∧ InScan 5 ⟨1, 1, 3⟩ ∧
    (∃ s' st st', Machine.ModifyVoxelData sqrtTable Machine.brushChunk ⟨1, 1, 1⟩
        EVoxelTutorialBlock.Stone = some s' ∧
      Machine.GenerateMesh.run id Machine.brushChunk = some st ∧
      Machine.GenerateMesh.run id s' = some st' ∧
      Machine.cubeAt s' ⟨1, 1, 3⟩ = Machine.cubeAt Machine.brushChunk ⟨1, 1, 3⟩ ∧
      Machine.cornerMask (Machine.cubeAt s' ⟨1, 1, 3⟩) =
        Machine.cornerMask (Machine.cubeAt Machine.brushChunk ⟨1, 1, 3⟩) ∧
      (readAt st'.VertexTable (Machine.GetVoxelIndex s' ⟨1, 1, 3⟩) = some (-1) ↔
        readAt st.VertexTable (Machine.GetVoxelIndex Machine.brushChunk ⟨1, 1, 3⟩) =
          some (-1)) ∧
      ∃ k k' : Nat,
        readAt st.VertexTable (Machine.GetVoxelIndex Machine.brushChunk ⟨1, 1, 3⟩) =
          some (k : Int) ∧
        readAt st'.VertexTable (Machine.GetVoxelIndex s' ⟨1, 1, 3⟩) = some (k' : Int) ∧
        st'.MeshData.Vertices[k']? = st.MeshData.Vertices[k]? ∧
        st.MeshData.Vertices[k]? =
          some (Machine.cellVertex id Machine.brushChunk.BlockSize
            (Machine.cubeAt Machine.brushChunk ⟨1, 1, 3⟩) ⟨1, 1, 3⟩) ∧
        st'.MeshData.Normals[k']? = st.MeshData.Normals[k]?) ∧
    Machine.cornerMask (Machine.cubeAt Machine.brushChunk ⟨1, 1, 3⟩) = 1 ∧
    (scanCells 4).countP (fun p => decide (¬ ((-2 ≤ p.X - 1 ∧ p.X - 1 ≤ 1) ∧
      (-2 ≤ p.Y - 1 ∧ p.Y - 1 ≤ 1) ∧ (-2 ≤ p.Z - 1 ∧ p.Z - 1 ≤ 1)))) = 37 ∧
    (Machine.GenerateMesh.run id Machine.brushChunk).map
      (fun st => (st.VertexCount,
        readAt st.VertexTable (Machine.GetVoxelIndex Machine.brushChunk ⟨1, 1, 3⟩))) =
      some (16, some 15) ∧
    ((Machine.ModifyVoxelData sqrtTable Machine.brushChunk ⟨1, 1, 1⟩
        EVoxelTutorialBlock.Stone).bind fun s' =>
      (Machine.GenerateMesh.run id s').map
        (fun st => (st.VertexCount,
          readAt st.VertexTable (Machine.GetVoxelIndex s' ⟨1, 1, 3⟩)))) =
      some (24, some 23) := by
  have hp : InScan 5 ⟨1, 1, 3⟩ := by
    unfold InScan
    decide
  have hm : Machine.cornerMask (Machine.cubeAt Machine.brushChunk ⟨1, 1, 3⟩) = 1 := by decide!
  refine ⟨machine_brushChunk_ready, rfl, machine_brushChunk_valid, hp, ?_, hm,
    brushChunk_stone_march.1, brushChunk_stone_march.2.1, brushChunk_stone_march.2.2⟩
  obtain ⟨s', st, st', h1, h2, h3, h4⟩ :=
    extraction_local_float id sqrtTable Machine.brushChunk 5 ⟨1, 1, 1⟩
      EVoxelTutorialBlock.Stone machine_brushChunk_ready rfl machine_brushChunk_valid
      sqrtTable_ok
  obtain ⟨-, -, h5⟩ := h4 ⟨1, 1, 3⟩ hp (by decide)
  obtain ⟨a, b, c, d⟩ := h5 (Or.inl rfl)
  obtain ⟨k, k', r, r', v', v, n', -⟩ := d (by rw [hm]; decide)
  exact ⟨s', st, st', h1, h2, h3, a, b, c, k, k', r, r', v', v, n'⟩

end SurfaceNets
